import Mathlib

/-!
# File-System image engine: shallow embedding and verification

The development embeds the C++ sources `utility.h`, `allocator.h`, `inodes.h`,
`memory_blocks.h` and `file_system.h` of the repository.

Conventions of the embedding

* `char`, `byte` and `uint16_t` values are natural numbers; a `char` is kept as its raw
  byte `0..255`, and the places where the source relies on the signedness of `char`
  (x86-64 ABI: `char` is signed) are spelled out.  Arithmetic on `uint16_t` objects is
  reduced `% 65536`, arithmetic on `byte` objects `% 256`.
* `std::vector` and `std::string` are lists.  An out-of-range subscript is undefined
  behaviour in the source; the embedding reports it as `Failure.undefined`.  The same value
  is used for a loop of the source that never terminates.
* A `throw std::runtime_error(msg)` is `Failure.runtime_error msg`.  The command loop
  catches the exception and keeps using the same `File_System` object, therefore every
  facade operation returns the state it leaves behind also when it fails.
-/

namespace FS

/-! ## Part I: definitions -/

/-- How a call can fail to produce a value. -/
inductive Failure where
  | runtime_error (what : String)
  | undefined
deriving DecidableEq, Repr

abbrev vec_c := List Nat
abbrev vec_16 := List Nat
abbrev vec_s := List (List Nat)

/-- Payload bytes of one memory block (`Memory_Blocks::content_size`). -/
def content_size : Nat := 50

/-! ### utility.h -/

/-- The value of `(uint16_t) c` for a `char` object holding the raw byte `c`
(sign extension of a signed `char`). -/
def char_to_uint16 (c : Nat) : Nat :=
  if c % 256 < 128 then c % 256 else 65280 + c % 256

/-- `read_uint16_t(const vec_c&, uint16_t)` applied to the two bytes `buffer[pos]` (`lo`)
and `buffer[pos + 1]` (`hi`): `((uint16_t) hi << 8) | (byte) lo`, truncated to 16 bits. -/
def read_uint16_t (lo hi : Nat) : Nat :=
  ((char_to_uint16 hi <<< 8) ||| (lo % 256)) % 65536

/-- The byte pushed by `content.push_back((char) inode)`. -/
def inode_low_byte (inode : Nat) : Nat := inode % 256

/-- The byte pushed by `content.push_back((char) inode >> 8)`: the cast binds tighter than
the shift, so the shifted value is the sign-extended low byte, i.e. `0` or `-1`. -/
def inode_high_byte (inode : Nat) : Nat :=
  if inode % 256 < 128 then 0 else 255

structure Directory where
  inode_num : Nat
  mem_block : Nat
  names : vec_s
  inodes : vec_16
deriving DecidableEq, Repr

/-- Inner loop of the `Directory` constructor: `while (dir_content[read] != 0) s.append(...)`.
Returns the name and the bytes after the terminating NUL; running off the end of the
buffer is an out-of-range read. -/
def Directory.read_name : vec_c → Option (List Nat × vec_c)
  | [] => none
  | c :: rest =>
    if c = 0 then some ([], rest)
    else match Directory.read_name rest with
      | none => none
      | some (s, rest') => some (c :: s, rest')

/-- Outer loop of the `Directory` constructor on the bytes from the cursor `read` on.
One unit of fuel per record; every record consumes at least three bytes. -/
def Directory.read_entries : Nat → vec_c → Except Failure (vec_s × vec_16)
  | 0, [] => .ok ([], [])
  | 0, _ :: _ => .error .undefined
  | _ + 1, [] => .ok ([], [])
  | fuel + 1, c :: rest =>
    match Directory.read_name (c :: rest) with
    | none => .error .undefined
    | some (s, lo :: hi :: rest') =>
      match Directory.read_entries fuel rest' with
      | .error e => .error e
      | .ok (names, inodes) => .ok (s :: names, read_uint16_t lo hi :: inodes)
    | some (_, _) => .error .undefined

/-- `Directory::Directory(inode_nr, mem_block, dir_content)`.  The cursor `read` is a
`uint16_t`, so with a buffer of 65536 bytes or more the loop condition never becomes
false. -/
def Directory.make (inode_nr mem_block : Nat) (dir_content : vec_c) : Except Failure Directory :=
  if 65536 ≤ dir_content.length then .error .undefined
  else match Directory.read_entries dir_content.length dir_content with
    | .error e => .error e
    | .ok (names, inodes) => .ok ⟨inode_nr, mem_block, names, inodes⟩

/-- `Directory::add_new_file`. -/
def Directory.add_new_file (dir : Directory) (s : List Nat) (inode : Nat) : Except Failure Directory :=
  if s ∈ dir.names then .error (.runtime_error "File already exists")
  else .ok { dir with names := dir.names ++ [s], inodes := dir.inodes ++ [inode] }

/-- `Directory::get_file_inode`: the inode at the first index whose name is `s`, else `0`. -/
def Directory.get_file_inode (dir : Directory) (s : List Nat) : Nat :=
  let idx := dir.names.indexOf s
  if idx = dir.names.length then 0 else dir.inodes.getD idx 0

/-- `Directory::erase_file`. -/
def Directory.erase_file (dir : Directory) (s : List Nat) : Except Failure Directory :=
  let idx := dir.names.indexOf s
  if idx = dir.names.length then .error (.runtime_error "File not found")
  else .ok { dir with names := dir.names.eraseIdx idx, inodes := dir.inodes.eraseIdx idx }

/-- Loop body of `Directory::get_directory_content` over the parallel vectors. -/
def Directory.encode_entries : vec_s → vec_16 → vec_c
  | [], _ => []
  | name :: names, inodes =>
    name ++ [0, inode_low_byte (inodes.headD 0), inode_high_byte (inodes.headD 0)]
      ++ Directory.encode_entries names inodes.tail

/-- `Directory::get_directory_content`. -/
def Directory.get_directory_content (dir : Directory) : vec_c :=
  Directory.encode_entries dir.names dir.inodes

structure File where
  mem_block : Nat
  content : vec_c
deriving DecidableEq, Repr

/-- `File::add_to_file`. -/
def File.add_to_file (f : File) (m : List Nat) : File :=
  { f with content := f.content ++ m }

/-- `File::cut_from_file`. -/
def File.cut_from_file (f : File) (to_cut : Nat) : File :=
  if to_cut ≥ f.content.length then { f with content := [] }
  else { f with content := f.content.take (f.content.length - to_cut) }

/-! ### allocator.h -/

structure Allocator where
  size : Nat
  first_free : Nat
  status : vec_c
deriving DecidableEq, Repr

/-- The byte `'1'`: a free slot. -/
def FREE : Nat := 49

/-- The byte `'0'`: a used slot. -/
def USED : Nat := 48

/-- `Allocator::find_first_free` from index `i` on, with `fuel = size - i`. -/
def Allocator.find_first_free_from (size : Nat) (status : vec_c) : Nat → Nat → Except Failure Nat
  | 0, _ => .ok size
  | fuel + 1, i =>
    if i < size then
      match status[i]? with
      | none => .error .undefined
      | some c => if c = FREE then .ok i else Allocator.find_first_free_from size status fuel (i + 1)
    else .ok size

/-- `Allocator::find_first_free`. -/
def Allocator.find_first_free (size : Nat) (status : vec_c) : Except Failure Nat :=
  Allocator.find_first_free_from size status size 0

/-- The loop of `Allocator::get_free_index`:
`while (first_free < size && status[first_free] != '1') first_free++;`.
The fuel is `size - first_free`, one unit per increment. -/
def Allocator.advance (a : Allocator) : Nat → Except Failure Allocator
  | 0 => .ok a
  | fuel + 1 =>
    if a.first_free < a.size then
      match a.status[a.first_free]? with
      | none => .error .undefined
      | some c =>
        if c ≠ FREE then Allocator.advance { a with first_free := a.first_free + 1 } fuel
        else .ok a
    else .ok a

/-- `Allocator::get_free_index`: the returned index and the allocator with the moved hint. -/
def Allocator.get_free_index (a : Allocator) : Except Failure (Nat × Allocator) :=
  match a.advance (a.size - a.first_free) with
  | .error e => .error e
  | .ok a' => .ok (if a'.first_free = a'.size then 0 else a'.first_free, a')

/-- `Allocator::mark_as_used`.  The guard compares the status byte with the number `0`. -/
def Allocator.mark_as_used (a : Allocator) (idx : Nat) : Except Failure Allocator :=
  match a.status[idx]? with
  | none => .error .undefined
  | some c =>
    if c = 0 then .error (.runtime_error "Trying to corrupt used block")
    else .ok { a with status := a.status.set idx USED }

/-- `Allocator::free`. -/
def Allocator.free (a : Allocator) (idx : Nat) : Except Failure Allocator :=
  if idx = 0 ∨ idx ≥ a.size then .error (.runtime_error "Trying to release unavailable block")
  else match a.status[idx]? with
    | none => .error .undefined
    | some c =>
      if c = FREE then .error (.runtime_error "Trying to release free memory block")
      else .ok { a with status := a.status.set idx FREE, first_free := min a.first_free idx }

/-- `Allocator::free_blocks_amount` from index `i` on, with `fuel = size - i`. -/
def Allocator.free_blocks_amount_from (size : Nat) (status : vec_c) : Nat → Nat → Except Failure Nat
  | 0, _ => .ok 0
  | fuel + 1, i =>
    if i < size then
      match status[i]?, Allocator.free_blocks_amount_from size status fuel (i + 1) with
      | some c, .ok amount => .ok (if c = FREE then amount + 1 else amount)
      | none, _ => .error .undefined
      | _, .error e => .error e
    else .ok 0

/-- `Allocator::info`: the two numbers it prints (total, free). -/
def Allocator.info (a : Allocator) : Except Failure (Nat × Nat) :=
  match Allocator.free_blocks_amount_from a.size a.status (a.size - a.first_free) a.first_free with
  | .error e => .error e
  | .ok amount => .ok (a.size, amount % 65536)

/-! ### inodes.h -/

structure Inode where
  is_dir : Nat
  number : Nat
  memory_block : Nat
deriving DecidableEq, Repr

abbrev inode_v := List Inode

/-- `Inodes::get_memory_block` and `Inodes::get_inode_mem_block`. -/
def Inodes.get_memory_block (nodes : inode_v) (n : Nat) : Except Failure Nat :=
  match nodes[n]? with
  | none => .error .undefined
  | some node => .ok node.memory_block

/-- `Inodes::get_inode_pointers`. -/
def Inodes.get_inode_pointers (nodes : inode_v) (n : Nat) : Except Failure Nat :=
  match nodes[n]? with
  | none => .error .undefined
  | some node => .ok node.number

/-- `Inodes::is_inode_directory`. -/
def Inodes.is_inode_directory (nodes : inode_v) (n : Nat) : Except Failure Bool :=
  match nodes[n]? with
  | none => .error .undefined
  | some node => .ok (node.is_dir != 0)

/-- `Inodes::create_new_inode`. -/
def Inodes.create_new_inode (nodes : inode_v) (inode_number : Nat) (is_dir : Bool) (mem_block : Nat) :
    Except Failure inode_v :=
  match nodes[inode_number]? with
  | none => .error .undefined
  | some _ => .ok (nodes.set inode_number ⟨if is_dir then 1 else 0, if is_dir then 0 else 1, mem_block⟩)

/-- `Inodes::add_pointer_to_inode`: `number++` on a `byte`. -/
def Inodes.add_pointer_to_inode (nodes : inode_v) (n : Nat) : Except Failure inode_v :=
  match nodes[n]? with
  | none => .error .undefined
  | some node => .ok (nodes.set n { node with number := (node.number + 1) % 256 })

/-- `Inodes::remove_pointer_from_inode`: `number--` on a `byte`. -/
def Inodes.remove_pointer_from_inode (nodes : inode_v) (n : Nat) : Except Failure inode_v :=
  match nodes[n]? with
  | none => .error .undefined
  | some node => .ok (nodes.set n { node with number := (node.number + 255) % 256 })

/-! ### memory_blocks.h -/

/-- A memory block.  `content` always holds exactly `content_size` bytes: it is created by
`read_string(f, content_size)` and never resized. -/
structure Memory_Block where
  next_block : Nat
  occupied : Nat
  content : vec_c
deriving DecidableEq, Repr

abbrev mem_v := List Memory_Block

/-- `Memory_Block::clear_memory_block`. -/
def Memory_Block.clear_memory_block (_b : Memory_Block) : Memory_Block :=
  ⟨0, 0, List.replicate content_size 0⟩

/-- `Memory_Blocks::fill_content_with_memory_chunk`; one unit of fuel per visited block.  A
walk longer than the number of blocks is on a cycle and never ends. -/
def Memory_Blocks.fill_content_with_memory_chunk (blocks : mem_v) :
    Nat → Nat → vec_c → Except Failure vec_c
  | 0, _, _ => .error .undefined
  | fuel + 1, mem_start, content =>
    match blocks[mem_start]? with
    | none => .error .undefined
    | some b =>
      if b.occupied ≤ b.content.length then
        if b.next_block ≠ 0 then
          Memory_Blocks.fill_content_with_memory_chunk blocks fuel b.next_block
            (content ++ b.content.take b.occupied)
        else .ok (content ++ b.content.take b.occupied)
      else .error .undefined

/-- `Memory_Blocks::full_file_content`. -/
def Memory_Blocks.full_file_content (blocks : mem_v) (mem_start : Nat) : Except Failure vec_c :=
  Memory_Blocks.fill_content_with_memory_chunk blocks blocks.length mem_start []

/-- The loop of `Memory_Blocks::save_file`, one iteration per byte of `content`.  Returns the
blocks together with the final `mem_block` and `mem_idx`. -/
def Memory_Blocks.save_file_loop : mem_v → Nat → Nat → vec_c → Except Failure (mem_v × Nat × Nat)
  | blocks, mem_block, mem_idx, [] => .ok (blocks, mem_block, mem_idx)
  | blocks, mem_block, mem_idx, c :: rest =>
    if mem_idx = content_size then
      match blocks[mem_block]? with
      | none => .error .undefined
      | some b =>
        match (blocks.set mem_block { b with occupied := content_size })[b.next_block]? with
        | none => .error .undefined
        | some b' =>
          if 0 < b'.content.length then
            Memory_Blocks.save_file_loop
              ((blocks.set mem_block { b with occupied := content_size }).set b.next_block
                { b' with content := b'.content.set 0 c })
              b.next_block 1 rest
          else .error .undefined
    else
      match blocks[mem_block]? with
      | none => .error .undefined
      | some b =>
        if mem_idx < b.content.length then
          Memory_Blocks.save_file_loop
            (blocks.set mem_block { b with content := b.content.set mem_idx c })
            mem_block (mem_idx + 1) rest
        else .error .undefined

/-- `Memory_Blocks::save_file`.  The cursor `con_idx` is a `uint16_t`: with 65536 bytes or
more the loop condition never becomes false. -/
def Memory_Blocks.save_file (blocks : mem_v) (mem_block : Nat) (content : vec_c) : Except Failure mem_v :=
  if 65536 ≤ content.length then .error .undefined
  else match Memory_Blocks.save_file_loop blocks mem_block 0 content with
    | .error e => .error e
    | .ok (blocks', mem_block', mem_idx) =>
      match blocks'[mem_block']? with
      | none => .error .undefined
      | some b => .ok (blocks'.set mem_block' { b with occupied := mem_idx % 256 })

/-- `Memory_Blocks::free_memory`; one unit of fuel per visited block.  Every visited block is
cleared, so the walk ends after at most `blocks.size() + 1` blocks. -/
def Memory_Blocks.free_memory_loop : Nat → mem_v → Nat → vec_16 → Except Failure (vec_16 × mem_v)
  | 0, _, _, _ => .error .undefined
  | fuel + 1, blocks, n, freed_blocks =>
    match blocks[n]? with
    | none => .error .undefined
    | some b =>
      if b.next_block ≠ 0 then
        Memory_Blocks.free_memory_loop fuel (blocks.set n b.clear_memory_block) b.next_block
          (freed_blocks ++ [n])
      else .ok (freed_blocks ++ [n], blocks.set n b.clear_memory_block)

/-- `Memory_Blocks::free_memory`. -/
def Memory_Blocks.free_memory (blocks : mem_v) (n : Nat) : Except Failure (vec_16 × mem_v) :=
  Memory_Blocks.free_memory_loop (blocks.length + 1) blocks n []

/-- `Memory_Blocks::get_file_size`; `size` is a `uint16_t`. -/
def Memory_Blocks.get_file_size_loop (blocks : mem_v) : Nat → Nat → Nat → Except Failure Nat
  | 0, _, _ => .error .undefined
  | fuel + 1, start, size =>
    match blocks[start]? with
    | none => .error .undefined
    | some b =>
      if b.next_block ≠ 0 then
        Memory_Blocks.get_file_size_loop blocks fuel b.next_block ((size + content_size) % 65536)
      else .ok ((size + content_size) % 65536)

/-- `Memory_Blocks::get_file_size`. -/
def Memory_Blocks.get_file_size (blocks : mem_v) (start : Nat) : Except Failure Nat :=
  Memory_Blocks.get_file_size_loop blocks blocks.length start 0

/-- The loop `while (blocks[start].next_block) start = blocks[start].next_block;`. -/
def Memory_Blocks.last_of_list (blocks : mem_v) : Nat → Nat → Except Failure Nat
  | 0, _ => .error .undefined
  | fuel + 1, start =>
    match blocks[start]? with
    | none => .error .undefined
    | some b =>
      if b.next_block ≠ 0 then Memory_Blocks.last_of_list blocks fuel b.next_block
      else .ok start

/-- `Memory_Blocks::append_to_block_list`. -/
def Memory_Blocks.append_to_block_list (blocks : mem_v) (start next : Nat) : Except Failure mem_v :=
  match Memory_Blocks.last_of_list blocks blocks.length start with
  | .error e => .error e
  | .ok last =>
    match blocks[last]? with
    | none => .error .undefined
    | some b =>
      match (blocks.set last { b with next_block := next })[next]? with
      | none => .error .undefined
      | some b' => .ok ((blocks.set last { b with next_block := next }).set next b'.clear_memory_block)

/-- The loop of `Memory_Blocks::erase_from_block_list`:
`while (blocks[n_start].next_block) { start = n_start; n_start = blocks[n_start].next_block; }`. -/
def Memory_Blocks.last_two_of_list (blocks : mem_v) : Nat → Nat → Nat → Except Failure (Nat × Nat)
  | 0, _, _ => .error .undefined
  | fuel + 1, start, n_start =>
    match blocks[n_start]? with
    | none => .error .undefined
    | some b =>
      if b.next_block ≠ 0 then Memory_Blocks.last_two_of_list blocks fuel n_start b.next_block
      else .ok (start, n_start)

/-- `Memory_Blocks::erase_from_block_list`: the freed index and the new blocks. -/
def Memory_Blocks.erase_from_block_list (blocks : mem_v) (start : Nat) : Except Failure (Nat × mem_v) :=
  match blocks[start]? with
  | none => .error .undefined
  | some b0 =>
    if b0.next_block = 0 then
      .error (.runtime_error
        "CRITICAL ERROR. Trying to shrink directory into 0 blocks but directory still exists")
    else match Memory_Blocks.last_two_of_list blocks blocks.length start b0.next_block with
      | .error e => .error e
      | .ok (start', n_start) =>
        match blocks[start']? with
        | none => .error .undefined
        | some b =>
          match (blocks.set start' { b with next_block := 0 })[n_start]? with
          | none => .error .undefined
          | some b' =>
            .ok (n_start, (blocks.set start' { b with next_block := 0 }).set n_start b'.clear_memory_block)

/-! ### file_system.h: class File_System -/

structure File_System where
  inodes_allocator : Allocator
  inodes : inode_v
  memory_allocator : Allocator
  memory : mem_v
deriving DecidableEq, Repr

/-- Outcome of a facade call together with the state the call leaves behind. -/
abbrev Result (α : Type) := Except Failure α × File_System

/-- `File_System::add_new_file_to_directory`; returns the updated local `Directory`. -/
def File_System.add_new_file_to_directory (fs : File_System) (dir : Directory)
    (file_name : List Nat) (is_dir : Bool) : Result Directory :=
  match fs.inodes_allocator.get_free_index with
  | .error e => (.error e, fs)
  | .ok (file_inode, ia) =>
    match fs.memory_allocator.get_free_index with
    | .error e => (.error e, { fs with inodes_allocator := ia })
    | .ok (file_mem_block, ma) =>
      if file_inode = 0 ∨ file_mem_block = 0 then
        (.error (.runtime_error "Unable to create new file; Missing free space"),
          { fs with inodes_allocator := ia, memory_allocator := ma })
      else
        match ia.mark_as_used file_inode with
        | .error e => (.error e, { fs with inodes_allocator := ia, memory_allocator := ma })
        | .ok ia' =>
          match ma.mark_as_used file_mem_block with
          | .error e => (.error e, { fs with inodes_allocator := ia', memory_allocator := ma })
          | .ok ma' =>
            match Inodes.create_new_inode fs.inodes file_inode is_dir file_mem_block with
            | .error e => (.error e, { fs with inodes_allocator := ia', memory_allocator := ma' })
            | .ok nodes =>
              match dir.add_new_file file_name file_inode with
              | .error e =>
                (.error e, { fs with inodes_allocator := ia', memory_allocator := ma', inodes := nodes })
              | .ok dir' =>
                match Inodes.add_pointer_to_inode nodes dir'.inode_num with
                | .error e =>
                  (.error e, { fs with inodes_allocator := ia', memory_allocator := ma', inodes := nodes })
                | .ok nodes' =>
                  (.ok dir', { fs with inodes_allocator := ia', memory_allocator := ma', inodes := nodes' })

/-- `File_System::allocate_needed_memory`; one unit of fuel per appended block.  Every
iteration turns one `'1'` of the status vector into `'0'`, so `size + 1` units suffice. -/
def File_System.allocate_needed_memory (mem_block dir_content_size : Nat) :
    Nat → File_System → Nat → Result Unit
  | 0, fs, dir_actual_size =>
    if dir_content_size > dir_actual_size then (.error .undefined, fs) else (.ok (), fs)
  | fuel + 1, fs, dir_actual_size =>
    if dir_content_size > dir_actual_size then
      match fs.memory_allocator.get_free_index with
      | .error e => (.error e, fs)
      | .ok (next_block, ma) =>
        if next_block = 0 then
          (.error (.runtime_error "Unable to extend directory; Out of memory"),
            { fs with memory_allocator := ma })
        else
          match Memory_Blocks.append_to_block_list fs.memory mem_block next_block with
          | .error e => (.error e, { fs with memory_allocator := ma })
          | .ok blocks =>
            match ma.mark_as_used next_block with
            | .error e => (.error e, { fs with memory_allocator := ma, memory := blocks })
            | .ok ma' =>
              File_System.allocate_needed_memory mem_block dir_content_size fuel
                { fs with memory_allocator := ma', memory := blocks }
                ((dir_actual_size + content_size) % 65536)
    else (.ok (), fs)

/-- `File_System::deallocate_excessive_memory`; one unit of fuel per removed block.  The
right-hand side of the loop condition is computed in `unsigned int`. -/
def File_System.deallocate_excessive_memory (mem_block dir_content_size : Nat) :
    Nat → File_System → Nat → Result Unit
  | 0, fs, dir_actual_size =>
    if dir_content_size < (dir_actual_size + 4294967296 - content_size) % 4294967296 then
      (.error .undefined, fs)
    else (.ok (), fs)
  | fuel + 1, fs, dir_actual_size =>
    if dir_content_size < (dir_actual_size + 4294967296 - content_size) % 4294967296 then
      match Memory_Blocks.erase_from_block_list fs.memory mem_block with
      | .error e => (.error e, fs)
      | .ok (freed_block, blocks) =>
        match fs.memory_allocator.free freed_block with
        | .error e => (.error e, { fs with memory := blocks })
        | .ok ma =>
          File_System.deallocate_excessive_memory mem_block dir_content_size fuel
            { fs with memory_allocator := ma, memory := blocks }
            ((dir_actual_size + 65536 - content_size) % 65536)
    else (.ok (), fs)

/-- `File_System::save_content_to_memory`. -/
def File_System.save_content_to_memory (fs : File_System) (mem_block : Nat) (content : vec_c) :
    Result Unit :=
  match Memory_Blocks.get_file_size fs.memory mem_block with
  | .error e => (.error e, fs)
  | .ok actual_size =>
    match
      (if content.length % 65536 > actual_size then
        File_System.allocate_needed_memory mem_block (content.length % 65536)
          (fs.memory_allocator.status.length + 1) fs actual_size
      else
        File_System.deallocate_excessive_memory mem_block (content.length % 65536)
          (fs.memory.length + 1) fs actual_size) with
    | (.error e, fs') => (.error e, fs')
    | (.ok (), fs') =>
      match Memory_Blocks.save_file fs'.memory mem_block content with
      | .error e => (.error e, fs')
      | .ok blocks => (.ok (), { fs' with memory := blocks })

/-- `File_System::save_directory_to_memory`. -/
def File_System.save_directory_to_memory (fs : File_System) (dir : Directory) : Result Unit :=
  fs.save_content_to_memory dir.mem_block dir.get_directory_content

/-- `File_System::save_file_to_memory`. -/
def File_System.save_file_to_memory (fs : File_System) (file : File) : Result Unit :=
  fs.save_content_to_memory file.mem_block file.content

/-- The statements of `File_System::find_directory` after the lookup of one segment:
the directory check and the construction of the next `Directory`. -/
def File_System.enter_directory (fs : File_System) (inode : Nat) : Result Directory :=
  match Inodes.is_inode_directory fs.inodes inode with
  | .error e => (.error e, fs)
  | .ok false =>
    (.error (.runtime_error "Incorrect path (found file inside specified path)"), fs)
  | .ok true =>
    match Inodes.get_memory_block fs.inodes inode with
    | .error e => (.error e, fs)
    | .ok block =>
      match Memory_Blocks.full_file_content fs.memory block with
      | .error e => (.error e, fs)
      | .ok dir_content =>
        match Directory.make inode block dir_content with
        | .error e => (.error e, fs)
        | .ok dir => (.ok dir, fs)

/-- The `for (auto const& s : path)` loop of `File_System::find_directory`. -/
def File_System.find_directory_loop : File_System → Directory → vec_s → Result Directory
  | fs, dir, [] => (.ok dir, fs)
  | fs, dir, s :: path =>
    if dir.get_file_inode s = 0 then
      match fs.add_new_file_to_directory dir s true with
      | (.error e, fs1) => (.error e, fs1)
      | (.ok dir1, fs1) =>
        match fs1.save_directory_to_memory dir1 with
        | (.error e, fs2) => (.error e, fs2)
        | (.ok (), fs2) =>
          match fs2.enter_directory (dir1.get_file_inode s) with
          | (.error e, fs3) => (.error e, fs3)
          | (.ok dir2, fs3) => File_System.find_directory_loop fs3 dir2 path
    else
      match fs.enter_directory (dir.get_file_inode s) with
      | (.error e, fs1) => (.error e, fs1)
      | (.ok dir1, fs1) => File_System.find_directory_loop fs1 dir1 path

/-- `File_System::find_directory`. -/
def File_System.find_directory (fs : File_System) (path : vec_s) : Result Directory :=
  match Memory_Blocks.full_file_content fs.memory 0 with
  | .error e => (.error e, fs)
  | .ok dir_content =>
    match Directory.make 0 0 dir_content with
    | .error e => (.error e, fs)
    | .ok dir => File_System.find_directory_loop fs dir path

/-- `File_System::add_link_to_directory`. -/
def File_System.add_link_to_directory (fs : File_System) (dir : Directory) (src : Nat)
    (link : List Nat) : Result Directory :=
  if src = 0 then (.error (.runtime_error "File does not exist"), fs)
  else match Inodes.is_inode_directory fs.inodes src with
    | .error e => (.error e, fs)
    | .ok true => (.error (.runtime_error "Unable to link directory"), fs)
    | .ok false =>
      match dir.add_new_file link src with
      | .error e => (.error e, fs)
      | .ok dir' =>
        match Inodes.add_pointer_to_inode fs.inodes dir'.inode_num with
        | .error e => (.error e, fs)
        | .ok nodes =>
          match Inodes.add_pointer_to_inode nodes src with
          | .error e => (.error e, { fs with inodes := nodes })
          | .ok nodes' => (.ok dir', { fs with inodes := nodes' })

/-- `File_System::can_erase_directory_from_directory`. -/
def File_System.can_erase_directory_from_directory (fs : File_System) (dir : Directory)
    (s : List Nat) : Except Failure Bool :=
  match Inodes.get_inode_pointers fs.inodes (dir.get_file_inode s) with
  | .error e => .error e
  | .ok pointers => .ok (pointers == 0)

/-- The loop `for (auto block : freed_blocks) memory_allocator.free(block);`. -/
def File_System.free_blocks : Allocator → vec_16 → Except Failure Allocator × Allocator
  | a, [] => (.ok a, a)
  | a, block :: rest =>
    match a.free block with
    | .error e => (.error e, a)
    | .ok a' => File_System.free_blocks a' rest

/-- The block `if (!inodes.get_inode_pointers(file_node)) { ... }` of
`File_System::erase_from_directory`. -/
def File_System.release_if_unreferenced (fs : File_System) (file_node : Nat) : Result Unit :=
  match Inodes.get_inode_pointers fs.inodes file_node with
  | .error e => (.error e, fs)
  | .ok pointers =>
    if pointers = 0 then
      match Inodes.get_memory_block fs.inodes file_node with
      | .error e => (.error e, fs)
      | .ok mem_block =>
        match fs.inodes_allocator.free file_node with
        | .error e => (.error e, fs)
        | .ok ia =>
          match Memory_Blocks.free_memory fs.memory mem_block with
          | .error e => (.error e, { fs with inodes_allocator := ia })
          | .ok (freed_blocks, blocks) =>
            match File_System.free_blocks fs.memory_allocator freed_blocks with
            | (.error e, ma) =>
              (.error e, { fs with inodes_allocator := ia, memory := blocks, memory_allocator := ma })
            | (.ok _, ma) =>
              (.ok (), { fs with inodes_allocator := ia, memory := blocks, memory_allocator := ma })
    else (.ok (), fs)

/-- The statement `if (is_dir && !can_erase) throw ...; else if (!is_dir) remove_pointer...`
of `File_System::erase_from_directory`. -/
def File_System.check_or_unlink (fs : File_System) (dir : Directory) (s : List Nat)
    (is_dir : Bool) : Result Unit :=
  if is_dir then
    match fs.can_erase_directory_from_directory dir s with
    | .error e => (.error e, fs)
    | .ok false =>
      (.error (.runtime_error "Unable to erase directory. Directory is not empty"), fs)
    | .ok true => (.ok (), fs)
  else
    match Inodes.remove_pointer_from_inode fs.inodes (dir.get_file_inode s) with
    | .error e => (.error e, fs)
    | .ok nodes => (.ok (), { fs with inodes := nodes })

/-- `File_System::erase_from_directory`; returns the updated local `Directory`. -/
def File_System.erase_from_directory (fs : File_System) (dir : Directory) (s : List Nat) :
    Result Directory :=
  if dir.get_file_inode s = 0 then (.error (.runtime_error "File not found"), fs)
  else
    match Inodes.is_inode_directory fs.inodes (dir.get_file_inode s) with
    | .error e => (.error e, fs)
    | .ok is_dir =>
      match fs.check_or_unlink dir s is_dir with
      | (.error e, fs1) => (.error e, fs1)
      | (.ok (), fs1) =>
        match fs1.release_if_unreferenced (dir.get_file_inode s) with
        | (.error e, fs2) => (.error e, fs2)
        | (.ok (), fs2) =>
          match dir.erase_file s with
          | .error e => (.error e, fs2)
          | .ok dir' =>
            match Inodes.remove_pointer_from_inode fs2.inodes dir'.inode_num with
            | .error e => (.error e, fs2)
            | .ok nodes => (.ok dir', { fs2 with inodes := nodes })

/-- `File_System::get_file`. -/
def File_System.get_file (fs : File_System) (dir : Directory) (file_name : List Nat) :
    Except Failure File :=
  match Inodes.get_memory_block fs.inodes (dir.get_file_inode file_name) with
  | .error e => .error e
  | .ok file_mem =>
    if dir.get_file_inode file_name = 0 then
      .error (.runtime_error "File not found; Unable to write into file")
    else match Inodes.is_inode_directory fs.inodes (dir.get_file_inode file_name) with
      | .error e => .error e
      | .ok true => .error (.runtime_error "Attempt to open directory as file")
      | .ok false =>
        match Memory_Blocks.full_file_content fs.memory file_mem with
        | .error e => .error e
        | .ok content => .ok ⟨file_mem, content⟩

/-- `File_System::add_file` (the command `touch`). -/
def File_System.add_file (fs : File_System) (path : vec_s) (file_name : List Nat) : Result Unit :=
  match fs.find_directory path with
  | (.error e, fs1) => (.error e, fs1)
  | (.ok dir, fs1) =>
    match fs1.add_new_file_to_directory dir file_name false with
    | (.error e, fs2) => (.error e, fs2)
    | (.ok dir', fs2) => fs2.save_directory_to_memory dir'

/-- `File_System::mkdir`. -/
def File_System.mkdir (fs : File_System) (path : vec_s) (dir_name : List Nat) : Result Unit :=
  match fs.find_directory path with
  | (.error e, fs1) => (.error e, fs1)
  | (.ok dir, fs1) =>
    match fs1.add_new_file_to_directory dir dir_name true with
    | (.error e, fs2) => (.error e, fs2)
    | (.ok dir', fs2) => fs2.save_directory_to_memory dir'

/-- `File_System::write_to_file` (the commands `echo` and `copy`). -/
def File_System.write_to_file (fs : File_System) (path : vec_s) (file_name m : List Nat) :
    Result Unit :=
  match fs.find_directory path with
  | (.error e, fs1) => (.error e, fs1)
  | (.ok dir, fs1) =>
    match fs1.get_file dir file_name with
    | .error e => (.error e, fs1)
    | .ok file => fs1.save_file_to_memory (file.add_to_file m)

/-- `File_System::cut`. -/
def File_System.cut (fs : File_System) (path : vec_s) (file_name : List Nat) (to_cut : Nat) :
    Result Unit :=
  match fs.find_directory path with
  | (.error e, fs1) => (.error e, fs1)
  | (.ok dir, fs1) =>
    match fs1.get_file dir file_name with
    | .error e => (.error e, fs1)
    | .ok file => fs1.save_file_to_memory (file.cut_from_file to_cut)

/-- `File_System::erase`. -/
def File_System.erase (fs : File_System) (path : vec_s) (file_name : List Nat) : Result Unit :=
  match fs.find_directory path with
  | (.error e, fs1) => (.error e, fs1)
  | (.ok dir, fs1) =>
    match fs1.erase_from_directory dir file_name with
    | (.error e, fs2) => (.error e, fs2)
    | (.ok dir', fs2) => fs2.save_directory_to_memory dir'

/-- `File_System::link`. -/
def File_System.link (fs : File_System) (f_path : vec_s) (file : List Nat) (l_path : vec_s)
    (link : List Nat) : Result Unit :=
  match fs.find_directory f_path with
  | (.error e, fs1) => (.error e, fs1)
  | (.ok dir, fs1) =>
    match fs1.find_directory l_path with
    | (.error e, fs2) => (.error e, fs2)
    | (.ok dir', fs2) =>
      match fs2.add_link_to_directory dir' (dir.get_file_inode file) link with
      | (.error e, fs3) => (.error e, fs3)
      | (.ok dir'', fs3) => fs3.save_directory_to_memory dir''

/-- `File_System::get_file_content` (the command `get`). -/
def File_System.get_file_content (fs : File_System) (path : vec_s) (name : List Nat) :
    Result vec_c :=
  match fs.find_directory path with
  | (.error e, fs1) => (.error e, fs1)
  | (.ok dir, fs1) =>
    match Inodes.get_memory_block fs1.inodes (dir.get_file_inode name) with
    | .error e => (.error e, fs1)
    | .ok mem_block =>
      match Memory_Blocks.full_file_content fs1.memory mem_block with
      | .error e => (.error e, fs1)
      | .ok _ =>
        match Inodes.is_inode_directory fs1.inodes (dir.get_file_inode name) with
        | .error e => (.error e, fs1)
        | .ok true => (.error (.runtime_error "Attempt to get directory"), fs1)
        | .ok false =>
          match Memory_Blocks.full_file_content fs1.memory mem_block with
          | .error e => (.error e, fs1)
          | .ok content => (.ok content, fs1)

/-- The text `Directory::print_content` writes: every name followed by a newline. -/
def Directory.print_content (dir : Directory) : vec_c :=
  dir.names.flatMap (fun s => s ++ [10])

/-- The text `File::print_content` writes: the content followed by a newline. -/
def File.print_content (f : File) : vec_c := f.content ++ [10]

/-- `File_System::cat`; the value is the text written to the standard output.  The name
`"/"` is the byte list `[47]`. -/
def File_System.cat (fs : File_System) (path : vec_s) (name : List Nat) : Result vec_c :=
  match fs.find_directory path with
  | (.error e, fs1) => (.error e, fs1)
  | (.ok dir, fs1) =>
    match Inodes.get_memory_block fs1.inodes (dir.get_file_inode name) with
    | .error e => (.error e, fs1)
    | .ok file_mem_b =>
      match Memory_Blocks.full_file_content fs1.memory file_mem_b with
      | .error e => (.error e, fs1)
      | .ok content =>
        if dir.get_file_inode name = 0 ∧ name ≠ [47] then
          (.error (.runtime_error "File does not exist. Unable to perform cat operation"), fs1)
        else match Inodes.is_inode_directory fs1.inodes (dir.get_file_inode name) with
          | .error e => (.error e, fs1)
          | .ok true =>
            match Directory.make (dir.get_file_inode name) file_mem_b content with
            | .error e => (.error e, fs1)
            | .ok d => (.ok d.print_content, fs1)
          | .ok false => (.ok (File.mk file_mem_b content).print_content, fs1)

/-- The loop `for (unsigned short i : dir.inodes)` of `File_System::get_dir_size`; `size` is
an `unsigned int`, `sub_dir` is the recursive call. -/
def File_System.add_entry_sizes (fs : File_System) (sub_dir : Nat → Except Failure Nat) :
    vec_16 → Nat → Except Failure Nat
  | [], size => .ok size
  | i :: rest, size =>
    match Inodes.is_inode_directory fs.inodes i with
    | .error e => .error e
    | .ok true =>
      match sub_dir i with
      | .error e => .error e
      | .ok s => File_System.add_entry_sizes fs sub_dir rest ((size + s) % 4294967296)
    | .ok false =>
      match Inodes.get_memory_block fs.inodes i with
      | .error e => .error e
      | .ok mem_b =>
        match Memory_Blocks.full_file_content fs.memory mem_b with
        | .error e => .error e
        | .ok conte =>
          File_System.add_entry_sizes fs sub_dir rest ((size + conte.length) % 4294967296)

/-- `File_System::get_dir_size`; one unit of fuel per level of recursion.  The state does not
change during the recursion, so a descent deeper than the number of inodes repeats an inode
and never ends. -/
def File_System.get_dir_size (fs : File_System) : Nat → Nat → Except Failure Nat
  | 0, _ => .error .undefined
  | fuel + 1, inode =>
    match Inodes.get_memory_block fs.inodes inode with
    | .error e => .error e
    | .ok mem_b =>
      match Memory_Blocks.full_file_content fs.memory mem_b with
      | .error e => .error e
      | .ok conte =>
        match Directory.make inode mem_b conte with
        | .error e => .error e
        | .ok dir =>
          File_System.add_entry_sizes fs (fun i => File_System.get_dir_size fs fuel i) dir.inodes
            (dir.get_directory_content.length % 4294967296)

/-- The numbers `File_System::info` prints: the size of a file, or the size of a directory
and one line (name, size) per entry. -/
inductive Info_Output where
  | file (size : Nat)
  | directory (size : Nat) (entries : List (List Nat × Nat))
deriving DecidableEq, Repr

/-- The loop of `File_System::info_directory` over the entries from index `i` on. -/
def File_System.info_entries (fs : File_System) : vec_s → vec_16 →
    Except Failure (List (List Nat × Nat))
  | name :: names, i :: inodes =>
    match Inodes.is_inode_directory fs.inodes i with
    | .error e => .error e
    | .ok true =>
      match File_System.get_dir_size fs (fs.inodes.length + 1) i with
      | .error e => .error e
      | .ok size =>
        match File_System.info_entries fs names inodes with
        | .error e => .error e
        | .ok lines => .ok ((name, size) :: lines)
    | .ok false =>
      match Inodes.get_memory_block fs.inodes i with
      | .error e => .error e
      | .ok mem_b =>
        match Memory_Blocks.full_file_content fs.memory mem_b with
        | .error e => .error e
        | .ok conte =>
          match File_System.info_entries fs names inodes with
          | .error e => .error e
          | .ok lines => .ok ((name, conte.length) :: lines)
  | [], _ :: _ => .error .undefined
  | _, [] => .ok []

/-- `File_System::info_directory`. -/
def File_System.info_directory (fs : File_System) (dir : Directory) : Except Failure Info_Output :=
  match File_System.info_entries fs dir.names dir.inodes with
  | .error e => .error e
  | .ok lines => .ok (.directory dir.get_directory_content.length lines)

/-- `File_System::info` for a path and a name (the words `memory` and `inodes` are handled
by the command loop). -/
def File_System.info (fs : File_System) (path : vec_s) (name : List Nat) : Result Info_Output :=
  match fs.find_directory path with
  | (.error e, fs1) => (.error e, fs1)
  | (.ok dir, fs1) =>
    match Inodes.get_memory_block fs1.inodes (dir.get_file_inode name) with
    | .error e => (.error e, fs1)
    | .ok mem_b =>
      match Memory_Blocks.full_file_content fs1.memory mem_b with
      | .error e => (.error e, fs1)
      | .ok conte =>
        if dir.get_file_inode name = 0 ∧ name ≠ [47] then
          (.error (.runtime_error "File or directory does not exist."), fs1)
        else match Inodes.is_inode_directory fs1.inodes (dir.get_file_inode name) with
          | .error e => (.error e, fs1)
          | .ok true =>
            match Directory.make (dir.get_file_inode name) mem_b conte with
            | .error e => (.error e, fs1)
            | .ok d =>
              match fs1.info_directory d with
              | .error e => (.error e, fs1)
              | .ok out => (.ok out, fs1)
          | .ok false => (.ok (.file conte.length), fs1)

/-! ### Image codec: the stream constructors and `File_System_Manager::make_empty_file_system` -/

/-- `read_uint16_t(std::ifstream&)`: the value and the rest of the stream. -/
def read_uint16_t_stream : vec_c → Except Failure (Nat × vec_c)
  | lo :: hi :: rest => .ok (read_uint16_t lo hi, rest)
  | _ => .error .undefined

/-- `read_string(f, size)`: `size` bytes and the rest of the stream. -/
def read_string (f : vec_c) (size : Nat) : Except Failure (vec_c × vec_c) :=
  if size ≤ f.length then .ok (f.take size, f.drop size) else .error .undefined

/-- `Allocator::Allocator(std::ifstream&)`. -/
def Allocator.read (f : vec_c) : Except Failure (Allocator × vec_c) :=
  match read_uint16_t_stream f with
  | .error e => .error e
  | .ok (size, f1) =>
    match read_string f1 size with
    | .error e => .error e
    | .ok (status, f2) =>
      match Allocator.find_first_free size status with
      | .error e => .error e
      | .ok first_free => .ok (⟨size, first_free, status⟩, f2)

/-- `Inodes::Inodes(std::ifstream&, size)`: `size` times `Inode(f)`. -/
def Inodes.read : Nat → vec_c → Except Failure (inode_v × vec_c)
  | 0, f => .ok ([], f)
  | size + 1, is_dir :: number :: lo :: hi :: f =>
    match Inodes.read size f with
    | .error e => .error e
    | .ok (nodes, f') => .ok (⟨is_dir % 256, number % 256, read_uint16_t lo hi⟩ :: nodes, f')
  | _ + 1, _ => .error .undefined

/-- `Memory_Blocks::Memory_Blocks(std::ifstream&, size)`: `size` times `Memory_Block(f)`. -/
def Memory_Blocks.read : Nat → vec_c → Except Failure (mem_v × vec_c)
  | 0, f => .ok ([], f)
  | size + 1, lo :: hi :: occupied :: f =>
    match read_string f content_size with
    | .error e => .error e
    | .ok (content, f1) =>
      match Memory_Blocks.read size f1 with
      | .error e => .error e
      | .ok (blocks, f2) => .ok (⟨read_uint16_t lo hi, occupied % 256, content⟩ :: blocks, f2)
  | _ + 1, _ => .error .undefined

/-- `File_System::File_System(std::ifstream&)`. -/
def File_System.load (f : vec_c) : Except Failure File_System :=
  match Allocator.read f with
  | .error e => .error e
  | .ok (inodes_allocator, f1) =>
    match Inodes.read inodes_allocator.size f1 with
    | .error e => .error e
    | .ok (inodes, f2) =>
      match Allocator.read f2 with
      | .error e => .error e
      | .ok (memory_allocator, f3) =>
        match Memory_Blocks.read memory_allocator.size f3 with
        | .error e => .error e
        | .ok (memory, _) => .ok ⟨inodes_allocator, inodes, memory_allocator, memory⟩

/-- `File_System_Manager::write_manager`. -/
def write_manager (size : Nat) : vec_c :=
  [size % 256, size / 256 % 256] ++ (List.range size).map (fun i => if i = 0 then USED else FREE)

/-- `File_System_Manager::write_inodes`. -/
def write_inodes (size : Nat) : vec_c :=
  (List.range size).flatMap (fun i => if i = 0 then [1, 0, 0, 0] else [0, 0, 0, 0])

/-- `File_System_Manager::write_memory_blocks`. -/
def write_memory_blocks (size : Nat) : vec_c :=
  (List.range size).flatMap (fun _ => [0, 0, 0] ++ List.replicate content_size 0)

/-- `File_System_Manager::make_empty_file_system`; `bytes` is a `uint16_t`. -/
def make_empty_file_system (bytes : Nat) : vec_c :=
  write_manager (bytes % 65536 / 4) ++ write_inodes (bytes % 65536 / 4)
    ++ write_manager (bytes % 65536 / 4) ++ write_memory_blocks (bytes % 65536 / 4)

/-- `write_uint16_t`: the two bytes of the object representation of `val` (little-endian). -/
def write_uint16_t (val : Nat) : vec_c := [val % 256, val / 256 % 256]

/-- `write_string(f, content, size)`: the bytes `content[0 .. size)`; reading `content`
beyond its end is an out-of-range read. -/
def write_string (content : vec_c) (size : Nat) : Except Failure vec_c :=
  if size ≤ content.length then .ok (content.take size) else .error .undefined

/-- `Allocator::dump_allocator_to_file`: the bytes written. -/
def Allocator.dump_allocator_to_file (a : Allocator) : Except Failure vec_c :=
  match write_string a.status a.size with
  | .error e => .error e
  | .ok status => .ok (write_uint16_t a.size ++ status)

/-- `Inode::dump_inode`: the bytes written. -/
def Inode.dump_inode (node : Inode) : vec_c :=
  [node.is_dir % 256, node.number % 256] ++ write_uint16_t node.memory_block

/-- `Inodes::dump_inodes_to_file`: the bytes written. -/
def Inodes.dump_inodes_to_file (nodes : inode_v) : vec_c :=
  nodes.flatMap Inode.dump_inode

/-- `Memory_Block::dump_memory_block`: the bytes written. -/
def Memory_Block.dump_memory_block (b : Memory_Block) : Except Failure vec_c :=
  match write_string b.content content_size with
  | .error e => .error e
  | .ok content => .ok (write_uint16_t b.next_block ++ [b.occupied % 256] ++ content)

/-- `Memory_Blocks::dump_memory_blocks_to_file`: the bytes written. -/
def Memory_Blocks.dump_memory_blocks_to_file : mem_v → Except Failure vec_c
  | [] => .ok []
  | b :: blocks =>
    match b.dump_memory_block with
    | .error e => .error e
    | .ok head =>
      match Memory_Blocks.dump_memory_blocks_to_file blocks with
      | .error e => .error e
      | .ok rest => .ok (head ++ rest)

/-- `File_System::dump_file_system_to_file`: the bytes written. -/
def File_System.dump_file_system_to_file (fs : File_System) : Except Failure vec_c :=
  match fs.inodes_allocator.dump_allocator_to_file with
  | .error e => .error e
  | .ok ia =>
    match fs.memory_allocator.dump_allocator_to_file with
    | .error e => .error e
    | .ok ma =>
      match Memory_Blocks.dump_memory_blocks_to_file fs.memory with
      | .error e => .error e
      | .ok blocks => .ok (ia ++ Inodes.dump_inodes_to_file fs.inodes ++ ma ++ blocks)

/-! ### Concrete images used in the evaluations -/

deriving instance DecidableEq for Except

/-- The bytes of an ASCII string. -/
def bytes_of (s : String) : List Nat := s.data.map Char.toNat

/-- The state loaded from `make_empty_file_system(16)`: four inode slots and four blocks. -/
def empty16 : File_System :=
  ⟨⟨4, 1, [48, 49, 49, 49]⟩, [⟨1, 0, 0⟩, ⟨0, 0, 0⟩, ⟨0, 0, 0⟩, ⟨0, 0, 0⟩],
   ⟨4, 1, [48, 49, 49, 49]⟩, List.replicate 4 ⟨0, 0, List.replicate 50 0⟩⟩

/-- The empty image after `touch f` and `echo` of 51 bytes into `f`: the file owns the
chain `1 → 2` with payload length 51. -/
def image_file51 : File_System :=
  ((empty16.add_file [] (bytes_of "f")).2.write_to_file [] (bytes_of "f") (List.replicate 51 65)).2

/-- A name of 47 bytes; its directory record takes exactly one block. -/
def name47 : List Nat := List.replicate 47 97

/-- The empty image after `touch` of `name47` and of `b`: the root directory has a payload
of 54 bytes on the chain `0 → 3`. -/
def image_dir54 : File_System :=
  ((empty16.add_file [] name47).2.add_file [] (bytes_of "b")).2

/-- The empty image after `touch f`. -/
def image_one_file : File_System := (empty16.add_file [] (bytes_of "f")).2

/-! ### Vocabulary of the statements -/

/-- `Chain blocks h c`: following `next_block` from block `h` visits exactly the blocks `c`,
in this order, and then reads the end-of-chain mark `0`. -/
def Chain (blocks : mem_v) : Nat → List Nat → Prop
  | _, [] => False
  | h, [x] => x = h ∧ ∃ b, blocks[h]? = some b ∧ b.next_block = 0
  | h, x :: y :: rest =>
    x = h ∧ y ≠ 0 ∧ (∃ b, blocks[h]? = some b ∧ b.next_block = y) ∧ Chain blocks y (y :: rest)

/-- The blocks visited by the walk `do { ...; start = blocks[start].next_block; } while (start);`
shared by the chain functions of `Memory_Blocks`, with one unit of fuel per block. -/
def Memory_Blocks.chain_walk (blocks : mem_v) : Nat → Nat → Option (List Nat)
  | 0, _ => none
  | fuel + 1, start =>
    match blocks[start]? with
    | none => none
    | some b =>
      if b.next_block ≠ 0 then
        match Memory_Blocks.chain_walk blocks fuel b.next_block with
        | none => none
        | some c => some (start :: c)
      else some [start]

/-- The chain that starts at `start`, if the walk ends. -/
def Memory_Blocks.chain_of (blocks : mem_v) (start : Nat) : Option (List Nat) :=
  Memory_Blocks.chain_walk blocks blocks.length start

/-- The valid payload bytes of block `i`. -/
def block_payload (blocks : mem_v) (i : Nat) : vec_c :=
  match blocks[i]? with
  | some b => b.content.take b.occupied
  | none => []

/-- The payload of the blocks `c`, concatenated in order. -/
def chain_payload (blocks : mem_v) : List Nat → vec_c
  | [] => []
  | i :: c => block_payload blocks i ++ chain_payload blocks c

/-- `occupied` of block `i` (0 when there is no such block). -/
def occupied_at (blocks : mem_v) (i : Nat) : Nat :=
  match blocks[i]? with
  | some b => b.occupied
  | none => 0

/-- Every block carries exactly `content_size` payload bytes. -/
def Sized (blocks : mem_v) : Prop := ∀ b ∈ blocks, b.content.length = content_size

/-- Slot `i` of the allocator is marked free. -/
def Allocator.is_free (a : Allocator) (i : Nat) : Prop := a.status[i]? = some FREE

/-- The head blocks of the directories: block 0 (the root) and the head of every inode
flagged as a directory. -/
def directory_heads (nodes : inode_v) : List Nat :=
  0 :: (nodes.filter (fun n => n.is_dir != 0)).map (fun n => n.memory_block)

/-- The class invariant of `Allocator`: the constructor reads exactly `size` status bytes and
the hint never passes `size`. -/
def Allocator.wf (a : Allocator) : Prop := a.first_free ≤ a.size ∧ a.status.length = a.size

/-- The blocks after the assignment `blocks[i].occupied = v`. -/
def set_occupied (blocks : mem_v) (i v : Nat) : mem_v :=
  match blocks[i]? with
  | some b => blocks.set i { b with occupied := v }
  | none => blocks

/-- `Walk fs dir path d`: starting in directory `dir`, every segment of `path` is found by
`get_file_inode` and entered without any change of state, and the last directory is `d`.
This is the run of `find_directory` that creates nothing. -/
def Walk (fs : File_System) : Directory → vec_s → Directory → Prop
  | dir, [], d => d = dir
  | dir, s :: path, d =>
    dir.get_file_inode s ≠ 0 ∧
      ∃ d1, fs.enter_directory (dir.get_file_inode s) = (.ok d1, fs) ∧ Walk fs d1 path d

/-- The blocks of the chain that starts at `g`; no blocks when the walk does not end. -/
def chain_blocks (blocks : mem_v) (g : Nat) : List Nat :=
  (Memory_Blocks.chain_of blocks g).getD []

instance (a : Allocator) (i : Nat) : Decidable (a.is_free i) :=
  inferInstanceAs (Decidable (a.status[i]? = some FREE))

instance (a : Allocator) : Decidable a.wf :=
  inferInstanceAs (Decidable (a.first_free ≤ a.size ∧ a.status.length = a.size))

instance (blocks : mem_v) : Decidable (Sized blocks) :=
  inferInstanceAs (Decidable (∀ b ∈ blocks, b.content.length = content_size))

/-- The empty image after `touch a`. -/
def image_touch_a : File_System := (empty16.add_file [] (bytes_of "a")).2

/-- The empty image after `touch a` and `echo hello` into `a`. -/
def image_hello : File_System :=
  (image_touch_a.write_to_file [] (bytes_of "a") (bytes_of "hello")).2

/-- The number of payload bytes the records of the entries `names` take: the name, the NUL
and the two inode bytes of each. -/
def record_bytes (names : vec_s) : Nat := (names.map (fun n => n.length + 3)).sum

/-- The state loaded from `make_empty_file_system(560)`: 140 inode slots and 140 blocks. -/
def empty140 : File_System :=
  ⟨⟨140, 1, USED :: List.replicate 139 FREE⟩, ⟨1, 0, 0⟩ :: List.replicate 139 ⟨0, 0, 0⟩,
   ⟨140, 1, USED :: List.replicate 139 FREE⟩, List.replicate 140 ⟨0, 0, List.replicate 50 0⟩⟩

/-- The path `d/d/.../d` with 126 segments. -/
def deep_path : vec_s := List.replicate 126 (bytes_of "d")

/-- The state `empty140` after `touch d/d/.../d/f` (126 segments `d`): inodes 1 to 126 are
the nested directories, inode 127 is the file `f`; inode `i` has head block `i`, and 128 is
the lowest free index of both allocators. -/
def image_deep : File_System :=
  ⟨⟨140, 127, List.replicate 128 USED ++ List.replicate 12 FREE⟩,
   ⟨1, 1, 0⟩ :: ((List.range 126).map (fun i => ⟨1, 1, i + 1⟩) ++ ⟨0, 1, 127⟩ ::
     List.replicate 12 ⟨0, 0, 0⟩),
   ⟨140, 127, List.replicate 128 USED ++ List.replicate 12 FREE⟩,
   (List.range 126).map (fun i => ⟨0, 4, [100, 0, i + 1, 0] ++ List.replicate 46 0⟩) ++
     ⟨0, 4, [102, 0, 127, 0] ++ List.replicate 46 0⟩ ::
       List.replicate 13 ⟨0, 0, List.replicate 50 0⟩⟩

/-- The state `empty140` after the auto-creation of the nested directories `d/d/.../d` of
depth `k ≥ 1`: directory `i` has inode `i` and head block `i`, the innermost one is empty. -/
def deep_state (k : Nat) : File_System :=
  ⟨⟨140, k, List.replicate (k + 1) USED ++ List.replicate (139 - k) FREE⟩,
   ⟨1, 1, 0⟩ :: ((List.range (k - 1)).map (fun i => ⟨1, 1, i + 1⟩) ++ ⟨1, 0, k⟩ ::
     List.replicate (139 - k) ⟨0, 0, 0⟩),
   ⟨140, k, List.replicate (k + 1) USED ++ List.replicate (139 - k) FREE⟩,
   (List.range k).map (fun i => ⟨0, 4, [100, 0, i + 1, 0] ++ List.replicate 46 0⟩) ++
     List.replicate (140 - k) ⟨0, 0, List.replicate 50 0⟩⟩

/-- State between the two halves of the final `touch`: the entry `f` has its inode and its
head block, the listing of the innermost directory is not yet written back. -/
def deep_added : File_System :=
  { image_deep with memory := image_deep.memory.set 126 ⟨0, 0, List.replicate 50 0⟩ }

/-- The allocator states the claims about `Allocator` range over: an allocator read from an
image in which slot 0 is not free, followed by any sequence of `get_free_index`,
`mark_as_used` and `free` calls that return (a call that throws leaves the object as it
was). -/
inductive Allocator.Reachable : Allocator → Prop
  | loaded {f rest : vec_c} {a : Allocator} :
      Allocator.read f = .ok (a, rest) → ¬ a.is_free 0 → Allocator.Reachable a
  | get_free_index {a a' : Allocator} {i : Nat} :
      Allocator.Reachable a → a.get_free_index = .ok (i, a') → Allocator.Reachable a'
  | mark_as_used {a a' : Allocator} {i : Nat} :
      Allocator.Reachable a → a.mark_as_used i = .ok a' → Allocator.Reachable a'
  | free {a a' : Allocator} {i : Nat} :
      Allocator.Reachable a → a.free i = .ok a' → Allocator.Reachable a'

/-- The hint is at or before the lowest free slot: no slot below `first_free` is free. -/
def Allocator.hint_ok (a : Allocator) : Prop := ∀ j, j < a.first_free → ¬ a.is_free j

/-- The state loaded from `make_empty_file_system(32)`: eight inode slots and eight blocks. -/
def empty32 : File_System :=
  ⟨⟨8, 1, USED :: List.replicate 7 FREE⟩, ⟨1, 0, 0⟩ :: List.replicate 7 ⟨0, 0, 0⟩,
   ⟨8, 1, USED :: List.replicate 7 FREE⟩, List.replicate 8 ⟨0, 0, List.replicate 50 0⟩⟩

/-- The inode allocator of the empty image of 16 bytes after slot 1 was handed out and
marked, slot 2 was marked, and slot 1 was freed again. -/
def alloc_0101 : Allocator := ⟨4, 1, [48, 49, 48, 49]⟩

/-- An allocator with the slots 0, 1 and 2 used and the hint on slot 3. -/
def alloc_0001 : Allocator := ⟨4, 3, [48, 48, 48, 49]⟩

/-- The exception `find_directory` throws when a segment of the path refers to a file. -/
def incorrect_path : Failure :=
  .runtime_error "Incorrect path (found file inside specified path)"

/-- The empty image of 16 bytes after `mkdir d`. -/
def image_one_dir : File_System := (empty16.mkdir [] (bytes_of "d")).2

/-- The state `image_one_dir` after `touch d/x`. -/
def image_dir_file : File_System := (image_one_dir.add_file [bytes_of "d"] (bytes_of "x")).2

/-- The empty image of 32 bytes after `mkdir d`. -/
def stale_1 : File_System := (empty32.mkdir [] (bytes_of "d")).2

/-- The state `stale_1` after `touch` of `name47` in `d`: the payload of `d` has 50 bytes. -/
def stale_2 : File_System := (stale_1.add_file [bytes_of "d"] name47).2

/-- The state `stale_2` after `touch d/b`: the payload of `d` has 54 bytes on two blocks. -/
def stale_3 : File_System := (stale_2.add_file [bytes_of "d"] (bytes_of "b")).2

/-- The state `stale_3` after `erase d/b`. -/
def stale_4 : File_System := (stale_3.erase [bytes_of "d"] (bytes_of "b")).2

/-- The state `stale_4` after `erase` of `name47` in `d`: both files of `d` are erased. -/
def image_stale_dir : File_System := (stale_4.erase [bytes_of "d"] name47).2

/-- The state `image_dir54` after `erase b`: the root payload written back has exactly 50
bytes, the second block of the root keeps the record of `b`, and the root still lists
`b → 2` although inode slot 2 and block 2 are free again. -/
def image_ghost_file : File_System := (image_dir54.erase [] (bytes_of "b")).2

/-- The state `image_ghost_file` after `echo hello` into `b`. -/
def image_ghost_hello : File_System :=
  (image_ghost_file.write_to_file [] (bytes_of "b") (bytes_of "hello")).2

/-- The empty image of 16 bytes after `touch` of `name47`, `mkdir d` and `erase d`: the root
still lists `d → 2` although inode slot 2 and block 2 are free again. -/
def image_ghost_dir : File_System :=
  (((empty16.add_file [] name47).2.mkdir [] (bytes_of "d")).2.erase [] (bytes_of "d")).2

/-- A name of 50 bytes. -/
def name50 : List Nat := List.replicate 50 98

/-- A name of 44 bytes. -/
def name44 : List Nat := List.replicate 44 112

/-- The state `image_ghost_file` after `link b` under the name `name44`: the root payload
has 101 bytes and the root has taken block 2, the head block of `b`, as its third block. -/
def ghost_links_1 : File_System := (image_ghost_file.link [] (bytes_of "b") [] name44).2

/-- The state `ghost_links_1` after `link b c`: inode 2 has refcount 2 and the names `b`,
`name44` and `c`. -/
def image_ghost_links : File_System := (ghost_links_1.link [] (bytes_of "b") [] (bytes_of "c")).2

/-- The inode index `j` is stored faithfully by `Directory::get_directory_content`: decoding
the two bytes written for it gives `j` back. -/
def stored_faithfully (j : Nat) : Prop :=
  read_uint16_t (inode_low_byte j) (inode_high_byte j) = j

instance (j : Nat) : Decidable (stored_faithfully j) :=
  inferInstanceAs (Decidable (read_uint16_t (inode_low_byte j) (inode_high_byte j) = j))

/-- `Directory_Rewritten s s2 hd N I N' I'`: from `s` to `s2` only the directory stored on
the chain of head block `hd` was rewritten.  The inodes keep their kind and head block, the
chains of the other directory heads keep their blocks, the payload on `hd` decoded to the
entries `(N, I)` before and decodes to `(N', I')` now, and every successful lookup in
`(N, I)` gives the same inode in `(N', I')`. -/
def Directory_Rewritten (s s2 : File_System) (hd : Nat) (N : vec_s) (I : vec_16)
    (N' : vec_s) (I' : vec_16) : Prop :=
  (∀ n : Nat, (s2.inodes[n]?).map (fun x : Inode => (x.is_dir, x.memory_block))
      = (s.inodes[n]?).map (fun x : Inode => (x.is_dir, x.memory_block))) ∧
  (∀ g ∈ directory_heads s.inodes, g ≠ hd → ∀ cg, Chain s.memory g cg →
      ∀ b ∈ cg, s2.memory[b]? = s.memory[b]?) ∧
  (∃ old, Memory_Blocks.full_file_content s.memory hd = .ok old ∧ old.length < 65536 ∧
      Directory.read_entries old.length old = .ok (N, I)) ∧
  (∃ new, Memory_Blocks.full_file_content s2.memory hd = .ok new ∧ new.length < 65536 ∧
      Directory.read_entries new.length new = .ok (N', I')) ∧
  (∀ d d' : Directory, d.names = N → d.inodes = I → d'.names = N' → d'.inodes = I' →
      ∀ seg, d.get_file_inode seg ≠ 0 → d'.get_file_inode seg = d.get_file_inode seg)

/-- How a directory read in `s` and the same directory read in `s2` are related under
`Directory_Rewritten`: equal, unless they are stored on `hd`. -/
def Rewritten_Pair (hd : Nat) (N : vec_s) (I : vec_16) (N' : vec_s) (I' : vec_16)
    (d d' : Directory) : Prop :=
  d'.inode_num = d.inode_num ∧ d'.mem_block = d.mem_block ∧
  (d.mem_block ≠ hd → d' = d) ∧
  (d.mem_block = hd → d.names = N ∧ d.inodes = I ∧ d'.names = N' ∧ d'.inodes = I')

/-- The state `image_hello` after `link a b` in the root. -/
def image_hello_linked : File_System :=
  (image_hello.link [] (bytes_of "a") [] (bytes_of "b")).2

/-! ### utility.h: `path` -/

/-- `s.find("/")`: the position of the first `'/'` (byte 47), if there is one. -/
def find_slash : List Nat → Option Nat
  | [] => none
  | c :: s => if c = 47 then some 0 else (find_slash s).map (fun p => p + 1)

/-- The loop of `path`:
`while ((pos = s.find("/")) != npos) { path.push_back(s.substr(0, pos)); s.erase(0, pos + 1); }`
with one unit of fuel per iteration.  Returns the segments and what is left of `s`. -/
def path_loop : Nat → List Nat → Except Failure (vec_s × List Nat)
  | 0, s =>
    match find_slash s with
    | none => .ok ([], s)
    | some _ => .error .undefined
  | fuel + 1, s =>
    match find_slash s with
    | none => .ok ([], s)
    | some pos =>
      match path_loop fuel (s.drop (pos + 1)) with
      | .error e => .error e
      | .ok (segs, leaf) => .ok (s.take pos :: segs, leaf)

/-- `path(std::string& s)`: the returned segments and the string `s` as the call leaves it.
Every iteration removes at least one byte, so `s.length` units of fuel suffice. -/
def path (s : List Nat) : Except Failure (vec_s × List Nat) :=
  if s ≠ [47] then path_loop s.length s else .ok ([], s)


/-- `n` blocks linked in index order: block `i` points to block `i + 1` and the last block
ends the chain; every block is empty. -/
def linked_blocks (n : Nat) : mem_v :=
  (List.range n).map (fun i => ⟨if i + 1 = n then 0 else i + 1, 0, List.replicate 50 0⟩)

/-- Four blocks of which blocks 0, 1 and 2 form the chain `0 → 1 → 2`, all three marked
used; block 3 is free. -/
def image_chain3 : File_System :=
  ⟨⟨1, 1, [48]⟩, [⟨1, 0, 0⟩], ⟨4, 3, [48, 48, 48, 49]⟩,
   [⟨1, 50, List.replicate 50 97⟩, ⟨2, 50, List.replicate 50 98⟩,
    ⟨0, 5, List.replicate 50 99⟩, ⟨0, 0, List.replicate 50 0⟩]⟩

/-- The state `image_hello` after the attempt to write 200 more bytes into `a`: the two
free blocks were appended to the chain of `a` before the allocator ran out of blocks. -/
def image_hello_full : File_System :=
  (image_hello.write_to_file [] (bytes_of "a") (List.replicate 200 120)).2

/-- Two blocks: block 0 is the root chain holding `hello` and is marked used; block 1 is a
chain of its own and is marked free. -/
def image_free_head : File_System :=
  ⟨⟨1, 1, [48]⟩, [⟨1, 0, 0⟩], ⟨2, 1, [48, 49]⟩,
   [⟨0, 5, bytes_of "hello" ++ List.replicate 45 0⟩, ⟨0, 0, List.replicate 50 0⟩]⟩
end FS

namespace FS

/-! ## Part II: theorems -/

/-! ### Chains -/

theorem chain_head {blocks : mem_v} {h : Nat} {c : List Nat} (hc : Chain blocks h c) :
    ∃ tl, c = h :: tl := by
  match c, hc with
  | [x], hc => exact ⟨[], by rw [hc.1]⟩
  | x :: y :: rest, hc => exact ⟨y :: rest, by rw [hc.1]⟩

theorem chain_cons_iff {blocks : mem_v} {h x : Nat} {tl : List Nat} :
    Chain blocks h (x :: tl) ↔
      x = h ∧ ∃ b, blocks[h]? = some b ∧
        ((tl = [] ∧ b.next_block = 0) ∨
          (b.next_block ≠ 0 ∧ Chain blocks b.next_block tl)) := by
  cases tl with
  | nil => simp [Chain]
  | cons y rest =>
    simp only [Chain]
    constructor
    · rintro ⟨rfl, hy, ⟨b, hb, rfl⟩, hch⟩
      exact ⟨rfl, b, hb, Or.inr ⟨hy, hch⟩⟩
    · rintro ⟨rfl, b, hb, h⟩
      rcases h with ⟨h1, _⟩ | ⟨hne, hch⟩
      · simp at h1
      · obtain ⟨tl', htl⟩ := chain_head hch
        injection htl with h1 h2
        subst h1
        exact ⟨rfl, hne, ⟨b, hb, rfl⟩, hch⟩

theorem chain_unique {blocks : mem_v} : ∀ {c1 c2 : List Nat} {h : Nat},
    Chain blocks h c1 → Chain blocks h c2 → c1 = c2
  | [], _, _, h1, _ => by simp [Chain] at h1
  | _ :: _, [], _, _, h2 => by simp [Chain] at h2
  | x :: t1, y :: t2, h, h1, h2 => by
    rw [chain_cons_iff] at h1 h2
    obtain ⟨rfl, b, hb, h1⟩ := h1
    obtain ⟨rfl, b', hb', h2⟩ := h2
    rw [hb] at hb'
    injection hb' with hbb
    subst hbb
    rcases h1 with ⟨rfl, hn⟩ | ⟨hn, hc1⟩ <;> rcases h2 with ⟨rfl, hn'⟩ | ⟨hn', hc2⟩
    · rfl
    · exact absurd hn hn'
    · exact absurd hn' hn
    · rw [chain_unique hc1 hc2]

theorem chain_suffix {blocks : mem_v} : ∀ {p : List Nat} {h x : Nat} {q : List Nat},
    Chain blocks h (p ++ x :: q) → Chain blocks x (x :: q)
  | [], h, x, q, hc => by
    obtain ⟨tl, htl⟩ := chain_head hc
    simp at htl
    rw [htl.1]
    simpa [htl.1] using hc
  | y :: p, h, x, q, hc => by
    rw [List.cons_append, chain_cons_iff] at hc
    obtain ⟨rfl, b, hb, h1⟩ := hc
    rcases h1 with ⟨hnil, _⟩ | ⟨_, hc'⟩
    · simp at hnil
    · exact chain_suffix hc'

theorem chain_length_pos {blocks : mem_v} {h : Nat} {c : List Nat} (hc : Chain blocks h c) :
    0 < c.length := by
  obtain ⟨tl, rfl⟩ := chain_head hc
  simp

theorem chain_nodup {blocks : mem_v} : ∀ {c : List Nat} {h : Nat}, Chain blocks h c → c.Nodup
  | [], _, hc => by simp [Chain] at hc
  | x :: tl, h, hc => by
    have hc0 := hc
    rw [chain_cons_iff] at hc
    obtain ⟨rfl, b, hb, h1⟩ := hc
    rcases h1 with ⟨rfl, _⟩ | ⟨_, hc'⟩
    · simp
    · rw [List.nodup_cons]
      refine ⟨?_, chain_nodup hc'⟩
      intro hmem
      obtain ⟨p, q, hpq⟩ := List.append_of_mem hmem
      have hsuf : Chain blocks x (x :: q) := by
        have : Chain blocks x ((x :: p) ++ x :: q) := by rw [List.cons_append, ← hpq]; exact hc0
        exact chain_suffix this
      have := chain_unique hsuf hc0
      have hl := congrArg List.length this
      rw [hpq] at hl
      simp at hl
      omega

theorem chain_mem_lt {blocks : mem_v} : ∀ {c : List Nat} {h : Nat}, Chain blocks h c →
    ∀ i ∈ c, i < blocks.length
  | [], _, hc => by simp [Chain] at hc
  | x :: tl, h, hc => by
    rw [chain_cons_iff] at hc
    obtain ⟨rfl, b, hb, h1⟩ := hc
    intro i hi
    rcases List.mem_cons.1 hi with rfl | hi
    · exact (List.getElem?_eq_some.1 hb).1
    · rcases h1 with ⟨rfl, _⟩ | ⟨_, hc'⟩
      · simp at hi
      · exact chain_mem_lt hc' i hi

theorem chain_tail_ne_zero {blocks : mem_v} : ∀ {tl : List Nat} {h : Nat},
    Chain blocks h (h :: tl) → ∀ i ∈ tl, i ≠ 0
  | [], _, _ => by simp
  | y :: tl, h, hc => by
    rw [chain_cons_iff] at hc
    obtain ⟨-, b, hb, h1⟩ := hc
    rcases h1 with ⟨hnil, _⟩ | ⟨hne, hc'⟩
    · simp at hnil
    · obtain ⟨tl', htl⟩ := chain_head hc'
      injection htl with h1 h2
      subst h1
      intro i hi
      rcases List.mem_cons.1 hi with rfl | hi
      · exact hne
      · exact chain_tail_ne_zero hc' i hi

theorem chain_length_le {blocks : mem_v} {h : Nat} {c : List Nat} (hc : Chain blocks h c) :
    c.length ≤ blocks.length := by
  have h1 : c ⊆ List.range blocks.length := by
    intro i hi
    exact List.mem_range.2 (chain_mem_lt hc i hi)
  have := (List.subperm_of_subset (chain_nodup hc) h1).length_le
  simpa using this

theorem chain_congr {blocks blocks' : mem_v} : ∀ {c : List Nat} {h : Nat},
    Chain blocks h c →
    (∀ i ∈ c, ∀ b, blocks[i]? = some b → ∃ b', blocks'[i]? = some b' ∧ b'.next_block = b.next_block) →
    Chain blocks' h c
  | [], _, hc, _ => by simp [Chain] at hc
  | x :: tl, h, hc, hag => by
    rw [chain_cons_iff] at hc ⊢
    obtain ⟨rfl, b, hb, h1⟩ := hc
    obtain ⟨b', hb', hn⟩ := hag x (by simp) b hb
    refine ⟨rfl, b', hb', ?_⟩
    rcases h1 with ⟨rfl, h0⟩ | ⟨hne, hc'⟩
    · exact Or.inl ⟨rfl, by rw [hn, h0]⟩
    · refine Or.inr ⟨by rw [hn]; exact hne, ?_⟩
      rw [hn]
      exact chain_congr hc' (fun i hi => hag i (List.mem_cons_of_mem _ hi))

theorem chain_walk_sound {blocks : mem_v} : ∀ {fuel h : Nat} {c : List Nat},
    Memory_Blocks.chain_walk blocks fuel h = some c → Chain blocks h c ∧ c.length ≤ fuel
  | 0, _, _, hw => by simp [Memory_Blocks.chain_walk] at hw
  | fuel + 1, h, c, hw => by
    simp only [Memory_Blocks.chain_walk] at hw
    split at hw
    · simp at hw
    · rename_i b hb
      split at hw
      · rename_i hne
        split at hw
        · simp at hw
        · rename_i c' hc'
          injection hw with hw
          subst hw
          obtain ⟨ih1, ih2⟩ := chain_walk_sound hc'
          refine ⟨?_, by simp; omega⟩
          rw [chain_cons_iff]
          exact ⟨rfl, b, hb, Or.inr ⟨hne, ih1⟩⟩
      · rename_i hne
        injection hw with hw
        subst hw
        refine ⟨?_, by simp⟩
        rw [chain_cons_iff]
        exact ⟨rfl, b, hb, Or.inl ⟨rfl, by simpa using hne⟩⟩

theorem chain_walk_complete {blocks : mem_v} : ∀ {fuel : Nat} {c : List Nat} {h : Nat},
    Chain blocks h c → c.length ≤ fuel → Memory_Blocks.chain_walk blocks fuel h = some c
  | _, [], _, hc, _ => by simp [Chain] at hc
  | 0, _ :: _, _, _, hl => by simp at hl
  | fuel + 1, x :: tl, h, hc, hl => by
    rw [chain_cons_iff] at hc
    obtain ⟨rfl, b, hb, h1⟩ := hc
    simp only [Memory_Blocks.chain_walk, hb]
    rcases h1 with ⟨rfl, h0⟩ | ⟨hne, hc'⟩
    · simp [h0]
    · have := @chain_walk_complete blocks fuel _ _ hc' (by simpa using hl)
      simp [hne, this]

theorem chain_of_iff {blocks : mem_v} {h : Nat} {c : List Nat} :
    Memory_Blocks.chain_of blocks h = some c ↔ Chain blocks h c :=
  ⟨fun hw => (chain_walk_sound hw).1, fun hc => chain_walk_complete hc (chain_length_le hc)⟩

/-! ### Reading a chain -/

theorem get_file_size_loop_spec {blocks : mem_v} : ∀ {fuel : Nat} {c : List Nat} {h : Nat} (size : Nat),
    Chain blocks h c → c.length ≤ fuel →
    Memory_Blocks.get_file_size_loop blocks fuel h size
      = .ok ((size + content_size * c.length) % 65536)
  | _, [], _, _, hc, _ => by simp [Chain] at hc
  | 0, _ :: _, _, _, _, hl => by simp at hl
  | fuel + 1, x :: tl, h, size, hc, hl => by
    rw [chain_cons_iff] at hc
    obtain ⟨rfl, b, hb, h1⟩ := hc
    simp only [Memory_Blocks.get_file_size_loop, hb]
    rcases h1 with ⟨rfl, h0⟩ | ⟨hne, hc'⟩
    · simp [h0]
    · rw [if_pos hne, get_file_size_loop_spec _ hc' (by simpa using hl)]
      simp only [content_size, List.length_cons]
      congr 1
      omega

theorem get_file_size_spec {blocks : mem_v} {c : List Nat} {h : Nat} (hc : Chain blocks h c) :
    Memory_Blocks.get_file_size blocks h = .ok ((content_size * c.length) % 65536) := by
  unfold Memory_Blocks.get_file_size
  rw [get_file_size_loop_spec 0 hc (chain_length_le hc)]
  simp

/-- Every block of `c` has at most as many valid bytes as it has payload bytes. -/
theorem fill_content_spec {blocks : mem_v} : ∀ {fuel : Nat} {c : List Nat} {h : Nat} (acc : vec_c),
    Chain blocks h c → c.length ≤ fuel →
    (∀ i ∈ c, ∀ b, blocks[i]? = some b → b.occupied ≤ b.content.length) →
    Memory_Blocks.fill_content_with_memory_chunk blocks fuel h acc
      = .ok (acc ++ chain_payload blocks c)
  | _, [], _, _, hc, _, _ => by simp [Chain] at hc
  | 0, _ :: _, _, _, _, hl, _ => by simp at hl
  | fuel + 1, x :: tl, h, acc, hc, hl, hocc => by
    rw [chain_cons_iff] at hc
    obtain ⟨rfl, b, hb, h1⟩ := hc
    have ho := hocc x (by simp) b hb
    simp only [Memory_Blocks.fill_content_with_memory_chunk, hb, if_pos ho]
    rcases h1 with ⟨rfl, h0⟩ | ⟨hne, hc'⟩
    · simp [h0, chain_payload, block_payload, hb]
    · rw [if_pos hne, fill_content_spec _ hc' (by simpa using hl)
        (fun i hi => hocc i (List.mem_cons_of_mem _ hi))]
      simp [chain_payload, block_payload, hb]

theorem full_file_content_spec {blocks : mem_v} {c : List Nat} {h : Nat} (hc : Chain blocks h c)
    (hocc : ∀ i ∈ c, ∀ b, blocks[i]? = some b → b.occupied ≤ b.content.length) :
    Memory_Blocks.full_file_content blocks h = .ok (chain_payload blocks c) := by
  unfold Memory_Blocks.full_file_content
  rw [fill_content_spec [] hc (chain_length_le hc) hocc]
  simp

theorem fill_content_inv {blocks : mem_v} : ∀ {fuel : Nat} {h : Nat} {acc r : vec_c},
    Memory_Blocks.fill_content_with_memory_chunk blocks fuel h acc = .ok r →
    ∃ c, Chain blocks h c ∧
      (∀ i ∈ c, ∀ b, blocks[i]? = some b → b.occupied ≤ b.content.length) ∧
      r = acc ++ chain_payload blocks c
  | 0, _, _, _, hr => by simp [Memory_Blocks.fill_content_with_memory_chunk] at hr
  | fuel + 1, h, acc, r, hr => by
    simp only [Memory_Blocks.fill_content_with_memory_chunk] at hr
    split at hr
    · simp at hr
    · rename_i b hb
      split at hr
      · rename_i ho
        split at hr
        · rename_i hne
          obtain ⟨c, hc, hocc, hr'⟩ := fill_content_inv hr
          refine ⟨h :: c, ?_, ?_, ?_⟩
          · rw [chain_cons_iff]; exact ⟨rfl, b, hb, Or.inr ⟨hne, hc⟩⟩
          · intro i hi b' hb'
            rcases List.mem_cons.1 hi with rfl | hi
            · rw [hb] at hb'; injection hb' with hbb; subst hbb; exact ho
            · exact hocc i hi b' hb'
          · simp [hr', chain_payload, block_payload, hb]
        · rename_i hne
          injection hr with hr
          refine ⟨[h], ?_, ?_, ?_⟩
          · rw [chain_cons_iff]; exact ⟨rfl, b, hb, Or.inl ⟨rfl, by simpa using hne⟩⟩
          · intro i hi b' hb'
            simp at hi; subst hi
            rw [hb] at hb'; injection hb' with hbb; subst hbb; exact ho
          · simp [← hr, chain_payload, block_payload, hb]
      · simp at hr

theorem full_file_content_inv {blocks : mem_v} {h : Nat} {r : vec_c}
    (hr : Memory_Blocks.full_file_content blocks h = .ok r) :
    ∃ c, Chain blocks h c ∧
      (∀ i ∈ c, ∀ b, blocks[i]? = some b → b.occupied ≤ b.content.length) ∧
      r = chain_payload blocks c := by
  obtain ⟨c, hc, hocc, hr'⟩ := fill_content_inv hr
  exact ⟨c, hc, hocc, by simpa using hr'⟩

theorem chain_payload_congr {blocks blocks' : mem_v} : ∀ {c : List Nat},
    (∀ i ∈ c, blocks'[i]? = blocks[i]?) → chain_payload blocks' c = chain_payload blocks c
  | [], _ => rfl
  | x :: tl, hag => by
    simp only [chain_payload, block_payload]
    rw [hag x (by simp), chain_payload_congr (fun i hi => hag i (List.mem_cons_of_mem _ hi))]

theorem chain_payload_append (blocks : mem_v) : ∀ (c1 c2 : List Nat),
    chain_payload blocks (c1 ++ c2) = chain_payload blocks c1 ++ chain_payload blocks c2
  | [], _ => rfl
  | x :: tl, c2 => by
    simp [chain_payload, chain_payload_append blocks tl c2]

theorem chain_congr_eq {blocks blocks' : mem_v} {c : List Nat} {h : Nat}
    (hc : Chain blocks h c) (hag : ∀ i ∈ c, blocks'[i]? = blocks[i]?) : Chain blocks' h c :=
  chain_congr hc (fun i hi b hb => ⟨b, by rw [hag i hi]; exact hb, rfl⟩)

/-- Reading a chain gives the same bytes in two block arrays that agree on the chain. -/
theorem full_file_content_congr {blocks blocks' : mem_v} {c : List Nat} {h : Nat}
    (hc : Chain blocks h c) (hag : ∀ i ∈ c, blocks'[i]? = blocks[i]?)
    {r : vec_c} (hr : Memory_Blocks.full_file_content blocks h = .ok r) :
    Memory_Blocks.full_file_content blocks' h = .ok r := by
  obtain ⟨c', hc', hocc, hr'⟩ := full_file_content_inv hr
  have := chain_unique hc hc'
  subst this
  rw [full_file_content_spec (chain_congr_eq hc hag)
    (fun i hi b hb => hocc i hi b (by rw [← hag i hi]; exact hb)), hr', chain_payload_congr hag]

/-! ### The allocator -/

theorem advance_spec : ∀ {fuel : Nat} {a a' : Allocator},
    a.advance fuel = .ok a' → a.size ≤ a.first_free + fuel →
    a'.status = a.status ∧ a'.size = a.size ∧ a.first_free ≤ a'.first_free ∧
      (a'.first_free < a'.size → a.status[a'.first_free]? = some FREE) ∧
      (∀ i, a.first_free ≤ i → i < a'.first_free → a.status[i]? ≠ some FREE)
  | 0, a, a', h, hf => by
    simp only [Allocator.advance] at h
    injection h with h
    subst h
    exact ⟨rfl, rfl, le_refl _, fun hlt => by omega, fun i h1 h2 => by omega⟩
  | fuel + 1, a, a', h, hf => by
    simp only [Allocator.advance] at h
    split at h
    · rename_i hlt
      split at h
      · simp at h
      · rename_i c hc
        split at h
        · rename_i hne
          obtain ⟨h1, h2, h3, h4, h5⟩ := advance_spec h (by simp; omega)
          simp only at h1 h2 h3 h4 h5
          refine ⟨h1, h2, by omega, h4, ?_⟩
          intro i hi1 hi2
          by_cases hi : i = a.first_free
          · subst hi
            rw [hc]
            intro hh
            injection hh with hh
            exact hne hh
          · exact h5 i (by omega) hi2
        · rename_i hne
          injection h with h
          subst h
          refine ⟨rfl, rfl, le_refl _, fun _ => ?_, fun i h1 h2 => by omega⟩
          rw [hc]
          simpa using hne
    · injection h with h
      subst h
      exact ⟨rfl, rfl, le_refl _, fun hlt => by omega, fun i h1 h2 => by omega⟩

theorem advance_le : ∀ {fuel : Nat} {a a' : Allocator},
    a.advance fuel = .ok a' → a.first_free ≤ a.size → a'.first_free ≤ a'.size
  | 0, a, a', h, hf => by
    simp only [Allocator.advance] at h
    injection h with h
    subst h
    exact hf
  | fuel + 1, a, a', h, hf => by
    simp only [Allocator.advance] at h
    split at h
    · rename_i hlt
      split at h
      · simp at h
      · split at h
        · exact advance_le h (by simp; omega)
        · injection h with h
          subst h
          exact hf
    · injection h with h
      subst h
      exact hf

theorem get_free_index_spec {a a' : Allocator} {i : Nat}
    (h : a.get_free_index = .ok (i, a')) (hwf : a.first_free ≤ a.size) :
    a'.status = a.status ∧ a'.size = a.size ∧ a.first_free ≤ a'.first_free ∧
      a'.first_free ≤ a'.size ∧
      (i ≠ 0 → a.is_free i ∧ i < a.size ∧ i = a'.first_free) ∧
      (i = 0 → a'.first_free = a'.size ∨ a'.first_free = 0) ∧
      (∀ j, a.first_free ≤ j → j < a'.first_free → ¬ a.is_free j) := by
  unfold Allocator.get_free_index at h
  split at h
  · simp at h
  · rename_i a1 ha1
    injection h with h
    injection h with h1 h2
    subst h2
    obtain ⟨h3, h4, h5, h6, h7⟩ := advance_spec ha1 (by omega)
    have hle : a1.first_free ≤ a1.size := by
      by_contra hgt
      have hx : ∀ j, a.first_free ≤ j → j < a1.first_free → a.status[j]? ≠ some FREE := h7
      -- the loop stops at the latest when the hint equals `size`
      have := advance_le ha1 hwf
      omega
    refine ⟨h3, h4, h5, hle, ?_, ?_, h7⟩
    · intro hi
      split at h1
      · exact absurd h1.symm hi
      · rename_i hne
        subst h1
        have hlt : a1.first_free < a1.size := by omega
        exact ⟨h6 hlt, by omega, rfl⟩
    · intro hi
      split at h1
      · rename_i heq
        exact Or.inl heq
      · exact Or.inr (by rw [h1]; exact hi)

theorem mark_as_used_spec {a a' : Allocator} {i : Nat} (h : a.mark_as_used i = .ok a') :
    a' = { a with status := a.status.set i USED } ∧ i < a.status.length := by
  unfold Allocator.mark_as_used at h
  split at h
  · simp at h
  · rename_i c hc
    split at h
    · simp at h
    · injection h with h
      exact ⟨h.symm, (List.getElem?_eq_some.1 hc).1⟩

theorem free_spec {a a' : Allocator} {i : Nat} (h : a.free i = .ok a') :
    a' = { a with status := a.status.set i FREE, first_free := min a.first_free i } ∧
      i ≠ 0 ∧ i < a.size ∧ i < a.status.length ∧ ¬ a.is_free i := by
  unfold Allocator.free at h
  split at h
  · simp at h
  · rename_i hcond
    split at h
    · simp at h
    · rename_i c hc
      split at h
      · simp at h
      · rename_i hne
        injection h with h
        refine ⟨h.symm, by omega, by omega, (List.getElem?_eq_some.1 hc).1, ?_⟩
        unfold Allocator.is_free
        rw [hc]
        simpa using hne

/-! ### Growing a chain -/

theorem chain_last {blocks : mem_v} : ∀ {c : List Nat} {h : Nat}, Chain blocks h c →
    ∃ init last b, c = init ++ [last] ∧ blocks[last]? = some b ∧ b.next_block = 0
  | [], _, hc => by simp [Chain] at hc
  | x :: tl, h, hc => by
    rw [chain_cons_iff] at hc
    obtain ⟨rfl, b, hb, h1⟩ := hc
    rcases h1 with ⟨rfl, h0⟩ | ⟨_, hc'⟩
    · exact ⟨[], x, b, rfl, hb, h0⟩
    · obtain ⟨init, last, b', h1, h2, h3⟩ := chain_last hc'
      exact ⟨x :: init, last, b', by rw [h1]; rfl, h2, h3⟩

theorem last_of_list_spec {blocks : mem_v} : ∀ {fuel : Nat} {init : List Nat} {last h : Nat},
    Chain blocks h (init ++ [last]) → init.length + 1 ≤ fuel →
    Memory_Blocks.last_of_list blocks fuel h = .ok last
  | 0, _, _, _, _, hl => by omega
  | fuel + 1, [], last, h, hc, _ => by
    rw [List.nil_append, chain_cons_iff] at hc
    obtain ⟨rfl, b, hb, h1⟩ := hc
    simp only [Memory_Blocks.last_of_list, hb]
    rcases h1 with ⟨_, h0⟩ | ⟨_, hc'⟩
    · simp [h0]
    · simp [Chain] at hc'
  | fuel + 1, x :: init, last, h, hc, hl => by
    rw [List.cons_append, chain_cons_iff] at hc
    obtain ⟨rfl, b, hb, h1⟩ := hc
    simp only [Memory_Blocks.last_of_list, hb]
    rcases h1 with ⟨hnil, _⟩ | ⟨hne, hc'⟩
    · simp at hnil
    · rw [if_pos hne]
      exact last_of_list_spec hc' (by simpa using hl)

theorem chain_extend {blocks blocks' : mem_v} {last nb : Nat} : ∀ {init : List Nat} {h : Nat},
    Chain blocks h (init ++ [last]) → nb ≠ 0 →
    (∀ i ∈ init, blocks'[i]? = blocks[i]?) →
    (∃ b, blocks'[last]? = some b ∧ b.next_block = nb) →
    (∃ b, blocks'[nb]? = some b ∧ b.next_block = 0) →
    Chain blocks' h (init ++ [last, nb])
  | [], h, hc, hnb, _, hl, hz => by
    rw [List.nil_append, chain_cons_iff] at hc
    obtain ⟨rfl, -, -, -⟩ := hc
    obtain ⟨b, hb, hn⟩ := hl
    obtain ⟨bz, hbz, hz⟩ := hz
    rw [List.nil_append, chain_cons_iff]
    refine ⟨rfl, b, hb, Or.inr ⟨by rw [hn]; exact hnb, ?_⟩⟩
    rw [hn, chain_cons_iff]
    exact ⟨rfl, bz, hbz, Or.inl ⟨rfl, hz⟩⟩
  | x :: init, h, hc, hnb, hag, hl, hz => by
    rw [List.cons_append, chain_cons_iff] at hc
    obtain ⟨rfl, b, hb, h1⟩ := hc
    rcases h1 with ⟨hnil, _⟩ | ⟨hne, hc'⟩
    · simp at hnil
    · rw [List.cons_append, chain_cons_iff]
      refine ⟨rfl, b, by rw [hag x (by simp)]; exact hb, Or.inr ⟨hne, ?_⟩⟩
      exact chain_extend hc' hnb (fun i hi => hag i (List.mem_cons_of_mem _ hi)) hl hz

/-- The empty block left by `clear_memory_block`. -/
theorem clear_memory_block_eq (b : Memory_Block) :
    b.clear_memory_block = ⟨0, 0, List.replicate content_size 0⟩ := rfl

theorem append_to_block_list_spec {blocks blocks' : mem_v} {c : List Nat} {h nb : Nat}
    (happ : Memory_Blocks.append_to_block_list blocks h nb = .ok blocks')
    (hc : Chain blocks h c) (hnb : nb ≠ 0) (hnot : nb ∉ c) :
    Chain blocks' h (c ++ [nb]) ∧ blocks'.length = blocks.length ∧
      blocks'[nb]? = some ⟨0, 0, List.replicate content_size 0⟩ ∧
      (∀ i, i ≠ nb → block_payload blocks' i = block_payload blocks i) ∧
      (∀ i, i ≠ nb → occupied_at blocks' i = occupied_at blocks i) ∧
      (∀ i, i ∉ c → i ≠ nb → blocks'[i]? = blocks[i]?) ∧
      (Sized blocks → Sized blocks') := by
  obtain ⟨init, last, bl, rfl, hbl, hnl⟩ := chain_last hc
  have hlen := chain_length_le hc
  unfold Memory_Blocks.append_to_block_list at happ
  rw [last_of_list_spec hc (by simpa using hlen)] at happ
  simp only [hbl] at happ
  split at happ
  · simp at happ
  · rename_i bn hbn
    injection happ with happ
    subst happ
    have hne : last ≠ nb := fun e => hnot (by simp [e])
    have hlast_lt : last < blocks.length := (List.getElem?_eq_some.1 hbl).1
    have hnb_lt : nb < blocks.length := by
      have := (List.getElem?_eq_some.1 hbn).1
      simpa using this
    have hget : ∀ i, ((blocks.set last { bl with next_block := nb }).set nb
        bn.clear_memory_block)[i]? =
        if nb = i then some ⟨0, 0, List.replicate content_size 0⟩
        else if last = i then some { bl with next_block := nb } else blocks[i]? := by
      intro i
      by_cases h1 : nb = i
      · subst h1
        simp [List.getElem?_set, hnb_lt, clear_memory_block_eq]
      · by_cases h2 : last = i
        · subst h2
          simp [List.getElem?_set, h1, hlast_lt]
        · simp [List.getElem?_set, h1, h2]
    refine ⟨?_, by simp, ?_, ?_, ?_, ?_, ?_⟩
    · have : init ++ [last] ++ [nb] = init ++ [last, nb] := by simp
      rw [this]
      refine chain_extend hc hnb ?_ ?_ ?_
      · intro i hi
        rw [hget]
        have h1 : nb ≠ i := fun e => hnot (by rw [e]; simp [hi])
        have h2 : last ≠ i := by
          intro e
          have := chain_nodup hc
          rw [List.nodup_append] at this
          exact this.2.2 hi (by simp [e])
        simp [h1, h2]
      · refine ⟨{ bl with next_block := nb }, ?_, rfl⟩
        rw [hget]; simp [hne.symm]
      · refine ⟨⟨0, 0, List.replicate content_size 0⟩, ?_, rfl⟩
        rw [hget]; simp
    · rw [hget]; simp
    · intro i hi
      simp only [block_payload]
      rw [hget]
      by_cases h2 : last = i
      · subst h2; simp [Ne.symm hi, hbl]
      · simp [Ne.symm hi, h2]
    · intro i hi
      simp only [occupied_at]
      rw [hget]
      by_cases h2 : last = i
      · subst h2; simp [Ne.symm hi, hbl]
      · simp [Ne.symm hi, h2]
    · intro i hi1 hi2
      rw [hget]
      have h2 : last ≠ i := fun e => hi1 (by simp [← e])
      simp [Ne.symm hi2, h2]
    · intro hs b hb
      obtain ⟨i, hi⟩ := List.mem_iff_getElem?.1 hb
      rw [hget] at hi
      split at hi
      · injection hi with hi; subst hi; simp
      · split at hi
        · injection hi with hi; subst hi
          exact hs bl (List.mem_iff_getElem?.2 ⟨last, hbl⟩)
        · exact hs b (List.mem_iff_getElem?.2 ⟨i, hi⟩)

theorem allocate_needed_memory_spec : ∀ {fuel : Nat} {fs fs' : File_System} {c : List Nat}
    {h L a : Nat},
    File_System.allocate_needed_memory h L fuel fs a = (.ok (), fs') →
    Chain fs.memory h c → fs.memory_allocator.first_free ≤ fs.memory_allocator.size →
    (∀ i ∈ c, ¬ fs.memory_allocator.is_free i) → a < 65536 →
    ∃ new, Chain fs'.memory h (c ++ new) ∧ fs'.memory.length = fs.memory.length ∧
      fs'.inodes = fs.inodes ∧ fs'.inodes_allocator = fs.inodes_allocator ∧
      (∀ i ∈ new, fs.memory_allocator.is_free i ∧ occupied_at fs'.memory i = 0) ∧
      (∀ i, i ∉ new → block_payload fs'.memory i = block_payload fs.memory i ∧
        occupied_at fs'.memory i = occupied_at fs.memory i) ∧
      (∀ i, i ∉ c → i ∉ new → fs'.memory[i]? = fs.memory[i]?) ∧
      (∀ i, i ∉ new → fs'.memory_allocator.status[i]? = fs.memory_allocator.status[i]?) ∧
      (∀ i ∈ new, fs'.memory_allocator.status[i]? = some USED) ∧
      fs'.memory_allocator.size = fs.memory_allocator.size ∧
      fs'.memory_allocator.status.length = fs.memory_allocator.status.length ∧
      fs'.memory_allocator.first_free ≤ fs'.memory_allocator.size ∧
      (Sized fs.memory → Sized fs'.memory) ∧
      L ≤ (a + content_size * new.length) % 65536
  | 0, fs, fs', c, h, L, a, hal, hc, hwf, hfree, ha => by
    simp only [File_System.allocate_needed_memory] at hal
    split at hal
    · simp at hal
    · rename_i hle
      injection hal with h1 h2
      subst h2
      refine ⟨[], by simpa using hc, rfl, rfl, rfl, by simp, by simp, by simp, by simp, by simp,
        rfl, rfl, hwf, id, ?_⟩
      simp only [List.length_nil, Nat.mul_zero, Nat.add_zero]
      rw [Nat.mod_eq_of_lt ha]
      omega
  | fuel + 1, fs, fs', c, h, L, a, hal, hc, hwf, hfree, ha => by
    simp only [File_System.allocate_needed_memory] at hal
    split at hal
    · rename_i hgt
      split at hal
      · simp at hal
      · rename_i nb ma hgf
        obtain ⟨g1, g2, g3, g4, g5, -, -⟩ := get_free_index_spec hgf hwf
        split at hal
        · simp at hal
        · rename_i hnb
          split at hal
          · simp at hal
          · rename_i blocks1 happ
            split at hal
            · simp at hal
            · rename_i ma' hmark
              obtain ⟨m1, m2⟩ := mark_as_used_spec hmark
              obtain ⟨hfree_nb, hnb_lt, -⟩ := g5 hnb
              have hnot : nb ∉ c := fun hmem => hfree nb hmem hfree_nb
              obtain ⟨p1, p2, p3, p4, p5, p6, p7⟩ := append_to_block_list_spec happ hc hnb hnot
              have hstat : ∀ i, ma'.status[i]? =
                  if nb = i then some USED else fs.memory_allocator.status[i]? := by
                intro i
                rw [m1]
                simp only
                rw [List.getElem?_set, g1]
                by_cases e : nb = i
                · subst e
                  have : nb < fs.memory_allocator.status.length := by rw [← g1]; exact m2
                  simp [this]
                · simp [e]
              have hfree1 : ∀ i ∈ c ++ [nb], ¬ Allocator.is_free ma' i := by
                intro i hi
                unfold Allocator.is_free
                rw [hstat]
                by_cases e : nb = i
                · simp [e, USED, FREE]
                · rw [if_neg e]
                  have : i ∈ c := by
                    rcases List.mem_append.1 hi with hi | hi
                    · exact hi
                    · simp at hi; exact absurd hi.symm e
                  exact hfree i this
              have hwf1 : ma'.first_free ≤ ma'.size := by rw [m1]; exact g4
              obtain ⟨new', q1, q2, q3, q4, q5, q6, q7, q8, q9, q10, q10b, q11, q12, q13⟩ :=
                @allocate_needed_memory_spec fuel
                  { fs with memory_allocator := ma', memory := blocks1 } fs' _ h L _
                  hal p1 hwf1 hfree1 (Nat.mod_lt _ (by norm_num))
              simp only at q1 q2 q3 q4 q5 q6 q7 q8 q9 q10 q10b q11 q12
              have hnb_new : nb ∉ new' := by
                intro hmem
                have := (q5 nb hmem).1
                unfold Allocator.is_free at this
                rw [hstat] at this
                simp [USED, FREE] at this
              refine ⟨nb :: new', by simpa using q1, by rw [q2, p2], q3, q4, ?_, ?_, ?_, ?_, ?_,
                ?_, ?_, q11, fun hs => q12 (p7 hs), ?_⟩
              · intro i hi
                rcases List.mem_cons.1 hi with rfl | hi
                · refine ⟨hfree_nb, ?_⟩
                  rw [(q6 i hnb_new).2]
                  simp [occupied_at, p3]
                · refine ⟨?_, (q5 i hi).2⟩
                  have := (q5 i hi).1
                  unfold Allocator.is_free at this ⊢
                  rw [hstat] at this
                  by_cases e : nb = i
                  · subst e; exact absurd hi hnb_new
                  · rwa [if_neg e] at this
              · intro i hi
                have h1 : i ≠ nb := fun e => hi (by simp [e])
                have h2 : i ∉ new' := fun e => hi (List.mem_cons_of_mem _ e)
                exact ⟨by rw [(q6 i h2).1, p4 i h1], by rw [(q6 i h2).2, p5 i h1]⟩
              · intro i hi1 hi
                have h1 : i ≠ nb := fun e => hi (by simp [e])
                have h2 : i ∉ new' := fun e => hi (List.mem_cons_of_mem _ e)
                rw [q7 i (by simp [hi1, h1]) h2, p6 i hi1 h1]
              · intro i hi
                have h1 : nb ≠ i := fun e => hi (by simp [e])
                have h2 : i ∉ new' := fun e => hi (List.mem_cons_of_mem _ e)
                rw [q8 i h2, hstat, if_neg h1]
              · intro i hi
                rcases List.mem_cons.1 hi with rfl | hi
                · rw [q8 i hnb_new, hstat]; simp
                · exact q9 i hi
              · rw [q10, m1]; exact g2
              · rw [q10b, m1]; simp [g1]
              · have := q13
                simp only [content_size, List.length_cons] at this ⊢
                omega
    · rename_i hle
      injection hal with h1 h2
      subst h2
      refine ⟨[], by simpa using hc, rfl, rfl, rfl, by simp, by simp, by simp, by simp, by simp,
        rfl, rfl, hwf, id, ?_⟩
      simp only [List.length_nil, Nat.mul_zero, Nat.add_zero]
      rw [Nat.mod_eq_of_lt ha]
      omega

/-! ### Writing a chain -/

theorem getElem?_set_of_some {α : Type} {l : List α} {i : Nat} {b : α} (hb : l[i]? = some b)
    (x : α) (j : Nat) : (l.set i x)[j]? = if i = j then some x else l[j]? := by
  have hlt : i < l.length := (List.getElem?_eq_some.1 hb).1
  by_cases e : i = j
  · subst e
    rw [List.getElem?_set_self hlt, if_pos rfl]
  · rw [List.getElem?_set_ne e, if_neg e]

theorem set_occupied_getElem? {blocks : mem_v} {i : Nat} {b : Memory_Block}
    (hb : blocks[i]? = some b) (v j : Nat) :
    (set_occupied blocks i v)[j]? = if i = j then some { b with occupied := v } else blocks[j]? := by
  unfold set_occupied
  rw [hb]
  exact getElem?_set_of_some hb _ j

theorem take_succ_set {α : Type} (l : List α) (n : Nat) (c : α) (h : n < l.length) :
    (l.set n c).take (n + 1) = l.take n ++ [c] := by
  induction l generalizing n with
  | nil => simp at h
  | cons x l ih =>
    cases n with
    | zero => simp
    | succ n =>
      simp only [List.set_cons_succ, List.take_succ_cons, List.cons_append]
      rw [ih n (by simpa using h)]

theorem sized_set {blocks : mem_v} {i : Nat} {b : Memory_Block} (hs : Sized blocks)
    (hb : b.content.length = content_size) : Sized (blocks.set i b) := by
  intro x hx
  rcases List.mem_or_eq_of_mem_set hx with h | h
  · exact hs x h
  · rw [h]; exact hb

theorem save_file_loop_spec : ∀ (cs : vec_c) {blocks : mem_v} {mb mi : Nat} {tl : List Nat},
    Chain blocks mb (mb :: tl) → Sized blocks → mi ≤ content_size →
    mi + cs.length ≤ content_size * (tl.length + 1) →
    ∃ blocks' mb' mi' k b0,
      Memory_Blocks.save_file_loop blocks mb mi cs = .ok (blocks', mb', mi') ∧
      blocks[mb]? = some b0 ∧
      blocks'.length = blocks.length ∧ Sized blocks' ∧
      (∀ i : Nat, (blocks'[i]?).map (fun b : Memory_Block => b.next_block)
        = (blocks[i]?).map (fun b : Memory_Block => b.next_block)) ∧
      (∀ i, i ∉ (mb :: tl).take (k + 1) → blocks'[i]? = blocks[i]?) ∧
      (mb :: tl)[k]? = some mb' ∧
      content_size * k + mi' = mi + cs.length ∧ mi' ≤ content_size ∧
      (0 < mi ∨ cs ≠ [] → 0 < mi') ∧
      (∀ i ∈ (mb :: tl).take (k + 1),
        occupied_at (set_occupied blocks' mb' mi') i ≤ content_size) ∧
      chain_payload (set_occupied blocks' mb' mi') ((mb :: tl).take (k + 1))
        = b0.content.take mi ++ cs
  | [], blocks, mb, mi, tl, hc, hs, hmi, hcap => by
    have hc' := hc
    rw [chain_cons_iff] at hc'
    obtain ⟨-, b0, hb0, -⟩ := hc'
    refine ⟨blocks, mb, mi, 0, b0, rfl, hb0, rfl, hs, fun _ => rfl, fun _ _ => rfl, by simp,
      by simp, hmi, by simp, ?_, ?_⟩
    · intro i hi
      simp at hi
      subst hi
      simp [occupied_at, set_occupied_getElem? hb0, hmi]
    · simp [chain_payload, block_payload, set_occupied_getElem? hb0]
  | c :: rest, blocks, mb, mi, tl, hc, hs, hmi, hcap => by
    have hnd := chain_nodup hc
    have hc' := hc
    rw [chain_cons_iff] at hc'
    obtain ⟨-, b0, hb0, hnext⟩ := hc'
    have hb0len : b0.content.length = content_size := hs b0 (List.mem_iff_getElem?.2 ⟨mb, hb0⟩)
    by_cases hadv : mi = content_size
    · -- the cursor moves to the next block
      rcases hnext with ⟨rfl, _⟩ | ⟨hne, hc2⟩
      · simp [content_size] at hcap hadv; omega
      · obtain ⟨tl2, htl⟩ := chain_head hc2
        subst htl
        set nb := b0.next_block with hnb
        have hmbnb : mb ≠ nb := by
          intro e
          rw [List.nodup_cons] at hnd
          exact hnd.1 (by rw [e]; simp)
        obtain ⟨bn, hbn, -⟩ := (chain_cons_iff.1 hc2).2
        have hbnlen : bn.content.length = content_size := hs bn (List.mem_iff_getElem?.2 ⟨nb, hbn⟩)
        have hg1 : ∀ j, (blocks.set mb { b0 with occupied := content_size })[j]? =
            if mb = j then some { b0 with occupied := content_size } else blocks[j]? :=
          getElem?_set_of_some hb0 _
        have hbn1 : (blocks.set mb { b0 with occupied := content_size })[nb]? = some bn := by
          rw [hg1, if_neg hmbnb]; exact hbn
        have hg2 : ∀ j, ((blocks.set mb { b0 with occupied := content_size }).set nb
            { bn with content := bn.content.set 0 c })[j]? =
            if nb = j then some { bn with content := bn.content.set 0 c }
            else if mb = j then some { b0 with occupied := content_size } else blocks[j]? := by
          intro j
          rw [getElem?_set_of_some hbn1, hg1]
        have hc3 : Chain ((blocks.set mb { b0 with occupied := content_size }).set nb
            { bn with content := bn.content.set 0 c }) nb (nb :: tl2) := by
          refine chain_congr hc2 ?_
          intro i hi b hb
          rw [hg2]
          by_cases e1 : nb = i
          · subst e1
            rw [hbn] at hb; injection hb with hb; subst hb
            exact ⟨{ bn with content := bn.content.set 0 c }, by simp, rfl⟩
          · have e2 : mb ≠ i := by
              intro e
              rw [List.nodup_cons] at hnd
              exact hnd.1 (by rw [e]; exact hi)
            exact ⟨b, by simp [e1, e2, hb], rfl⟩
        have hs3 : Sized ((blocks.set mb { b0 with occupied := content_size }).set nb
            { bn with content := bn.content.set 0 c }) :=
          sized_set (sized_set hs hb0len) (by simp [hbnlen])
        obtain ⟨blocks', mb', mi', k, b0', e1, e2, e3, e4, e5, e6, e7, e8, e9, e10, e11, e12⟩ :=
          save_file_loop_spec rest hc3 hs3 (by simp [content_size] : 1 ≤ content_size)
            (by simp [content_size] at hcap hadv ⊢; omega)
        have hb0' : b0' = { bn with content := bn.content.set 0 c } := by
          rw [hg2] at e2; simpa using e2.symm
        subst hb0'
        have hmb'mem : mb' ∈ (nb :: tl2).take (k + 1) := by
          rw [List.mem_iff_getElem?]
          exact ⟨k, by rw [List.getElem?_take]; simp [e7]⟩
        have hmbnot : mb ∉ (nb :: tl2).take (k + 1) := by
          intro hmem
          rw [List.nodup_cons] at hnd
          exact hnd.1 (List.mem_of_mem_take hmem)
        have hmb' : mb' ≠ mb := fun e => hmbnot (e ▸ hmb'mem)
        obtain ⟨bm', hbm'⟩ : ∃ bm', blocks'[mb']? = some bm' := by
          have : mb' < blocks'.length := by
            rw [e3]; simp
            have := chain_mem_lt hc2 mb' (List.mem_of_mem_take hmb'mem)
            simpa using this
          exact ⟨_, List.getElem?_eq_getElem this⟩
        have hFmb : (set_occupied blocks' mb' mi')[mb]? = some { b0 with occupied := content_size } := by
          rw [set_occupied_getElem? hbm', if_neg hmb', e6 mb hmbnot, hg2]
          simp [Ne.symm hmbnb]
        refine ⟨blocks', mb', mi', k + 1, b0, ?_, hb0, ?_, e4, ?_, ?_, ?_, ?_, e9, ?_, ?_, ?_⟩
        · simp only [Memory_Blocks.save_file_loop, if_pos hadv, hb0]
          rw [← hnb]
          simp only [hbn1]
          rw [if_pos (by rw [hbnlen]; simp [content_size])]
          exact e1
        · rw [e3]; simp
        · intro i
          rw [e5, hg2]
          by_cases h1 : nb = i
          · subst h1; simp [hbn]
          · by_cases h2 : mb = i
            · subst h2; simp [h1, hb0]
            · simp [h1, h2]
        · intro i hi
          have h1 : i ≠ mb := fun e => hi (by simp [e])
          have h2 : i ∉ (nb :: tl2).take (k + 1) := fun e => hi (by
            rw [List.take_succ_cons]; exact List.mem_cons_of_mem _ e)
          have h3 : i ≠ nb := fun e => h2 (by rw [e]; simp)
          rw [e6 i h2, hg2]
          simp [Ne.symm h1, Ne.symm h3]
        · simpa using e7
        · simp only [List.length_cons] at e8 ⊢
          rw [hadv]
          simp only [content_size] at e8 ⊢
          omega
        · intro _
          exact e10 (Or.inl (by norm_num))
        · intro i hi
          rw [List.take_succ_cons] at hi
          rcases List.mem_cons.1 hi with rfl | hi
          · simp [occupied_at, hFmb]
          · exact e11 i hi
        · rw [List.take_succ_cons]
          show block_payload _ mb ++ chain_payload _ (List.take (k + 1) (nb :: tl2)) = _
          rw [e12]
          simp only [block_payload, hFmb]
          rw [hadv]
          have : (bn.content.set 0 c).take 1 = [c] := by
            have := take_succ_set bn.content 0 c (by rw [hbnlen]; simp [content_size])
            simpa using this
          rw [this]
          simp
    · -- the byte goes into the current block
      have hlt : mi < b0.content.length := by rw [hb0len]; omega
      have hg1 : ∀ j, (blocks.set mb { b0 with content := b0.content.set mi c })[j]? =
          if mb = j then some { b0 with content := b0.content.set mi c } else blocks[j]? :=
        getElem?_set_of_some hb0 _
      have hc3 : Chain (blocks.set mb { b0 with content := b0.content.set mi c }) mb (mb :: tl) := by
        refine chain_congr hc ?_
        intro i hi b hb
        rw [hg1]
        by_cases e1 : mb = i
        · subst e1
          rw [hb0] at hb; injection hb with hb; subst hb
          exact ⟨{ b0 with content := b0.content.set mi c }, by simp, rfl⟩
        · exact ⟨b, by simp [e1, hb], rfl⟩
      have hs3 : Sized (blocks.set mb { b0 with content := b0.content.set mi c }) :=
        sized_set hs (by simp [hb0len])
      obtain ⟨blocks', mb', mi', k, b0', e1, e2, e3, e4, e5, e6, e7, e8, e9, e10, e11, e12⟩ :=
        save_file_loop_spec rest hc3 hs3 (by omega : mi + 1 ≤ content_size)
          (by simp only [List.length_cons] at hcap; omega)
      have hb0' : b0' = { b0 with content := b0.content.set mi c } := by
        rw [hg1] at e2; simpa using e2.symm
      subst hb0'
      refine ⟨blocks', mb', mi', k, b0, ?_, hb0, ?_, e4, ?_, ?_, e7, ?_, e9, ?_, e11, ?_⟩
      · simp only [Memory_Blocks.save_file_loop, if_neg hadv, hb0, if_pos hlt]
        exact e1
      · rw [e3]; simp
      · intro i
        rw [e5, hg1]
        by_cases h2 : mb = i
        · subst h2; simp [hb0]
        · simp [h2]
      · intro i hi
        have h1 : mb ≠ i := by
          intro e
          apply hi
          rw [← e, List.take_succ_cons]
          simp
        rw [e6 i hi, hg1, if_neg h1]
      · simp only [List.length_cons] at e8 ⊢
        omega
      · intro _
        exact e10 (Or.inl (by omega))
      · rw [e12]
        simp only
        rw [take_succ_set _ _ _ hlt]
        simp

theorem save_file_spec {blocks : mem_v} {c : List Nat} {h : Nat} {content : vec_c}
    (hc : Chain blocks h c) (hs : Sized blocks) (hlen : content.length < 65536)
    (hcap : content.length ≤ content_size * c.length) :
    ∃ blocks' k mi',
      Memory_Blocks.save_file blocks h content = .ok blocks' ∧
      blocks'.length = blocks.length ∧ Sized blocks' ∧
      (∀ i : Nat, (blocks'[i]?).map (fun b : Memory_Block => b.next_block)
        = (blocks[i]?).map (fun b : Memory_Block => b.next_block)) ∧
      (∀ i, i ∉ c.take (k + 1) → blocks'[i]? = blocks[i]?) ∧
      k < c.length ∧
      content_size * k + mi' = content.length ∧ mi' ≤ content_size ∧
      (content ≠ [] → 0 < mi') ∧
      (∀ i ∈ c.take (k + 1), occupied_at blocks' i ≤ content_size) ∧
      chain_payload blocks' (c.take (k + 1)) = content := by
  obtain ⟨tl, rfl⟩ := chain_head hc
  obtain ⟨blocks', mb', mi', k, b0, e1, e2, e3, e4, e5, e6, e7, e8, e9, e10, e11, e12⟩ :=
    save_file_loop_spec content hc hs (Nat.zero_le _) (by simpa using hcap)
  have hk : k < (h :: tl).length := by
    by_contra hge
    rw [List.getElem?_eq_none (by omega)] at e7
    simp at e7
  have hmb'mem : mb' ∈ (h :: tl).take (k + 1) := by
    rw [List.mem_iff_getElem?]
    exact ⟨k, by rw [List.getElem?_take]; simp [e7]⟩
  obtain ⟨bm', hbm'⟩ : ∃ bm', blocks'[mb']? = some bm' := by
    have : mb' < blocks'.length := by
      rw [e3]
      exact chain_mem_lt hc mb' (List.mem_of_mem_take hmb'mem)
    exact ⟨_, List.getElem?_eq_getElem this⟩
  have hmod : mi' % 256 = mi' := Nat.mod_eq_of_lt (by simp only [content_size] at e9; omega)
  have hF : Memory_Blocks.save_file blocks h content = .ok (set_occupied blocks' mb' mi') := by
    unfold Memory_Blocks.save_file
    rw [if_neg (by omega), e1]
    simp only [hbm', hmod, set_occupied]
  refine ⟨set_occupied blocks' mb' mi', k, mi', hF, ?_, ?_, ?_, ?_, hk, by simpa using e8, e9,
    fun hne => e10 (Or.inr hne), e11, by simpa using e12⟩
  · simp [set_occupied, hbm', e3]
  · simp only [set_occupied, hbm']
    exact sized_set e4 (e4 bm' (List.mem_iff_getElem?.2 ⟨mb', hbm'⟩))
  · intro i
    rw [set_occupied_getElem? hbm', ← e5]
    by_cases e : mb' = i
    · subst e; simp [hbm']
    · simp [e]
  · intro i hi
    have : mb' ≠ i := fun e => hi (e ▸ hmb'mem)
    rw [set_occupied_getElem? hbm', if_neg this, e6 i hi]

theorem chain_of_same_next {blocks blocks' : mem_v} {c : List Nat} {h : Nat}
    (hc : Chain blocks h c)
    (hn : ∀ i : Nat, (blocks'[i]?).map (fun b : Memory_Block => b.next_block)
        = (blocks[i]?).map (fun b : Memory_Block => b.next_block)) :
    Chain blocks' h c := by
  refine chain_congr hc ?_
  intro i _ b hb
  have := hn i
  rw [hb] at this
  cases hb' : blocks'[i]? with
  | none => rw [hb'] at this; simp at this
  | some b' =>
    rw [hb'] at this
    simp at this
    exact ⟨b', rfl, this⟩

/-- What a read of the whole chain returns after `save_file`: the new content followed by
whatever the blocks behind the last written block still hold. -/
theorem save_file_read_back {blocks blocks' : mem_v} {c : List Nat} {h k : Nat} {content : vec_c}
    (hc : Chain blocks h c)
    (hfr : ∀ i, i ∉ c.take (k + 1) → blocks'[i]? = blocks[i]?)
    (hpay : chain_payload blocks' (c.take (k + 1)) = content) :
    chain_payload blocks' c = content ++ chain_payload blocks (c.drop (k + 1)) := by
  conv_lhs => rw [← List.take_append_drop (k + 1) c]
  rw [chain_payload_append, hpay]
  congr 1
  apply chain_payload_congr
  intro i hi
  apply hfr
  intro hi'
  have hnd := chain_nodup hc
  rw [← List.take_append_drop (k + 1) c, List.nodup_append] at hnd
  exact hnd.2.2 hi' hi

theorem chain_payload_nil_of_occupied {blocks : mem_v} : ∀ {l : List Nat},
    (∀ i ∈ l, occupied_at blocks i = 0) → chain_payload blocks l = []
  | [], _ => rfl
  | x :: l, h => by
    have h0 := h x (by simp)
    have : block_payload blocks x = [] := by
      unfold block_payload
      unfold occupied_at at h0
      cases hb : blocks[x]? with
      | none => rfl
      | some b => rw [hb] at h0; simp only at h0 ⊢; rw [h0]; simp
    simp only [chain_payload, this, List.nil_append]
    exact chain_payload_nil_of_occupied (fun i hi => h i (List.mem_cons_of_mem _ hi))

/-- Writing content that is at least as long as the payload of a well-formed chain (every
block before the last one full), on a chain that may have been extended by empty blocks:
the chain then reads back as exactly the content. -/
theorem write_back_spec {blocks : mem_v} {init new : List Nat} {last h o : Nat} {content : vec_c}
    (hc : Chain blocks h (init ++ [last] ++ new)) (hs : Sized blocks)
    (hlen : content.length < 65536)
    (hcap : content.length ≤ content_size * (init ++ [last] ++ new).length)
    (hfull : ∀ i ∈ init, occupied_at blocks i = content_size)
    (hlast : occupied_at blocks last = o) (ho : o ≤ content_size)
    (hnew : ∀ i ∈ new, occupied_at blocks i = 0)
    (hge : content_size * init.length + o ≤ content.length) :
    ∃ blocks', Memory_Blocks.save_file blocks h content = .ok blocks' ∧
      Memory_Blocks.full_file_content blocks' h = .ok content ∧
      blocks'.length = blocks.length ∧ Sized blocks' ∧
      (∀ i, i ∉ init ++ [last] ++ new → blocks'[i]? = blocks[i]?) := by
  obtain ⟨blocks', k, mi', e1, e2, e3, e4, e5, e6, e7, e8, e9, e10, e11⟩ :=
    save_file_spec hc hs hlen hcap
  have hc' : Chain blocks' h (init ++ [last] ++ new) := chain_of_same_next hc e4
  have hread := save_file_read_back hc e5 e11
  -- the blocks behind the cursor hold no payload
  have hk : init.length ≤ k + 1 := by
    simp only [content_size] at e7 e8 hge
    omega
  have hstale : chain_payload blocks ((init ++ [last] ++ new).drop (k + 1)) = [] := by
    apply chain_payload_nil_of_occupied
    intro i hi
    rw [List.append_assoc, List.drop_append_eq_append_drop, List.drop_of_length_le hk,
      List.nil_append, List.drop_append_eq_append_drop] at hi
    rcases List.mem_append.1 hi with hi | hi
    · by_cases hk' : k + 1 - init.length = 0
      · rw [hk'] at hi
        simp at hi
        subst hi
        rw [hlast]
        simp only [content_size] at e7 e8 hge
        omega
      · rw [List.drop_of_length_le (by simp; omega)] at hi
        simp at hi
    · exact hnew i (List.mem_of_mem_drop hi)
  rw [hstale, List.append_nil] at hread
  refine ⟨blocks', e1, ?_, e2, e3, ?_⟩
  · rw [full_file_content_spec hc', hread]
    intro i hi b hb
    rw [e3 b (List.mem_iff_getElem?.2 ⟨i, hb⟩)]
    by_cases hin : i ∈ (init ++ [last] ++ new).take (k + 1)
    · have := e10 i hin
      simpa [occupied_at, hb] using this
    · have hb' := hb
      rw [e5 i hin] at hb'
      have hocc : occupied_at blocks i ≤ content_size := by
        rcases List.mem_append.1 hi with hi | hi
        · rcases List.mem_append.1 hi with hi | hi
          · rw [hfull i hi]
          · simp at hi; subst hi; rw [hlast]; exact ho
        · rw [hnew i hi]; exact Nat.zero_le _
      simpa [occupied_at, hb'] using hocc
  · intro i hi
    exact e5 i (fun hmem => hi (List.mem_of_mem_take hmem))

theorem deallocate_noop {h L a fuel : Nat} {fs : File_System}
    (hcond : ¬ L < (a + 4294967296 - content_size) % 4294967296) :
    File_System.deallocate_excessive_memory h L (fuel + 1) fs a = (.ok (), fs) := by
  simp only [File_System.deallocate_excessive_memory, if_neg hcond]

/-- `save_content_to_memory` with content at least as long as the current payload of a
well-formed chain: afterwards the chain reads back as the content, and only blocks of the
chain and blocks that were marked free have changed. -/
theorem save_content_grow_spec {fs fs' : File_System} {h o last : Nat} {init : List Nat}
    {content : vec_c}
    (hsave : fs.save_content_to_memory h content = (.ok (), fs'))
    (hc : Chain fs.memory h (init ++ [last])) (hs : Sized fs.memory)
    (hwf : fs.memory_allocator.first_free ≤ fs.memory_allocator.size)
    (hfree : ∀ i ∈ init ++ [last], ¬ fs.memory_allocator.is_free i)
    (hfull : ∀ i ∈ init, occupied_at fs.memory i = content_size)
    (hlast : occupied_at fs.memory last = o) (ho : o ≤ content_size)
    (hlen : content.length < 65536)
    (hge : content_size * init.length + o ≤ content.length) :
    Memory_Blocks.full_file_content fs'.memory h = .ok content ∧
      fs'.inodes = fs.inodes ∧ fs'.inodes_allocator = fs.inodes_allocator ∧
      fs'.memory.length = fs.memory.length ∧ Sized fs'.memory ∧
      (∀ i, i ∉ init ++ [last] → ¬ fs.memory_allocator.is_free i →
        fs'.memory[i]? = fs.memory[i]?) := by
  unfold File_System.save_content_to_memory at hsave
  rw [get_file_size_spec hc, Nat.mod_eq_of_lt hlen] at hsave
  simp only at hsave
  have hK : (init ++ [last]).length = init.length + 1 := by simp
  have hlenall : ∀ new : List Nat,
      (init ++ [last] ++ new).length = init.length + 1 + new.length := by
    intro new; simp; omega
  split at hsave
  · simp at hsave
  · rename_i fs1 hstep
    split at hsave
    · simp at hsave
    · rename_i blocks' hsf
      injection hsave with _ hfs'
      subst hfs'
      -- the state after the reshape step
      have key : ∃ new, Chain fs1.memory h (init ++ [last] ++ new) ∧
          fs1.memory.length = fs.memory.length ∧ fs1.inodes = fs.inodes ∧
          fs1.inodes_allocator = fs.inodes_allocator ∧
          (∀ i ∈ new, fs.memory_allocator.is_free i ∧ occupied_at fs1.memory i = 0) ∧
          (∀ i, i ∉ new → occupied_at fs1.memory i = occupied_at fs.memory i) ∧
          (∀ i, i ∉ init ++ [last] → i ∉ new → fs1.memory[i]? = fs.memory[i]?) ∧
          Sized fs1.memory ∧
          content.length ≤ content_size * (init ++ [last] ++ new).length := by
        split at hstep
        · rename_i hgt
          obtain ⟨new, q1, q2, q3, q4, q5, q6, q7, -, -, -, -, -, q12, q13⟩ :=
            allocate_needed_memory_spec hstep hc hwf hfree (Nat.mod_lt _ (by norm_num))
          refine ⟨new, q1, q2, q3, q4, q5, fun i hi => (q6 i hi).2, q7, q12 hs, ?_⟩
          rw [hK] at q13
          rw [hlenall]
          simp only [content_size] at q13 ⊢
          have h1 := Nat.mod_le (50 * (init.length + 1) % 65536 + 50 * new.length) 65536
          have h2 := Nat.mod_le (50 * (init.length + 1)) 65536
          omega
        · rename_i hle
          have hcond : ¬ content.length <
              (content_size * (init ++ [last]).length % 65536 + 4294967296 - content_size)
                % 4294967296 := by
            rw [hK] at hle ⊢
            simp only [content_size] at hle hge ho ⊢
            by_cases h50 : 50 * (init.length + 1) < 65536
            · rw [Nat.mod_eq_of_lt h50] at hle ⊢
              have h2 : (50 * (init.length + 1) + 4294967296 - 50) % 4294967296
                  = 50 * init.length := by
                have : 50 * (init.length + 1) + 4294967296 - 50
                    = 50 * init.length + 4294967296 := by omega
                rw [this, Nat.add_mod_right]
                exact Nat.mod_eq_of_lt (by omega)
              rw [h2]
              omega
            · exfalso
              have h3 : 50 * (init.length + 1) % 65536 ≤ 50 * (init.length + 1) - 65536 := by
                omega
              omega
          rw [deallocate_noop hcond] at hstep
          injection hstep with _ hfs1
          subst hfs1
          refine ⟨[], by simpa using hc, rfl, rfl, rfl, by simp, fun _ _ => rfl,
            fun _ _ _ => rfl, hs, ?_⟩
          rw [hK] at hle
          rw [hlenall]
          simp only [content_size, List.length_nil] at hle ⊢
          have h2 := Nat.mod_le (50 * (init.length + 1)) 65536
          omega
      obtain ⟨new, k1, k2, k3, k4, k5, k6, k7, k8, k9⟩ := key
      have hnotnew : ∀ i ∈ init ++ [last], i ∉ new := fun i hi hmem =>
        hfree i hi (k5 i hmem).1
      obtain ⟨blocks'', w1, w2, w3, w4, w5⟩ :=
        write_back_spec (o := o) k1 k8 hlen k9
          (fun i hi => by
            rw [k6 i (hnotnew i (List.mem_append_left _ hi))]; exact hfull i hi)
          (by rw [k6 last (hnotnew last (by simp))]; exact hlast) ho
          (fun i hi => (k5 i hi).2) hge
      rw [w1] at hsf
      injection hsf with hsf
      subst hsf
      refine ⟨w2, k3, k4, by rw [w3, k2], w4, ?_⟩
      intro i hi1 hi2
      have hi3 : i ∉ new := fun hmem => hi2 (k5 i hmem).1
      rw [w5 i (by simp only [List.mem_append, not_or]; exact ⟨by simpa using hi1, hi3⟩),
        k7 i hi1 hi3]

/-! ### Components a reshape does not touch -/

theorem allocate_needed_memory_inodes (h L : Nat) : ∀ (fuel : Nat) (fs : File_System) (a : Nat),
    (File_System.allocate_needed_memory h L fuel fs a).2.inodes_allocator = fs.inodes_allocator ∧
    (File_System.allocate_needed_memory h L fuel fs a).2.inodes = fs.inodes
  | 0, fs, a => by
    simp only [File_System.allocate_needed_memory]
    split <;> exact ⟨rfl, rfl⟩
  | fuel + 1, fs, a => by
    simp only [File_System.allocate_needed_memory]
    split
    · split
      · exact ⟨rfl, rfl⟩
      · split
        · exact ⟨rfl, rfl⟩
        · split
          · exact ⟨rfl, rfl⟩
          · split
            · exact ⟨rfl, rfl⟩
            · exact allocate_needed_memory_inodes h L fuel _ _
    · exact ⟨rfl, rfl⟩

theorem deallocate_excessive_memory_inodes (h L : Nat) : ∀ (fuel : Nat) (fs : File_System) (a : Nat),
    (File_System.deallocate_excessive_memory h L fuel fs a).2.inodes_allocator
      = fs.inodes_allocator ∧
    (File_System.deallocate_excessive_memory h L fuel fs a).2.inodes = fs.inodes
  | 0, fs, a => by
    simp only [File_System.deallocate_excessive_memory]
    split <;> exact ⟨rfl, rfl⟩
  | fuel + 1, fs, a => by
    simp only [File_System.deallocate_excessive_memory]
    split
    · split
      · exact ⟨rfl, rfl⟩
      · split
        · exact ⟨rfl, rfl⟩
        · exact deallocate_excessive_memory_inodes h L fuel _ _
    · exact ⟨rfl, rfl⟩

theorem save_content_to_memory_inodes (fs : File_System) (h : Nat) (content : vec_c) :
    (fs.save_content_to_memory h content).2.inodes_allocator = fs.inodes_allocator ∧
    (fs.save_content_to_memory h content).2.inodes = fs.inodes := by
  unfold File_System.save_content_to_memory
  split
  · exact ⟨rfl, rfl⟩
  · rename_i actual _
    have key : ∀ r : Result Unit, r.2.inodes_allocator = fs.inodes_allocator ∧ r.2.inodes = fs.inodes →
        (match r with
          | (.error e, fs') => ((.error e, fs') : Result Unit)
          | (.ok (), fs') =>
            match Memory_Blocks.save_file fs'.memory h content with
            | .error e => (.error e, fs')
            | .ok blocks => (.ok (), { fs' with memory := blocks })).2.inodes_allocator
          = fs.inodes_allocator ∧
        (match r with
          | (.error e, fs') => ((.error e, fs') : Result Unit)
          | (.ok (), fs') =>
            match Memory_Blocks.save_file fs'.memory h content with
            | .error e => (.error e, fs')
            | .ok blocks => (.ok (), { fs' with memory := blocks })).2.inodes = fs.inodes := by
      rintro ⟨r, fs'⟩ hr
      cases r with
      | error e => exact hr
      | ok u =>
        simp only
        split <;> exact hr
    apply key
    split
    · exact allocate_needed_memory_inodes _ _ _ _ _
    · exact deallocate_excessive_memory_inodes _ _ _ _ _

theorem enter_directory_state (fs : File_System) (inode : Nat) :
    (fs.enter_directory inode).2 = fs := by
  unfold File_System.enter_directory
  repeat' split
  all_goals rfl

/-! ### `find_directory` on an existing path -/

theorem get_free_index_status {a a' : Allocator} {i : Nat}
    (h : a.get_free_index = .ok (i, a')) : a'.status = a.status ∧ a'.size = a.size := by
  unfold Allocator.get_free_index at h
  split at h
  · simp at h
  · rename_i a1 ha1
    injection h with h
    injection h with h1 h2
    subst h2
    obtain ⟨h3, h4, -⟩ := advance_spec ha1 (by omega)
    exact ⟨h3, h4⟩

theorem is_free_of_set_used {a : Allocator} {i j : Nat}
    (h : ({ a with status := a.status.set i USED } : Allocator).is_free j) : a.is_free j := by
  unfold Allocator.is_free at h ⊢
  simp only at h
  rw [List.getElem?_set] at h
  split at h
  · split at h
    · simp [USED, FREE] at h
    · simp at h
  · exact h

/-- `add_new_file_to_directory` never frees an inode slot, whatever its outcome. -/
theorem add_new_file_to_directory_mono (fs : File_System) (dir : Directory) (name : List Nat)
    (is_dir : Bool) (j : Nat)
    (h : (fs.add_new_file_to_directory dir name is_dir).2.inodes_allocator.is_free j) :
    fs.inodes_allocator.is_free j := by
  unfold File_System.add_new_file_to_directory at h
  have conv : ∀ {a : Allocator}, a.status = fs.inodes_allocator.status → a.is_free j →
      fs.inodes_allocator.is_free j := by
    intro a ha hf
    unfold Allocator.is_free at hf ⊢
    rw [← ha]; exact hf
  split at h
  · exact h
  · rename_i file_inode ia hgf
    have hia := (get_free_index_status hgf).1
    split at h
    · exact conv hia h
    · split at h
      · exact conv hia h
      · split at h
        · exact conv hia h
        · rename_i ia' hmark
          have hia' := (mark_as_used_spec hmark).1
          have conv' : ia'.is_free j → fs.inodes_allocator.is_free j := by
            intro hf
            rw [hia'] at hf
            exact conv hia (is_free_of_set_used hf)
          split at h
          · exact conv' h
          · split at h
            · exact conv' h
            · split at h
              · exact conv' h
              · split at h
                · exact conv' h
                · exact conv' h

/-- A successful `add_new_file_to_directory` turns one free inode slot into a used one. -/
theorem add_new_file_to_directory_consumes {fs fs1 : File_System} {dir dir1 : Directory}
    {name : List Nat} {is_dir : Bool}
    (h : fs.add_new_file_to_directory dir name is_dir = (.ok dir1, fs1))
    (hwf : fs.inodes_allocator.first_free ≤ fs.inodes_allocator.size) :
    ∃ i, fs.inodes_allocator.is_free i ∧ ¬ fs1.inodes_allocator.is_free i := by
  unfold File_System.add_new_file_to_directory at h
  split at h
  · simp at h
  · rename_i file_inode ia hgf
    obtain ⟨g1, g2, g3, g4, g5, -, -⟩ := get_free_index_spec hgf hwf
    split at h
    · simp at h
    · split at h
      · simp at h
      · rename_i hnz
        have hne : file_inode ≠ 0 := fun e => hnz (Or.inl e)
        split at h
        · simp at h
        · rename_i ia' hmark
          obtain ⟨m1, m2⟩ := mark_as_used_spec hmark
          have hres : ¬ ia'.is_free file_inode := by
            rw [m1]
            unfold Allocator.is_free
            simp only
            rw [List.getElem?_set_self m2]
            simp [USED, FREE]
          split at h
          · simp at h
          · split at h
            · simp at h
            · split at h
              · simp at h
              · split at h
                · simp at h
                · injection h with _ h2
                  subst h2
                  exact ⟨file_inode, (g5 hne).1, hres⟩

theorem find_directory_loop_mono : ∀ (path : vec_s) (fs : File_System) (dir : Directory) (j : Nat),
    (File_System.find_directory_loop fs dir path).2.inodes_allocator.is_free j →
    fs.inodes_allocator.is_free j
  | [], fs, dir, j, h => by simpa [File_System.find_directory_loop] using h
  | s :: path, fs, dir, j, h => by
    simp only [File_System.find_directory_loop] at h
    split at h
    · split at h
      · rename_i e fs1 hadd
        have := add_new_file_to_directory_mono fs dir s true j
        rw [hadd] at this
        exact this h
      · rename_i dir1 fs1 hadd
        have hm1 := add_new_file_to_directory_mono fs dir s true j
        rw [hadd] at hm1
        apply hm1
        have hsv := (save_content_to_memory_inodes fs1 dir1.mem_block dir1.get_directory_content).1
        split at h
        · rename_i e fs2 hsave
          unfold File_System.save_directory_to_memory at hsave
          rw [hsave] at hsv
          simp only at hsv
          rw [← hsv]; exact h
        · rename_i fs2 hsave
          unfold File_System.save_directory_to_memory at hsave
          rw [hsave] at hsv
          simp only at hsv
          rw [← hsv]
          have hen := enter_directory_state fs2 (dir1.get_file_inode s)
          split at h
          · rename_i e fs3 hent
            rw [hent] at hen
            simp only at hen
            rw [← hen]; exact h
          · rename_i dir2 fs3 hent
            rw [hent] at hen
            simp only at hen
            rw [← hen]
            exact find_directory_loop_mono path fs3 dir2 j h
    · have hen := enter_directory_state fs (dir.get_file_inode s)
      split at h
      · rename_i e fs1 hent
        rw [hent] at hen
        simp only at hen
        rw [← hen]; exact h
      · rename_i dir1 fs1 hent
        rw [hent] at hen
        simp only at hen
        rw [← hen]
        exact find_directory_loop_mono path fs1 dir1 j h

/-- A run of the loop of `find_directory` that consumes no inode slot creates nothing. -/
theorem walk_of_find_directory_loop : ∀ (path : vec_s) {fs fs' : File_System} {dir d : Directory},
    File_System.find_directory_loop fs dir path = (.ok d, fs') →
    fs.inodes_allocator.first_free ≤ fs.inodes_allocator.size →
    (∀ j, fs.inodes_allocator.is_free j → fs'.inodes_allocator.is_free j) →
    Walk fs dir path d ∧ fs' = fs
  | [], fs, fs', dir, d, h, _, _ => by
    simp only [File_System.find_directory_loop] at h
    injection h with h1 h2
    injection h1 with h1
    exact ⟨h1.symm, h2.symm⟩
  | s :: path, fs, fs', dir, d, h, hwf, hkeep => by
    simp only [File_System.find_directory_loop] at h
    split at h
    · exfalso
      split at h
      · simp at h
      · rename_i dir1 fs1 hadd
        obtain ⟨i, hi1, hi2⟩ := add_new_file_to_directory_consumes hadd hwf
        apply hi2
        have hsv := (save_content_to_memory_inodes fs1 dir1.mem_block dir1.get_directory_content).1
        split at h
        · simp at h
        · rename_i fs2 hsave
          unfold File_System.save_directory_to_memory at hsave
          rw [hsave] at hsv
          simp only at hsv
          rw [← hsv]
          have hen := enter_directory_state fs2 (dir1.get_file_inode s)
          split at h
          · simp at h
          · rename_i dir2 fs3 hent
            rw [hent] at hen
            simp only at hen
            rw [← hen]
            have := find_directory_loop_mono path fs3 dir2 i
            rw [h] at this
            exact this (hkeep i hi1)
    · rename_i hne
      have hen := enter_directory_state fs (dir.get_file_inode s)
      split at h
      · simp at h
      · rename_i dir1 fs1 hent
        rw [hent] at hen
        simp only at hen
        subst hen
        obtain ⟨ih1, ih2⟩ := walk_of_find_directory_loop path h hwf hkeep
        exact ⟨⟨hne, dir1, hent, ih1⟩, ih2⟩

theorem find_directory_loop_of_walk : ∀ (path : vec_s) {fs : File_System} {dir d : Directory},
    Walk fs dir path d → File_System.find_directory_loop fs dir path = (.ok d, fs)
  | [], fs, dir, d, h => by
    simp only [Walk] at h
    simp [File_System.find_directory_loop, h]
  | s :: path, fs, dir, d, h => by
    simp only [Walk] at h
    obtain ⟨hne, d1, hent, hw⟩ := h
    simp only [File_System.find_directory_loop, if_neg hne, hent]
    exact find_directory_loop_of_walk path hw

theorem mem_directory_heads {nodes : inode_v} {i : Nat} {node : Inode}
    (hn : nodes[i]? = some node) (hd : (node.is_dir != 0) = true) :
    node.memory_block ∈ directory_heads nodes := by
  unfold directory_heads
  apply List.mem_cons_of_mem
  rw [List.mem_map]
  exact ⟨node, List.mem_filter.2 ⟨List.mem_iff_getElem?.2 ⟨i, hn⟩, hd⟩, rfl⟩

/-- Entering a directory gives the same result in a state with the same inode table whose
blocks agree on every directory chain. -/
theorem enter_directory_frame {fs fs2 : File_System} {inode : Nat} {d1 : Directory}
    (hent : fs.enter_directory inode = (.ok d1, fs))
    (hin : fs2.inodes = fs.inodes)
    (hag : ∀ g ∈ directory_heads fs.inodes, ∀ cg, Chain fs.memory g cg →
      ∀ b ∈ cg, fs2.memory[b]? = fs.memory[b]?) :
    fs2.enter_directory inode = (.ok d1, fs2) := by
  unfold File_System.enter_directory at hent ⊢
  rw [hin]
  unfold Inodes.is_inode_directory Inodes.get_memory_block at hent ⊢
  cases hnode : fs.inodes[inode]? with
  | none => rw [hnode] at hent; simp at hent
  | some node =>
    rw [hnode] at hent
    simp only at hent ⊢
    cases hd : (node.is_dir != 0) with
    | false => rw [hd] at hent; simp at hent
    | true =>
      rw [hd] at hent
      simp only at hent ⊢
      cases hread : Memory_Blocks.full_file_content fs.memory node.memory_block with
      | error e => rw [hread] at hent; simp at hent
      | ok content =>
        rw [hread] at hent
        simp only at hent
        obtain ⟨cg, hcg, -, -⟩ := full_file_content_inv hread
        have hread2 := full_file_content_congr hcg
          (hag _ (mem_directory_heads hnode hd) cg hcg) hread
        rw [hread2]
        simp only
        split at hent
        · simp at hent
        · rename_i dir hmk
          injection hent with h1 _
          rw [h1]

theorem walk_frame : ∀ (path : vec_s) {fs fs2 : File_System} {dir d : Directory},
    Walk fs dir path d → fs2.inodes = fs.inodes →
    (∀ g ∈ directory_heads fs.inodes, ∀ cg, Chain fs.memory g cg →
      ∀ b ∈ cg, fs2.memory[b]? = fs.memory[b]?) →
    Walk fs2 dir path d
  | [], _, _, _, _, h, _, _ => by simpa [Walk] using h
  | s :: path, fs, fs2, dir, d, h, hin, hag => by
    simp only [Walk] at h ⊢
    obtain ⟨hne, d1, hent, hw⟩ := h
    exact ⟨hne, d1, enter_directory_frame hent hin hag, walk_frame path hw hin hag⟩

/-- `find_directory` on a path that exists returns the same directory in a state with the
same inode table whose blocks agree on every directory chain. -/
theorem find_directory_frame {fs fs2 : File_System} {path : vec_s} {dir : Directory}
    (hres : fs.find_directory path = (.ok dir, fs))
    (hwf : fs.inodes_allocator.first_free ≤ fs.inodes_allocator.size)
    (hin : fs2.inodes = fs.inodes)
    (hag : ∀ g ∈ directory_heads fs.inodes, ∀ cg, Chain fs.memory g cg →
      ∀ b ∈ cg, fs2.memory[b]? = fs.memory[b]?) :
    fs2.find_directory path = (.ok dir, fs2) := by
  unfold File_System.find_directory at hres ⊢
  cases hread : Memory_Blocks.full_file_content fs.memory 0 with
  | error e => rw [hread] at hres; simp at hres
  | ok content =>
    rw [hread] at hres
    simp only at hres
    obtain ⟨cg, hcg, -, -⟩ := full_file_content_inv hread
    have h0 : (0 : Nat) ∈ directory_heads fs.inodes := by simp [directory_heads]
    rw [full_file_content_congr hcg (hag 0 h0 cg hcg) hread]
    simp only
    split at hres
    · simp at hres
    · rename_i root hmk
      obtain ⟨hw, -⟩ := walk_of_find_directory_loop path hres hwf (fun _ h => h)
      exact find_directory_loop_of_walk path (walk_frame path hw hin hag)

theorem chain_payload_length_full {blocks : mem_v} (hs : Sized blocks) : ∀ {l : List Nat},
    (∀ i ∈ l, i < blocks.length) → (∀ i ∈ l, occupied_at blocks i = content_size) →
    (chain_payload blocks l).length = content_size * l.length
  | [], _, _ => by simp [chain_payload]
  | x :: l, hlt, hfull => by
    have hx := hlt x (by simp)
    have hb : blocks[x]? = some blocks[x] := List.getElem?_eq_getElem hx
    have ho := hfull x (by simp)
    simp only [occupied_at, hb] at ho
    have hl := hs blocks[x] (List.getElem_mem hx)
    simp only [chain_payload, block_payload, hb, List.length_append, List.length_take, ho, hl,
      List.length_cons]
    rw [chain_payload_length_full hs (fun i hi => hlt i (List.mem_cons_of_mem _ hi))
      (fun i hi => hfull i (List.mem_cons_of_mem _ hi))]
    simp only [content_size]
    omega


/-! ### Releasing a chain -/

theorem last_two_of_list_spec {blocks : mem_v} : ∀ {mid : List Nat} {fuel s n last : Nat},
    Chain blocks n (mid ++ [last]) → mid.length + 1 ≤ fuel →
    ∃ q p, s :: mid = q ++ [p] ∧
      Memory_Blocks.last_two_of_list blocks fuel s n = .ok (p, last)
  | _, 0, _, _, _, _, hl => by omega
  | [], fuel + 1, s, n, last, hc, _ => by
    rw [List.nil_append, chain_cons_iff] at hc
    obtain ⟨rfl, b, hb, h1⟩ := hc
    refine ⟨[], s, rfl, ?_⟩
    simp only [Memory_Blocks.last_two_of_list, hb]
    rcases h1 with ⟨_, h0⟩ | ⟨_, hc'⟩
    · simp [h0]
    · simp [Chain] at hc'
  | x :: mid, fuel + 1, s, n, last, hc, hl => by
    rw [List.cons_append, chain_cons_iff] at hc
    obtain ⟨rfl, b, hb, h1⟩ := hc
    rcases h1 with ⟨hnil, _⟩ | ⟨hne, hc'⟩
    · simp at hnil
    · obtain ⟨q, p, hq, hres⟩ :=
        @last_two_of_list_spec blocks mid fuel x b.next_block last hc' (by simpa using hl)
      refine ⟨s :: q, p, by rw [hq]; rfl, ?_⟩
      simp only [Memory_Blocks.last_two_of_list, hb, if_pos hne]
      exact hres

theorem chain_truncate {blocks blocks' : mem_v} {p last : Nat} : ∀ {pre : List Nat} {h : Nat},
    Chain blocks h (pre ++ [p, last]) →
    (∀ i ∈ pre, blocks'[i]? = blocks[i]?) →
    (∃ b, blocks'[p]? = some b ∧ b.next_block = 0) →
    Chain blocks' h (pre ++ [p])
  | [], h, hc, _, hp => by
    rw [List.nil_append, chain_cons_iff] at hc
    obtain ⟨rfl, -, -, -⟩ := hc
    obtain ⟨b, hb, hn⟩ := hp
    rw [List.nil_append, chain_cons_iff]
    exact ⟨rfl, b, hb, Or.inl ⟨rfl, hn⟩⟩
  | x :: pre, h, hc, hag, hp => by
    rw [List.cons_append, chain_cons_iff] at hc
    obtain ⟨rfl, b, hb, h1⟩ := hc
    rcases h1 with ⟨hnil, _⟩ | ⟨hne, hc'⟩
    · simp at hnil
    · rw [List.cons_append, chain_cons_iff]
      refine ⟨rfl, b, by rw [hag x (by simp)]; exact hb, Or.inr ⟨hne, ?_⟩⟩
      exact chain_truncate hc' (fun i hi => hag i (List.mem_cons_of_mem _ hi)) hp

theorem erase_from_block_list_spec {blocks blocks' : mem_v} {c : List Nat} {h freed : Nat}
    (hpop : Memory_Blocks.erase_from_block_list blocks h = .ok (freed, blocks'))
    (hc : Chain blocks h c) :
    ∃ pre p, c = pre ++ [p, freed] ∧ Chain blocks' h (pre ++ [p]) ∧
      blocks'.length = blocks.length ∧
      blocks'[freed]? = some ⟨0, 0, List.replicate content_size 0⟩ ∧
      (∀ i, i ∉ c → blocks'[i]? = blocks[i]?) ∧
      (∀ i, i ≠ freed → block_payload blocks' i = block_payload blocks i) ∧
      (∀ i, i ≠ freed → occupied_at blocks' i = occupied_at blocks i) ∧
      (Sized blocks → Sized blocks') := by
  have hnd := chain_nodup hc
  have hlen := chain_length_le hc
  obtain ⟨tl, rfl⟩ := chain_head hc
  have hc0 := hc
  rw [chain_cons_iff] at hc0
  obtain ⟨-, b0, hb0, h1⟩ := hc0
  unfold Memory_Blocks.erase_from_block_list at hpop
  simp only [hb0] at hpop
  rcases h1 with ⟨rfl, h0⟩ | ⟨hne, hc'⟩
  · simp [h0] at hpop
  · rw [if_neg hne] at hpop
    obtain ⟨mid, last, bl, hml, hbl, hnl⟩ := chain_last hc'
    rw [hml] at hc'
    obtain ⟨q, p, hq, hres⟩ :=
      @last_two_of_list_spec blocks mid blocks.length h b0.next_block last hc' (by
        have : (h :: tl).length ≤ blocks.length := hlen
        rw [hml] at this
        simp at this
        omega)
    rw [hres] at hpop
    simp only at hpop
    have hceq : h :: tl = q ++ [p, last] := by
      rw [hml, ← List.cons_append, hq]; simp
    rw [hceq] at hnd hc ⊢
    have hp_mem : p ∈ q ++ [p, last] := by simp
    have hp_lt := chain_mem_lt hc p hp_mem
    have hplast : p ≠ last := by
      intro e
      rw [List.nodup_append] at hnd
      have := hnd.2.1
      simp [e] at this
    obtain ⟨bp, hbp⟩ : ∃ bp, blocks[p]? = some bp := ⟨_, List.getElem?_eq_getElem hp_lt⟩
    simp only [hbp] at hpop
    have hg1 := getElem?_set_of_some hbp { bp with next_block := 0 }
    have hbl1 : (blocks.set p { bp with next_block := 0 })[last]? = some bl := by
      rw [hg1, if_neg hplast]; exact hbl
    simp only [hbl1] at hpop
    injection hpop with hpop
    injection hpop with hf hb'
    subst hf hb'
    have hget : ∀ i, ((blocks.set p { bp with next_block := 0 }).set last
        bl.clear_memory_block)[i]? =
        if last = i then some ⟨0, 0, List.replicate content_size 0⟩
        else if p = i then some { bp with next_block := 0 } else blocks[i]? := by
      intro i
      rw [getElem?_set_of_some hbl1, hg1]
      simp [clear_memory_block_eq]
    refine ⟨q, p, rfl, ?_, by simp, by rw [hget]; simp, ?_, ?_, ?_, ?_⟩
    · refine chain_truncate hc ?_ ⟨{ bp with next_block := 0 }, ?_, rfl⟩
      · intro i hi
        rw [List.nodup_append] at hnd
        have h1 : last ≠ i := fun e => hnd.2.2 hi (by simp [e])
        have h2 : p ≠ i := fun e => hnd.2.2 hi (by simp [e])
        rw [hget, if_neg h1, if_neg h2]
      · rw [hget, if_neg (Ne.symm hplast), if_pos rfl]
    · intro i hi
      have h1 : last ≠ i := fun e => hi (by simp [← e])
      have h2 : p ≠ i := fun e => hi (by simp [← e])
      rw [hget, if_neg h1, if_neg h2]
    · intro i hi
      simp only [block_payload]
      rw [hget, if_neg (Ne.symm hi)]
      by_cases h2 : p = i
      · subst h2; simp [hbp]
      · simp [h2]
    · intro i hi
      simp only [occupied_at]
      rw [hget, if_neg (Ne.symm hi)]
      by_cases h2 : p = i
      · subst h2; simp [hbp]
      · simp [h2]
    · intro hs b hb
      obtain ⟨i, hi⟩ := List.mem_iff_getElem?.1 hb
      rw [hget] at hi
      split at hi
      · injection hi with hi; subst hi; simp
      · split at hi
        · injection hi with hi; subst hi
          exact hs bp (List.mem_iff_getElem?.2 ⟨p, hbp⟩)
        · exact hs b (List.mem_iff_getElem?.2 ⟨i, hi⟩)

theorem deallocate_excessive_memory_spec : ∀ {fuel : Nat} {fs fs' : File_System}
    {cd : List Nat} {g L a : Nat},
    File_System.deallocate_excessive_memory g L fuel fs a = (.ok (), fs') →
    Chain fs.memory g cd → a = content_size * cd.length → content_size * cd.length < 65536 →
    ∃ cd' rest, cd = cd' ++ rest ∧ Chain fs'.memory g cd' ∧
      fs'.memory.length = fs.memory.length ∧
      (∀ i, i ∉ cd → fs'.memory[i]? = fs.memory[i]?) ∧
      (∀ i, i ∉ cd → fs'.memory_allocator.status[i]? = fs.memory_allocator.status[i]?) ∧
      (∀ i ∈ rest, fs'.memory[i]? = some ⟨0, 0, List.replicate content_size 0⟩ ∧
        fs'.memory_allocator.is_free i) ∧
      (∀ i, i ∉ rest → block_payload fs'.memory i = block_payload fs.memory i ∧
        occupied_at fs'.memory i = occupied_at fs.memory i) ∧
      (Sized fs.memory → Sized fs'.memory) ∧
      (L ≤ content_size * cd.length → L ≤ content_size * cd'.length) ∧
      (rest ≠ [] → L < content_size * cd'.length) ∧
      content_size * cd'.length ≤ L + content_size
  | 0, fs, fs', cd, g, L, a, hd, hc, ha, hsz => by
    simp only [File_System.deallocate_excessive_memory] at hd
    split at hd
    · simp at hd
    · rename_i hcond
      injection hd with _ h2
      subst h2
      have hpos := chain_length_pos hc
      refine ⟨cd, [], by simp, hc, rfl, fun _ _ => rfl, fun _ _ => rfl, by simp,
        fun _ _ => ⟨rfl, rfl⟩, id, id, by simp, ?_⟩
      subst ha
      simp only [content_size] at hcond hsz ⊢
      omega
  | fuel + 1, fs, fs', cd, g, L, a, hd, hc, ha, hsz => by
    have hpos := chain_length_pos hc
    simp only [File_System.deallocate_excessive_memory] at hd
    split at hd
    · rename_i hcond
      split at hd
      · simp at hd
      · rename_i freed blocks1 hpop
        obtain ⟨pre, p, hceq, p1, p2, p3, p4, p5, p6, p7⟩ := erase_from_block_list_spec hpop hc
        split at hd
        · simp at hd
        · rename_i ma hfree
          obtain ⟨f1, _, _, f4, _⟩ := free_spec hfree
          have hnd := chain_nodup hc
          rw [hceq] at hnd
          have hfreed_not : freed ∉ pre ++ [p] := by
            intro hmem
            have : pre ++ [p, freed] = (pre ++ [p]) ++ [freed] := by simp
            rw [this, List.nodup_append] at hnd
            exact hnd.2.2 hmem (by simp)
          have hstat : ∀ i, ma.status[i]? =
              if freed = i then some FREE else fs.memory_allocator.status[i]? := by
            intro i
            rw [f1]
            simp only
            by_cases e : freed = i
            · subst e; rw [List.getElem?_set_self f4, if_pos rfl]
            · rw [List.getElem?_set_ne e, if_neg e]
          have hlen1 : (pre ++ [p]).length + 1 = cd.length := by rw [hceq]; simp
          have hL : L < content_size * (pre ++ [p]).length := by
            subst ha
            simp only [content_size] at hcond hsz ⊢
            omega
          obtain ⟨cd', rest, q1, q2, q3, q4, q5, q6, q7, q8, q9, q10, q11⟩ :=
            @deallocate_excessive_memory_spec fuel
              { fs with memory_allocator := ma, memory := blocks1 } fs' (pre ++ [p]) g L _
              hd p1 (by
                subst ha
                simp only [content_size] at hsz ⊢
                omega)
              (by simp only [content_size] at hsz ⊢; omega)
          simp only at q3 q4 q5 q7 q8
          have hfreed_cd' : freed ∉ cd' := fun hmem =>
            hfreed_not (by rw [q1]; exact List.mem_append_left _ hmem)
          have hfreed_rest : freed ∉ rest := fun hmem =>
            hfreed_not (by rw [q1]; exact List.mem_append_right _ hmem)
          refine ⟨cd', rest ++ [freed], ?_, q2, by rw [q3, p2], ?_, ?_, ?_, ?_,
            fun hs => q8 (p7 hs), fun _ => q9 (le_of_lt hL), ?_, q11⟩
          · have : pre ++ [p, freed] = (pre ++ [p]) ++ [freed] := by simp
            rw [hceq, this, q1, List.append_assoc]
          · intro i hi
            have h1 : i ∉ pre ++ [p] := fun e => hi (by
              rw [hceq]
              have : pre ++ [p, freed] = (pre ++ [p]) ++ [freed] := by simp
              rw [this]; exact List.mem_append_left _ e)
            rw [q4 i h1, p4 i hi]
          · intro i hi
            have h1 : i ∉ pre ++ [p] := fun e => hi (by
              rw [hceq]
              have : pre ++ [p, freed] = (pre ++ [p]) ++ [freed] := by simp
              rw [this]; exact List.mem_append_left _ e)
            have h2 : freed ≠ i := fun e => hi (by rw [hceq, ← e]; simp)
            rw [q5 i h1, hstat, if_neg h2]
          · intro i hi
            rcases List.mem_append.1 hi with hi | hi
            · exact q6 i hi
            · simp at hi
              subst hi
              refine ⟨by rw [q4 i hfreed_not, p3], ?_⟩
              unfold Allocator.is_free
              rw [q5 i hfreed_not, hstat, if_pos rfl]
          · intro i hi
            have h1 : i ∉ rest := fun e => hi (List.mem_append_left _ e)
            have h2 : i ≠ freed := fun e => hi (by simp [e])
            exact ⟨by rw [(q7 i h1).1, p5 i h2], by rw [(q7 i h1).2, p6 i h2]⟩
          · intro _
            by_cases hr : rest = []
            · subst hr
              simp at q1
              rw [← q1]; exact hL
            · exact q10 hr
    · rename_i hcond
      injection hd with _ h2
      subst h2
      refine ⟨cd, [], by simp, hc, rfl, fun _ _ => rfl, fun _ _ => rfl, by simp,
        fun _ _ => ⟨rfl, rfl⟩, id, id, by simp, ?_⟩
      subst ha
      simp only [content_size] at hcond hsz ⊢
      omega

/-! ### The directory codec: lengths -/

theorem read_name_length : ∀ {l : vec_c} {s : List Nat} {rest : vec_c},
    Directory.read_name l = some (s, rest) → l.length = s.length + 1 + rest.length
  | [], _, _, h => by simp [Directory.read_name] at h
  | c :: l, s, rest, h => by
    simp only [Directory.read_name] at h
    split at h
    · injection h with h
      injection h with h1 h2
      subst h1 h2
      simp only [List.length_cons, List.length_nil]
      omega
    · split at h
      · simp at h
      · rename_i s' rest' hrec
        injection h with h
        injection h with h1 h2
        subst h1 h2
        have := read_name_length hrec
        simp only [List.length_cons] at this ⊢
        omega

theorem read_entries_length : ∀ {fuel : Nat} {l : vec_c} {names : vec_s} {inodes : vec_16},
    Directory.read_entries fuel l = .ok (names, inodes) →
    record_bytes names = l.length ∧ names.length = inodes.length
  | 0, [], names, inodes, h => by
    simp only [Directory.read_entries] at h
    injection h with h
    injection h with h1 h2
    subst h1 h2
    simp [record_bytes]
  | 0, _ :: _, _, _, h => by simp [Directory.read_entries] at h
  | _ + 1, [], names, inodes, h => by
    simp only [Directory.read_entries] at h
    injection h with h
    injection h with h1 h2
    subst h1 h2
    simp [record_bytes]
  | fuel + 1, c :: rest, names, inodes, h => by
    simp only [Directory.read_entries] at h
    split at h
    · simp at h
    · rename_i s lo hi rest' hname
      split at h
      · simp at h
      · rename_i names' inodes' hrec
        injection h with h
        injection h with h1 h2
        subst h1 h2
        obtain ⟨ih1, ih2⟩ := read_entries_length hrec
        have := read_name_length hname
        simp only [record_bytes, List.map_cons, List.sum_cons, List.length_cons] at ih1 this ⊢
        omega
    · simp at h

theorem encode_entries_length : ∀ (names : vec_s) (inodes : vec_16),
    (Directory.encode_entries names inodes).length = record_bytes names
  | [], _ => by simp [Directory.encode_entries, record_bytes]
  | n :: names, inodes => by
    simp only [Directory.encode_entries, List.length_append, List.length_cons, List.length_nil,
      record_bytes, List.map_cons, List.sum_cons]
    have := encode_entries_length names inodes.tail
    simp only [record_bytes] at this
    omega

theorem directory_make_spec {i b : Nat} {content : vec_c} {d : Directory}
    (h : Directory.make i b content = .ok d) :
    d.inode_num = i ∧ d.mem_block = b ∧ record_bytes d.names = content.length ∧
      d.names.length = d.inodes.length ∧ content.length < 65536 := by
  unfold Directory.make at h
  split at h
  · simp at h
  · rename_i hlt
    split at h
    · simp at h
    · rename_i names inodes hrec
      injection h with h
      subst h
      obtain ⟨h1, h2⟩ := read_entries_length hrec
      exact ⟨rfl, rfl, h1, h2, by omega⟩

/-! ### What `find_directory` returns -/

theorem enter_directory_result {fs fs' : File_System} {inode : Nat} {d : Directory}
    (h : fs.enter_directory inode = (.ok d, fs')) :
    fs' = fs ∧ ∃ content, Memory_Blocks.full_file_content fs.memory d.mem_block = .ok content ∧
      Directory.make d.inode_num d.mem_block content = .ok d := by
  have hst := enter_directory_state fs inode
  rw [h] at hst
  simp only at hst
  refine ⟨hst, ?_⟩
  unfold File_System.enter_directory at h
  split at h
  · simp at h
  · simp at h
  · split at h
    · simp at h
    · rename_i block hblock
      split at h
      · simp at h
      · rename_i content hread
        split at h
        · simp at h
        · rename_i dir hmk
          injection h with h1 _
          injection h1 with h1
          subst h1
          obtain ⟨m1, m2, -⟩ := directory_make_spec hmk
          rw [m1, m2]
          exact ⟨content, hread, hmk⟩

theorem find_directory_loop_result : ∀ (path : vec_s) {fs fs' : File_System} {d0 dir : Directory},
    File_System.find_directory_loop fs d0 path = (.ok dir, fs') →
    (∃ content, Memory_Blocks.full_file_content fs.memory d0.mem_block = .ok content ∧
      Directory.make d0.inode_num d0.mem_block content = .ok d0) →
    ∃ content, Memory_Blocks.full_file_content fs'.memory dir.mem_block = .ok content ∧
      Directory.make dir.inode_num dir.mem_block content = .ok dir
  | [], fs, fs', d0, dir, h, h0 => by
    simp only [File_System.find_directory_loop] at h
    injection h with h1 h2
    injection h1 with h1
    subst h1 h2
    exact h0
  | s :: path, fs, fs', d0, dir, h, h0 => by
    simp only [File_System.find_directory_loop] at h
    split at h
    · split at h
      · simp at h
      · split at h
        · simp at h
        · split at h
          · simp at h
          · rename_i dir2 fs3 hent
            obtain ⟨e1, e2⟩ := enter_directory_result hent
            subst e1
            exact find_directory_loop_result path h e2
    · split at h
      · simp at h
      · rename_i dir1 fs1 hent
        obtain ⟨e1, e2⟩ := enter_directory_result hent
        subst e1
        exact find_directory_loop_result path h e2

/-- The directory returned by `find_directory` is the decoding of the payload of its chain
in the returned state. -/
theorem find_directory_result {fs fs' : File_System} {path : vec_s} {dir : Directory}
    (h : fs.find_directory path = (.ok dir, fs')) :
    ∃ content, Memory_Blocks.full_file_content fs'.memory dir.mem_block = .ok content ∧
      Directory.make dir.inode_num dir.mem_block content = .ok dir := by
  unfold File_System.find_directory at h
  split at h
  · simp at h
  · rename_i content hread
    split at h
    · simp at h
    · rename_i root hmk
      obtain ⟨m1, m2, -⟩ := directory_make_spec hmk
      exact find_directory_loop_result path h ⟨content, by rw [m2]; exact hread, by
        rw [m1, m2]; exact hmk⟩

/-! ### Saving content that fits the chain -/

theorem find_directory_loop_append : ∀ (p q : vec_s) (fs : File_System) (d : Directory),
    File_System.find_directory_loop fs d (p ++ q) =
      match File_System.find_directory_loop fs d p with
      | (.ok d', fs') => File_System.find_directory_loop fs' d' q
      | (.error e, fs') => (.error e, fs')
  | [], q, fs, d => by simp [File_System.find_directory_loop]
  | s :: p, q, fs, d => by
    simp only [List.cons_append, File_System.find_directory_loop]
    split
    · split
      · rfl
      · split
        · rfl
        · split
          · rfl
          · exact find_directory_loop_append p q _ _
    · split
      · rfl
      · exact find_directory_loop_append p q _ _

theorem find_directory_loop_chain {fs1 fs2 fs3 : File_System} {d1 d2 d3 : Directory}
    {p q : vec_s}
    (h1 : File_System.find_directory_loop fs1 d1 p = (.ok d2, fs2))
    (h2 : File_System.find_directory_loop fs2 d2 q = (.ok d3, fs3)) :
    File_System.find_directory_loop fs1 d1 (p ++ q) = (.ok d3, fs3) := by
  rw [find_directory_loop_append, h1]
  exact h2

theorem add_file_of_steps {fs fs1 fs2 : File_System} {path : vec_s} {name content : List Nat}
    {root dir dir' : Directory} {r : Result Unit}
    (hroot : Memory_Blocks.full_file_content fs.memory 0 = .ok content)
    (hmk : Directory.make 0 0 content = .ok root)
    (hloop : File_System.find_directory_loop fs root path = (.ok dir, fs1))
    (hadd : fs1.add_new_file_to_directory dir name false = (.ok dir', fs2))
    (hsave : fs2.save_directory_to_memory dir' = r) :
    fs.add_file path name = r := by
  unfold File_System.add_file File_System.find_directory
  rw [hroot]
  simp only [hmk, hloop, hadd, hsave]


/-! ### The allocator on reachable states -/

theorem find_first_free_from_spec (size : Nat) (status : vec_c) : ∀ (fuel i r : Nat),
    Allocator.find_first_free_from size status fuel i = .ok r → size ≤ i + fuel →
    r ≤ size ∧ (i ≤ size → i ≤ r) ∧ ∀ j, i ≤ j → j < r → status[j]? ≠ some FREE
  | 0, i, r, h, hf => by
    simp only [Allocator.find_first_free_from] at h
    injection h with h
    subst h
    exact ⟨le_refl _, fun h => h, fun j h1 h2 => by omega⟩
  | fuel + 1, i, r, h, hf => by
    simp only [Allocator.find_first_free_from] at h
    split at h
    · rename_i hlt
      split at h
      · simp at h
      · rename_i c hc
        split at h
        · injection h with h
          subst h
          exact ⟨by omega, fun _ => le_refl _, fun j h1 h2 => by omega⟩
        · rename_i hne
          obtain ⟨h1, h2, h3⟩ := find_first_free_from_spec size status fuel (i + 1) r h (by omega)
          refine ⟨h1, fun _ => by have := h2 (by omega); omega, ?_⟩
          intro j hj1 hj2
          by_cases hji : j = i
          · subst hji
            rw [hc]
            simpa using hne
          · exact h3 j (by omega) hj2
    · injection h with h
      subst h
      exact ⟨le_refl _, fun h => h, fun j h1 h2 => by omega⟩

theorem allocator_read_spec {f rest : vec_c} {a : Allocator} (h : Allocator.read f = .ok (a, rest)) :
    a.wf ∧ a.hint_ok := by
  unfold Allocator.read at h
  split at h
  · simp at h
  · rename_i size f1 _
    split at h
    · simp at h
    · rename_i status f2 hrs
      split at h
      · simp at h
      · rename_i ff hff
        injection h with h
        injection h with h1 h2
        subst h1
        unfold read_string at hrs
        split at hrs
        · rename_i hle
          injection hrs with hrs
          injection hrs with hs1 hs2
          subst hs1
          obtain ⟨g1, -, g3⟩ := find_first_free_from_spec size _ size 0 ff hff (by omega)
          refine ⟨⟨g1, by simp; omega⟩, ?_⟩
          intro j hj
          exact g3 j (by omega) hj
        · simp at hrs

theorem advance_total : ∀ (fuel : Nat) (a : Allocator), a.status.length = a.size →
    ∃ a', a.advance fuel = .ok a'
  | 0, a, _ => ⟨a, rfl⟩
  | fuel + 1, a, hlen => by
    simp only [Allocator.advance]
    split
    · rename_i hlt
      split
      · rename_i hnone
        rw [List.getElem?_eq_none_iff] at hnone
        omega
      · split
        · exact advance_total fuel _ hlen
        · exact ⟨a, rfl⟩
    · exact ⟨a, rfl⟩

theorem get_free_index_total {a : Allocator} (hwf : a.wf) (hh : a.hint_ok)
    (h0 : ¬ a.is_free 0) :
    ∃ i a', a.get_free_index = .ok (i, a') ∧ a'.status = a.status ∧ a'.size = a.size ∧
      a'.wf ∧ a'.hint_ok ∧
      (i ≠ 0 → a.is_free i ∧ ∀ j, j < i → ¬ a.is_free j) ∧
      (i = 0 → ∀ j, ¬ a.is_free j) := by
  obtain ⟨a1, ha1⟩ := advance_total (a.size - a.first_free) a hwf.2
  have hg : a.get_free_index = .ok (if a1.first_free = a1.size then 0 else a1.first_free, a1) := by
    unfold Allocator.get_free_index
    rw [ha1]
  obtain ⟨g1, g2, g3, g4, g5, -, g7⟩ := get_free_index_spec hg hwf.1
  obtain ⟨-, -, -, k4, -⟩ := advance_spec ha1 (by omega)
  have hlow : ∀ j, j < a1.first_free → ¬ a.is_free j := by
    intro j hj
    by_cases hjf : j < a.first_free
    · exact hh j hjf
    · exact g7 j (by omega) hj
  have hout : ∀ j, a.size ≤ j → ¬ a.is_free j := by
    intro j hj hfree
    have hlt : j < a.status.length := (List.getElem?_eq_some.1 hfree).1
    have := hwf.2
    omega
  refine ⟨_, a1, hg, g1, g2, ⟨g4, by rw [g1, g2]; exact hwf.2⟩, ?_, ?_, ?_⟩
  · intro j hj
    unfold Allocator.is_free
    rw [g1]
    exact hlow j hj
  · intro hi
    obtain ⟨k1, -, k3⟩ := g5 hi
    exact ⟨k1, fun j hj => hlow j (by omega)⟩
  · intro hi j
    split at hi
    · rename_i heq
      by_cases hjs : j < a.size
      · exact hlow j (by rw [heq, g2]; exact hjs)
      · exact hout j (by omega)
    · rename_i hne
      exfalso
      have hlt : a1.first_free < a1.size := by omega
      have := k4 hlt
      rw [hi] at this
      exact h0 this

theorem reachable_inv {a : Allocator} (hr : a.Reachable) :
    a.wf ∧ a.hint_ok ∧ ¬ a.is_free 0 := by
  induction hr with
  | loaded hread h0 =>
    obtain ⟨h1, h2⟩ := allocator_read_spec hread
    exact ⟨h1, h2, h0⟩
  | get_free_index _ hg ih =>
    obtain ⟨i1, h2, h0⟩ := ih
    obtain ⟨i, a', hg', g1, g2, g3, g4, -, -⟩ := get_free_index_total i1 h2 h0
    rw [hg] at hg'
    injection hg' with hg'
    injection hg' with e1 e2
    subst e2
    refine ⟨g3, g4, ?_⟩
    unfold Allocator.is_free at h0 ⊢
    rw [g1]
    exact h0
  | @mark_as_used a0 a1 i _ hm ih =>
    obtain ⟨i1, h2, h0⟩ := ih
    obtain ⟨e, hlt⟩ := mark_as_used_spec hm
    subst e
    have hmono : ∀ j, ({ a0 with status := a0.status.set i USED } : Allocator).is_free j →
        a0.is_free j := fun j hj => is_free_of_set_used hj
    refine ⟨⟨i1.1, by simpa using i1.2⟩, fun j hj hf => h2 j hj (hmono j hf),
      fun hf => h0 (hmono 0 hf)⟩
  | @free a0 a1 i _ hf ih =>
    obtain ⟨i1, h2, h0⟩ := ih
    obtain ⟨e, hi0, hisz, hilen, hnf⟩ := free_spec hf
    subst e
    have hother : ∀ j, j ≠ i →
        (({ a0 with status := a0.status.set i FREE, first_free := min a0.first_free i } :
          Allocator).is_free j ↔ a0.is_free j) := by
      intro j hj
      unfold Allocator.is_free
      simp only
      rw [List.getElem?_set_ne (Ne.symm hj)]
    refine ⟨⟨by simp only; have := i1.1; omega, by simpa using i1.2⟩, ?_, ?_⟩
    · intro j hj
      simp only at hj
      have hji : j ≠ i := by omega
      rw [hother j hji]
      exact h2 j (by omega)
    · rw [hother 0 (Ne.symm hi0)]
      exact h0

/-! ### Path resolution and the facade -/

theorem find_directory_append {fs fs1 : File_System} {p : vec_s} {dir : Directory}
    (hp : fs.find_directory p = (.ok dir, fs1)) (q : vec_s) :
    fs.find_directory (p ++ q) = File_System.find_directory_loop fs1 dir q := by
  unfold File_System.find_directory at hp ⊢
  split at hp
  · simp at hp
  · split at hp
    · simp at hp
    · rw [find_directory_loop_append, hp]

theorem find_directory_loop_file {fs : File_System} {dir : Directory} {s : List Nat}
    {node : Inode} (q : vec_s) (hs : dir.get_file_inode s ≠ 0)
    (hnode : fs.inodes[dir.get_file_inode s]? = some node) (hfile : node.is_dir = 0) :
    File_System.find_directory_loop fs dir (s :: q) = (.error incorrect_path, fs) := by
  simp only [File_System.find_directory_loop, if_neg hs, File_System.enter_directory,
    Inodes.is_inode_directory, hnode, hfile]
  rfl

theorem find_directory_through_file {fs fs1 : File_System} {p : vec_s} {dir : Directory}
    {s : List Nat} {node : Inode} (q : vec_s)
    (hp : fs.find_directory p = (.ok dir, fs1)) (hs : dir.get_file_inode s ≠ 0)
    (hnode : fs1.inodes[dir.get_file_inode s]? = some node) (hfile : node.is_dir = 0) :
    fs.find_directory (p ++ s :: q) = (.error incorrect_path, fs1) := by
  rw [find_directory_append hp, find_directory_loop_file q hs hnode hfile]

theorem add_new_file_to_directory_spec {fs fs1 : File_System} {dir dir1 : Directory}
    {name : List Nat} {is_dir : Bool}
    (h : fs.add_new_file_to_directory dir name is_dir = (.ok dir1, fs1)) :
    ∃ i ia b ma node,
      fs.inodes_allocator.get_free_index = .ok (i, ia) ∧
      fs.memory_allocator.get_free_index = .ok (b, ma) ∧ i ≠ 0 ∧ b ≠ 0 ∧
      i < ia.status.length ∧ b < ma.status.length ∧ i < fs.inodes.length ∧
      fs1.inodes_allocator = { ia with status := ia.status.set i USED } ∧
      fs1.memory_allocator = { ma with status := ma.status.set b USED } ∧
      fs1.memory = fs.memory ∧ name ∉ dir.names ∧
      dir1 = { dir with names := dir.names ++ [name], inodes := dir.inodes ++ [i] } ∧
      (fs.inodes.set i ⟨if is_dir then 1 else 0, if is_dir then 0 else 1, b⟩)[dir.inode_num]?
        = some node ∧
      fs1.inodes = (fs.inodes.set i ⟨if is_dir then 1 else 0, if is_dir then 0 else 1, b⟩).set
        dir.inode_num { node with number := (node.number + 1) % 256 } := by
  unfold File_System.add_new_file_to_directory at h
  split at h
  · simp at h
  · rename_i i ia hgi
    split at h
    · simp at h
    · rename_i b ma hgb
      split at h
      · simp at h
      · rename_i hnz
        split at h
        · simp at h
        · rename_i ia' hmi
          obtain ⟨m1, m2⟩ := mark_as_used_spec hmi
          split at h
          · simp at h
          · rename_i ma' hmb
            obtain ⟨n1, n2⟩ := mark_as_used_spec hmb
            split at h
            · simp at h
            · rename_i nodes hcr
              split at h
              · simp at h
              · rename_i dir' hadd
                split at h
                · simp at h
                · rename_i nodes' hptr
                  injection h with h1 h2
                  injection h1 with h1
                  subst h1 h2
                  unfold Inodes.create_new_inode at hcr
                  split at hcr
                  · simp at hcr
                  · rename_i old hold
                    injection hcr with hcr
                    subst hcr
                    unfold Directory.add_new_file at hadd
                    split at hadd
                    · simp at hadd
                    · rename_i hnot
                      injection hadd with hadd
                      subst hadd
                      unfold Inodes.add_pointer_to_inode at hptr
                      split at hptr
                      · simp at hptr
                      · rename_i node hnode
                        injection hptr with hptr
                        subst hptr
                        exact ⟨i, ia, b, ma, node, hgi, hgb, fun e => hnz (Or.inl e),
                          fun e => hnz (Or.inr e), m2, n2, (List.getElem?_eq_some.1 hold).1,
                          m1, n1, rfl, hnot, rfl, hnode, rfl⟩

theorem indexOf_of_not_mem : ∀ {names : List (List Nat)} {s : List Nat}, s ∉ names →
    names.indexOf s = names.length
  | [], _, _ => rfl
  | n :: names, s, h => by
    have h1 : n ≠ s := fun e => h (e ▸ List.mem_cons_self _ _)
    have h2 : s ∉ names := fun e => h (List.mem_cons_of_mem _ e)
    have ih := indexOf_of_not_mem h2
    simp only [List.indexOf, List.findIdx_cons] at ih ⊢
    have : (n == s) = false := by simpa using h1
    rw [this]
    simp only [cond_false, List.length_cons]
    omega

theorem indexOf_lt_of_mem : ∀ {names : List (List Nat)} {s : List Nat}, s ∈ names →
    names.indexOf s < names.length
  | [], _, h => by simp at h
  | n :: names, s, h => by
    simp only [List.indexOf, List.findIdx_cons]
    by_cases e : n = s
    · have : (n == s) = true := by simpa using e
      rw [this]
      simp
    · have : (n == s) = false := by simpa using e
      rw [this]
      have h2 : s ∈ names := by
        rcases List.mem_cons.1 h with h | h
        · exact absurd h.symm e
        · exact h
      have ih := indexOf_lt_of_mem h2
      simp only [List.indexOf] at ih
      simp only [cond_false, List.length_cons]
      omega

/-! ### Decoding what the encoder wrote -/

theorem read_name_encode : ∀ (name : List Nat) (rest : vec_c), 0 ∉ name →
    Directory.read_name (name ++ 0 :: rest) = some (name, rest)
  | [], rest, _ => by simp [Directory.read_name]
  | c :: name, rest, h => by
    have hc : c ≠ 0 := fun e => h (e ▸ List.mem_cons_self _ _)
    have ih := read_name_encode name rest (fun e => h (List.mem_cons_of_mem _ e))
    show Directory.read_name (c :: (name ++ 0 :: rest)) = some (c :: name, rest)
    rw [Directory.read_name, if_neg hc, ih]

theorem read_name_no_nul : ∀ {l : vec_c} {s : List Nat} {rest : vec_c},
    Directory.read_name l = some (s, rest) → 0 ∉ s
  | [], _, _, h => by simp [Directory.read_name] at h
  | c :: l, s, rest, h => by
    simp only [Directory.read_name] at h
    split at h
    · injection h with h
      injection h with h1 h2
      subst h1
      simp
    · rename_i hc
      split at h
      · simp at h
      · rename_i s' rest' hrec
        injection h with h
        injection h with h1 h2
        subst h1
        have := read_name_no_nul hrec
        intro hmem
        rcases List.mem_cons.1 hmem with e | e
        · exact hc e.symm
        · exact this e

theorem read_entries_no_nul : ∀ {fuel : Nat} {l : vec_c} {names : vec_s} {inodes : vec_16},
    Directory.read_entries fuel l = .ok (names, inodes) → ∀ n ∈ names, 0 ∉ n
  | 0, [], names, inodes, h => by
    simp only [Directory.read_entries] at h
    injection h with h
    injection h with h1 h2
    subst h1
    simp
  | 0, _ :: _, _, _, h => by simp [Directory.read_entries] at h
  | _ + 1, [], names, inodes, h => by
    simp only [Directory.read_entries] at h
    injection h with h
    injection h with h1 h2
    subst h1
    simp
  | fuel + 1, c :: rest, names, inodes, h => by
    simp only [Directory.read_entries] at h
    split at h
    · simp at h
    · rename_i s lo hi rest' hname
      split at h
      · simp at h
      · rename_i names' inodes' hrec
        injection h with h
        injection h with h1 h2
        subst h1
        intro n hn
        rcases List.mem_cons.1 hn with e | e
        · subst e
          exact read_name_no_nul hname
        · exact read_entries_no_nul hrec n e
    · simp at h

theorem directory_make_no_nul {i b : Nat} {content : vec_c} {d : Directory}
    (h : Directory.make i b content = .ok d) : ∀ n ∈ d.names, 0 ∉ n := by
  unfold Directory.make at h
  split at h
  · simp at h
  · split at h
    · simp at h
    · rename_i names inodes hre
      injection h with h
      subst h
      exact read_entries_no_nul hre

theorem record_bytes_ge (names : vec_s) : names.length ≤ record_bytes names := by
  induction names with
  | nil => simp [record_bytes]
  | cons n names ih =>
    simp only [record_bytes, List.map_cons, List.sum_cons, List.length_cons] at ih ⊢
    omega

theorem read_entries_encode : ∀ (names : vec_s) (inodes : vec_16) (fuel : Nat),
    names.length = inodes.length → names.length ≤ fuel → (∀ n ∈ names, 0 ∉ n) →
    (∀ j ∈ inodes, stored_faithfully j) →
    Directory.read_entries fuel (Directory.encode_entries names inodes) = .ok (names, inodes)
  | [], inodes, fuel, hlen, _, _, _ => by
    have : inodes = [] := List.length_eq_zero.1 hlen.symm
    subst this
    cases fuel <;> simp [Directory.encode_entries, Directory.read_entries]
  | n :: names, [], fuel, hlen, _, _, _ => by simp at hlen
  | n :: names, j :: inodes, 0, _, hf, _, _ => by simp at hf
  | n :: names, j :: inodes, fuel + 1, hlen, hf, hn, hj => by
    have ih := read_entries_encode names inodes fuel (by simpa using hlen) (by simpa using hf)
      (fun m hm => hn m (List.mem_cons_of_mem _ hm))
      (fun k hk => hj k (List.mem_cons_of_mem _ hk))
    have hform : Directory.encode_entries (n :: names) (j :: inodes)
        = n ++ 0 :: inode_low_byte j :: inode_high_byte j
          :: Directory.encode_entries names inodes := by
      simp [Directory.encode_entries]
    obtain ⟨c, rest, hcr⟩ : ∃ c rest, n ++ 0 :: inode_low_byte j :: inode_high_byte j
        :: Directory.encode_entries names inodes = c :: rest := by
      cases n <;> simp
    rw [hform, hcr]
    simp only [Directory.read_entries]
    rw [← hcr, read_name_encode n _ (hn n (List.mem_cons_self _ _))]
    simp only [ih]
    have := hj j (List.mem_cons_self _ _)
    unfold stored_faithfully at this
    rw [this]

theorem directory_make_encode {i b : Nat} {names : vec_s} {inodes : vec_16}
    (hlen : names.length = inodes.length) (hn : ∀ n ∈ names, 0 ∉ n)
    (hj : ∀ j ∈ inodes, stored_faithfully j) (hsz : record_bytes names < 65536) :
    Directory.make i b (Directory.encode_entries names inodes) = .ok ⟨i, b, names, inodes⟩ := by
  unfold Directory.make
  rw [encode_entries_length, if_neg (by omega),
    read_entries_encode names inodes _ hlen (record_bytes_ge names) hn hj]

theorem indexOf_append_mem : ∀ {names : List (List Nat)} {s : List Nat} (ys : List (List Nat)),
    s ∈ names → (names ++ ys).indexOf s = names.indexOf s
  | [], _, _, h => by simp at h
  | n :: names, s, ys, h => by
    simp only [List.cons_append, List.indexOf, List.findIdx_cons]
    by_cases e : n = s
    · have : (n == s) = true := by simpa using e
      rw [this]
      rfl
    · have : (n == s) = false := by simpa using e
      rw [this]
      have h2 : s ∈ names := by
        rcases List.mem_cons.1 h with h | h
        · exact absurd h.symm e
        · exact h
      have ih := indexOf_append_mem ys h2
      simp only [List.indexOf] at ih
      simp only [cond_false, ih]

theorem indexOf_append_not_mem : ∀ {names : List (List Nat)} {s : List Nat},
    s ∉ names → (names ++ [s]).indexOf s = names.length
  | [], s, _ => by
    simp [List.indexOf, List.findIdx_cons]
  | n :: names, s, h => by
    have h1 : n ≠ s := fun e => h (e ▸ List.mem_cons_self _ _)
    have h2 : s ∉ names := fun e => h (List.mem_cons_of_mem _ e)
    have ih := indexOf_append_not_mem h2
    simp only [List.cons_append, List.indexOf, List.findIdx_cons] at ih ⊢
    have : (n == s) = false := by simpa using h1
    rw [this]
    simp only [cond_false, List.length_cons, ih]

theorem get_file_inode_append {d : Directory} {s x : List Nat} {y : Nat}
    (h : d.get_file_inode s ≠ 0) :
    ({ d with names := d.names ++ [x], inodes := d.inodes ++ [y] } : Directory).get_file_inode s
      = d.get_file_inode s := by
  unfold Directory.get_file_inode at h ⊢
  simp only at h ⊢
  by_cases hmem : s ∈ d.names
  · have hlt := indexOf_lt_of_mem hmem
    have hidx : (d.names ++ [x]).indexOf s = d.names.indexOf s := indexOf_append_mem [x] hmem
    rw [if_neg (by omega)] at h
    rw [hidx, if_neg (by simp; omega)]
    have hlt2 : d.names.indexOf s < d.inodes.length := by
      by_contra hge
      apply h
      simp [List.getD, List.getElem?_eq_none (not_lt.1 hge)]
    rw [if_neg (by omega)]
    simp [List.getD, List.getElem?_append_left hlt2]
  · rw [if_pos (indexOf_of_not_mem hmem)] at h
    exact absurd rfl h

/-! ### Path resolution after one directory was rewritten -/

theorem directory_make_of_read_entries {i b : Nat} {content : vec_c} {names : vec_s}
    {inodes : vec_16} (hlen : content.length < 65536)
    (h : Directory.read_entries content.length content = .ok (names, inodes)) :
    Directory.make i b content = .ok ⟨i, b, names, inodes⟩ := by
  unfold Directory.make
  rw [if_neg (by omega), h]

theorem read_entries_of_directory_make {i b : Nat} {content : vec_c} {d : Directory}
    (h : Directory.make i b content = .ok d) :
    content.length < 65536 ∧
      Directory.read_entries content.length content = .ok (d.names, d.inodes) ∧
      d.inode_num = i ∧ d.mem_block = b := by
  unfold Directory.make at h
  split at h
  · simp at h
  · rename_i hlt
    split at h
    · simp at h
    · rename_i names inodes hre
      injection h with h
      subst h
      exact ⟨by omega, hre, rfl, rfl⟩

theorem directory_make_rewritten {s s2 : File_System} {hd : Nat} {N N' : vec_s} {I I' : vec_16}
    (hr : Directory_Rewritten s s2 hd N I N' I') {g k : Nat} {content : vec_c} {d : Directory}
    (hg : g ∈ directory_heads s.inodes)
    (hread : Memory_Blocks.full_file_content s.memory g = .ok content)
    (hmk : Directory.make k g content = .ok d) :
    ∃ content2 d', Memory_Blocks.full_file_content s2.memory g = .ok content2 ∧
      Directory.make k g content2 = .ok d' ∧ Rewritten_Pair hd N I N' I' d d' := by
  obtain ⟨-, r2, ⟨old, o1, o2, o3⟩, ⟨new, n1, n2, n3⟩, -⟩ := hr
  obtain ⟨m1, m2, m3, m4⟩ := read_entries_of_directory_make hmk
  by_cases hgd : g = hd
  · subst hgd
    rw [o1] at hread
    injection hread with hread
    subst hread
    rw [o3] at m2
    injection m2 with m2
    injection m2 with e1 e2
    refine ⟨new, ⟨k, g, N', I'⟩, n1, directory_make_of_read_entries n2 n3, ?_⟩
    refine ⟨m3.symm, m4.symm, fun h => absurd m4 h, fun _ => ⟨e1.symm, e2.symm, rfl, rfl⟩⟩
  · obtain ⟨cg, hcg, -, -⟩ := full_file_content_inv hread
    refine ⟨content, d, full_file_content_congr hcg (r2 g hg hgd cg hcg) hread, hmk, ?_⟩
    refine ⟨rfl, rfl, fun _ => rfl, fun h => absurd (m4 ▸ h) hgd⟩

theorem enter_directory_rewritten {s s2 : File_System} {hd : Nat} {N N' : vec_s} {I I' : vec_16}
    (hr : Directory_Rewritten s s2 hd N I N' I') {inode : Nat} {d1 : Directory}
    (hent : s.enter_directory inode = (.ok d1, s)) :
    ∃ d1', s2.enter_directory inode = (.ok d1', s2) ∧ Rewritten_Pair hd N I N' I' d1 d1' := by
  have r1 := hr.1 inode
  unfold File_System.enter_directory at hent ⊢
  unfold Inodes.is_inode_directory Inodes.get_memory_block at hent ⊢
  cases hnode : s.inodes[inode]? with
  | none => rw [hnode] at hent; simp at hent
  | some node =>
    rw [hnode] at hent r1
    cases hnode2 : s2.inodes[inode]? with
    | none => rw [hnode2] at r1; simp at r1
    | some node2 =>
      rw [hnode2] at r1
      simp only [Option.map_some', Option.some.injEq, Prod.mk.injEq] at r1
      simp only at hent ⊢
      rw [r1.1, r1.2]
      cases hd' : (node.is_dir != 0) with
      | false => rw [hd'] at hent; simp at hent
      | true =>
        rw [hd'] at hent
        simp only at hent ⊢
        cases hread : Memory_Blocks.full_file_content s.memory node.memory_block with
        | error e => rw [hread] at hent; simp at hent
        | ok content =>
          rw [hread] at hent
          simp only at hent
          split at hent
          · simp at hent
          · rename_i dir hmk
            injection hent with h1 _
            injection h1 with h1
            subst h1
            obtain ⟨content2, d', c1, c2, c3⟩ :=
              directory_make_rewritten hr (mem_directory_heads hnode hd') hread hmk
            refine ⟨d', ?_, c3⟩
            rw [c1]
            simp only [c2]

theorem walk_rewritten {s s2 : File_System} {hd : Nat} {N N' : vec_s} {I I' : vec_16}
    (hr : Directory_Rewritten s s2 hd N I N' I') : ∀ (path : vec_s) {d d' df : Directory},
    Walk s d path df → Rewritten_Pair hd N I N' I' d d' →
    ∃ df', Walk s2 d' path df' ∧ Rewritten_Pair hd N I N' I' df df'
  | [], d, d', df, h, hp => by
    simp only [Walk] at h
    subst h
    exact ⟨d', by simp [Walk], hp⟩
  | seg :: path, d, d', df, h, hp => by
    simp only [Walk] at h ⊢
    obtain ⟨hne, d1, hent, hw⟩ := h
    have hlook : d'.get_file_inode seg = d.get_file_inode seg := by
      by_cases hb : d.mem_block = hd
      · obtain ⟨p1, p2, p3, p4⟩ := hp.2.2.2 hb
        exact hr.2.2.2.2 d d' p1 p2 p3 p4 seg hne
      · rw [hp.2.2.1 hb]
    obtain ⟨d1', e1, e2⟩ := enter_directory_rewritten hr hent
    obtain ⟨df', w1, w2⟩ := walk_rewritten hr path hw e2
    exact ⟨df', ⟨by rw [hlook]; exact hne, d1', by rw [hlook]; exact e1, w1⟩, w2⟩

theorem find_directory_rewritten {s s2 : File_System} {hd : Nat} {N N' : vec_s} {I I' : vec_16}
    (hr : Directory_Rewritten s s2 hd N I N' I') {path : vec_s} {dir : Directory}
    (hres : s.find_directory path = (.ok dir, s))
    (hwf : s.inodes_allocator.first_free ≤ s.inodes_allocator.size) :
    ∃ dir', s2.find_directory path = (.ok dir', s2) ∧ Rewritten_Pair hd N I N' I' dir dir' := by
  unfold File_System.find_directory at hres ⊢
  cases hread : Memory_Blocks.full_file_content s.memory 0 with
  | error e => rw [hread] at hres; simp at hres
  | ok content =>
    rw [hread] at hres
    simp only at hres
    split at hres
    · simp at hres
    · rename_i root hmk
      have h0 : (0 : Nat) ∈ directory_heads s.inodes := by simp [directory_heads]
      obtain ⟨content2, root', c1, c2, c3⟩ := directory_make_rewritten hr h0 hread hmk
      obtain ⟨hw, -⟩ := walk_of_find_directory_loop path hres hwf (fun _ h => h)
      obtain ⟨dir', w1, w2⟩ := walk_rewritten hr path hw c3
      refine ⟨dir', ?_, w2⟩
      rw [c1]
      simp only [c2]
      exact find_directory_loop_of_walk path w1

theorem get_file_inode_congr {d e : Directory} (h1 : d.names = e.names)
    (h2 : d.inodes = e.inodes) (s : List Nat) : d.get_file_inode s = e.get_file_inode s := by
  unfold Directory.get_file_inode
  rw [h1, h2]

theorem get_file_inode_new {d : Directory} {x : List Nat} {y : Nat} (hx : x ∉ d.names)
    (hlen : d.names.length = d.inodes.length) :
    ({ d with names := d.names ++ [x], inodes := d.inodes ++ [y] } : Directory).get_file_inode x
      = y := by
  unfold Directory.get_file_inode
  simp only
  rw [indexOf_append_not_mem hx, if_neg (by simp), hlen]
  simp [List.getD]

theorem full_file_content_length {blocks : mem_v} {h last : Nat} {init : List Nat} {old : vec_c}
    (hc : Chain blocks h (init ++ [last])) (hs : Sized blocks)
    (hfull : ∀ i ∈ init, occupied_at blocks i = content_size)
    (hold : Memory_Blocks.full_file_content blocks h = .ok old) :
    old.length = content_size * init.length + occupied_at blocks last ∧
      occupied_at blocks last ≤ content_size := by
  obtain ⟨init', last', bl, e, hbl, -⟩ := chain_last hc
  obtain ⟨e1, e2⟩ := List.append_inj' e rfl
  injection e2 with e2
  subst e1 e2
  obtain ⟨c', hc', hocc, hold'⟩ := full_file_content_inv hold
  have := chain_unique hc hc'
  subst this
  have hbllen : bl.content.length = content_size := hs bl (List.mem_iff_getElem?.2 ⟨last, hbl⟩)
  have ho : occupied_at blocks last ≤ content_size := by
    have := hocc last (by simp) bl hbl
    rw [hbllen] at this
    simpa [occupied_at, hbl] using this
  refine ⟨?_, ho⟩
  rw [hold', chain_payload_append, List.length_append,
    chain_payload_length_full hs
      (fun i hi => chain_mem_lt hc i (List.mem_append_left _ hi)) hfull]
  simp only [chain_payload, block_payload, hbl, occupied_at, List.append_nil, List.length_take]
  have := hocc last (by simp) bl hbl
  omega

theorem add_link_to_directory_spec {fs fs' : File_System} {dir dir' : Directory} {src : Nat}
    {link : List Nat} (h : fs.add_link_to_directory dir src link = (.ok dir', fs')) :
    src ≠ 0 ∧ link ∉ dir.names ∧
      dir' = { dir with names := dir.names ++ [link], inodes := dir.inodes ++ [src] } ∧
      (∃ sn, fs.inodes[src]? = some sn ∧ sn.is_dir = 0) ∧
      ∃ dn sn', fs.inodes[dir.inode_num]? = some dn ∧
        (fs.inodes.set dir.inode_num { dn with number := (dn.number + 1) % 256 })[src]?
          = some sn' ∧
        fs' = ⟨fs.inodes_allocator,
          (fs.inodes.set dir.inode_num { dn with number := (dn.number + 1) % 256 }).set src
            { sn' with number := (sn'.number + 1) % 256 },
          fs.memory_allocator, fs.memory⟩ := by
  unfold File_System.add_link_to_directory at h
  split at h
  · simp at h
  · rename_i hsrc
    split at h
    · simp at h
    · simp at h
    · rename_i hisd
      split at h
      · simp at h
      · rename_i d1 hadd
        split at h
        · simp at h
        · rename_i nodes hp1
          split at h
          · simp at h
          · rename_i nodes' hp2
            injection h with h1 h2
            injection h1 with h1
            subst h1 h2
            unfold Directory.add_new_file at hadd
            split at hadd
            · simp at hadd
            · rename_i hnot
              injection hadd with hadd
              subst hadd
              unfold Inodes.add_pointer_to_inode at hp1 hp2
              split at hp1
              · simp at hp1
              · rename_i dn hdn
                injection hp1 with hp1
                subst hp1
                split at hp2
                · simp at hp2
                · rename_i sn' hsn'
                  injection hp2 with hp2
                  subst hp2
                  unfold Inodes.is_inode_directory at hisd
                  split at hisd
                  · simp at hisd
                  · rename_i sn hsn
                    injection hisd with hisd
                    refine ⟨hsrc, hnot, rfl, ⟨sn, hsn, by simpa using hisd⟩, dn, sn', hdn, hsn', rfl⟩

/-! ### Path splitting -/

theorem find_slash_none : ∀ {s : List Nat}, find_slash s = none → 47 ∉ s
  | [], _ => by simp
  | c :: s, h => by
    simp only [find_slash] at h
    split at h
    · simp at h
    · rename_i hc
      have h' : find_slash s = none := by simpa using h
      have := find_slash_none h'
      simp only [List.mem_cons, not_or]
      exact ⟨fun e => hc e.symm, this⟩

theorem find_slash_some : ∀ {s : List Nat} {pos : Nat}, find_slash s = some pos →
    47 ∉ s.take pos ∧ s = s.take pos ++ 47 :: s.drop (pos + 1)
  | [], _, h => by simp [find_slash] at h
  | c :: s, pos, h => by
    simp only [find_slash] at h
    split at h
    · rename_i hc
      injection h with h
      subst h
      subst hc
      simp
    · rename_i hc
      cases hrec : find_slash s with
      | none => rw [hrec] at h; simp at h
      | some p =>
        rw [hrec] at h
        simp only [Option.map_some', Option.some.injEq] at h
        subst h
        obtain ⟨h1, h2⟩ := find_slash_some hrec
        refine ⟨?_, ?_⟩
        · simp only [List.take_succ_cons, List.mem_cons, not_or]
          exact ⟨fun e => hc e.symm, h1⟩
        · simp only [List.take_succ_cons, List.drop_succ_cons, List.cons_append]
          rw [← h2]

theorem path_loop_spec : ∀ (fuel : Nat) (s : List Nat), s.length ≤ fuel →
    ∃ segs leaf, path_loop fuel s = .ok (segs, leaf) ∧
      List.intercalate [47] (segs ++ [leaf]) = s ∧ segs.length = s.count 47 ∧
      (∀ g ∈ segs, 47 ∉ g) ∧ 47 ∉ leaf
  | 0, s, h => by
    have : s = [] := List.length_eq_zero.1 (by omega)
    subst this
    exact ⟨[], [], by simp [path_loop, find_slash], by simp [List.intercalate], by simp,
      by simp, by simp⟩
  | fuel + 1, s, h => by
    simp only [path_loop]
    cases hf : find_slash s with
    | none =>
      have hno := find_slash_none hf
      refine ⟨[], s, rfl, by simp [List.intercalate], ?_, by simp, hno⟩
      simp [List.count_eq_zero.2 hno]
    | some pos =>
      obtain ⟨h1, h2⟩ := find_slash_some hf
      have hlen : (s.drop (pos + 1)).length ≤ fuel := by
        have : s.length = (s.take pos ++ 47 :: s.drop (pos + 1)).length := by rw [← h2]
        simp only [List.length_append, List.length_cons] at this
        omega
      obtain ⟨segs, leaf, r1, r2, r3, r4, r5⟩ := path_loop_spec fuel (s.drop (pos + 1)) hlen
      refine ⟨s.take pos :: segs, leaf, by simp only [r1], ?_, ?_, ?_, r5⟩
      · have hne : segs ++ [leaf] ≠ [] := by simp
        obtain ⟨x, l, hxl⟩ := List.exists_cons_of_ne_nil hne
        have hstep : List.intercalate [47] (s.take pos :: (segs ++ [leaf]))
            = s.take pos ++ 47 :: List.intercalate [47] (segs ++ [leaf]) := by
          rw [hxl]
          simp [List.intercalate, List.intersperse]
        rw [List.cons_append, hstep, r2, ← h2]
      · have hc : s.count 47 = (s.take pos ++ 47 :: s.drop (pos + 1)).count 47 := by rw [← h2]
        rw [hc, List.count_append, List.count_eq_zero.2 h1, List.count_cons_self,
          List.length_cons, r3]
        omega
      · intro g hg
        rcases List.mem_cons.1 hg with e | e
        · rw [e]
          exact h1
        · exact r4 g e
/-! ### The empty image -/

theorem range_map_status (n : Nat) :
    (List.range (n + 1)).map (fun i => if i = 0 then USED else FREE)
      = USED :: List.replicate n FREE := by
  rw [List.range_succ_eq_map, List.map_cons, List.map_map]
  simp only [if_true]
  congr 1
  rw [List.eq_replicate_iff]
  constructor
  · simp
  · intro b hb
    simp only [List.mem_map, List.mem_range, Function.comp] at hb
    obtain ⟨a, -, h⟩ := hb
    simpa using h.symm

theorem flatMap_replicate_const {α : Type} (l : List α) (k : Nat) (c : Nat) :
    l.flatMap (fun _ => List.replicate k c) = List.replicate (k * l.length) c := by
  induction l with
  | nil => simp
  | cons x l ih =>
    simp only [List.flatMap_cons, ih, List.length_cons, List.append_replicate_replicate]
    congr 1
    ring

theorem write_manager_eq (n : Nat) :
    write_manager (n + 1)
      = [(n + 1) % 256, (n + 1) / 256 % 256] ++ (USED :: List.replicate n FREE) := by
  unfold write_manager
  rw [range_map_status]

theorem write_inodes_eq (n : Nat) :
    write_inodes (n + 1) = [1, 0, 0, 0] ++ List.replicate (4 * n) 0 := by
  unfold write_inodes
  rw [List.range_succ_eq_map, List.flatMap_cons, List.flatMap_map]
  simp only [if_true]
  congr 1
  have : (fun a : Nat => if a.succ = 0 then [1, 0, 0, 0] else [0, 0, 0, 0])
      = fun _ => List.replicate 4 0 := by
    funext i
    simp [List.replicate]
  rw [this, flatMap_replicate_const]
  simp

theorem write_memory_blocks_eq (n : Nat) :
    write_memory_blocks n = List.replicate (53 * n) 0 := by
  unfold write_memory_blocks
  have : (fun _ : Nat => [0, 0, 0] ++ List.replicate content_size 0)
      = fun _ => List.replicate 53 0 := by
    funext i
    simp [List.replicate, content_size]
  rw [this, flatMap_replicate_const]
  simp
/-! ### The image codec -/

theorem read_uint16_t_eq {lo hi : Nat} (h1 : lo < 256) (h2 : hi < 256) :
    read_uint16_t lo hi = hi * 256 + lo := by
  unfold read_uint16_t char_to_uint16
  rw [Nat.mod_eq_of_lt h1, Nat.mod_eq_of_lt h2, Nat.shiftLeft_eq, Nat.mul_comm,
    ← @Nat.mul_add_lt_is_or 8 lo (by simpa using h1)]
  split <;> omega

theorem read_write_uint16_t {n : Nat} (hn : n < 65536) :
    read_uint16_t (n % 256) (n / 256 % 256) = n := by
  rw [read_uint16_t_eq (Nat.mod_lt _ (by norm_num)) (Nat.mod_lt _ (by norm_num))]
  omega

theorem write_read_uint16_t {lo hi : Nat} (h1 : lo < 256) (h2 : hi < 256) :
    write_uint16_t (read_uint16_t lo hi) = [lo, hi] := by
  rw [read_uint16_t_eq h1 h2]
  unfold write_uint16_t
  congr 1
  · omega
  · congr 1
    omega

theorem find_first_free_from_total (size : Nat) (status : vec_c) (hl : size ≤ status.length) :
    ∀ fuel i, ∃ r, Allocator.find_first_free_from size status fuel i = .ok r
  | 0, i => ⟨size, rfl⟩
  | fuel + 1, i => by
    simp only [Allocator.find_first_free_from]
    split
    · rename_i hlt
      have hi : i < status.length := by omega
      rw [List.getElem?_eq_getElem hi]
      simp only
      split
      · exact ⟨_, rfl⟩
      · exact find_first_free_from_total size status hl fuel (i + 1)
    · exact ⟨_, rfl⟩

theorem allocator_read_image {N k : Nat} {st : vec_c} (rest : vec_c) (hN : N < 65536)
    (hl : st.length = N) (hk : Allocator.find_first_free N st = .ok k) :
    Allocator.read (write_uint16_t N ++ st ++ rest) = .ok (⟨N, k, st⟩, rest) := by
  unfold Allocator.read write_uint16_t
  simp only [List.cons_append, List.nil_append, read_uint16_t_stream]
  rw [read_write_uint16_t hN]
  simp only [read_string]
  rw [if_pos (by simp [hl])]
  simp only [List.take_left' hl, List.drop_left' hl, hk]

theorem allocator_dump_image {N k : Nat} {st : vec_c} (hl : st.length = N) :
    (⟨N, k, st⟩ : Allocator).dump_allocator_to_file = .ok (write_uint16_t N ++ st) := by
  unfold Allocator.dump_allocator_to_file write_string
  simp only
  rw [if_pos (le_of_eq hl.symm), ← hl, List.take_length]

theorem inodes_read_image : ∀ (n : Nat) (ino rest : vec_c), ino.length = 4 * n →
    (∀ x ∈ ino, x < 256) →
    ∃ nodes, Inodes.read n (ino ++ rest) = .ok (nodes, rest) ∧
      Inodes.dump_inodes_to_file nodes = ino
  | 0, ino, rest, hl, _ => by
    have : ino = [] := List.length_eq_zero.1 (by simpa using hl)
    subst this
    exact ⟨[], rfl, rfl⟩
  | n + 1, ino, rest, hl, hb => by
    match ino, hl, hb with
    | a :: b :: lo :: hi :: ino', hl, hb =>
      have hl' : ino'.length = 4 * n := by
        simp only [List.length_cons] at hl
        omega
      obtain ⟨nodes, hr, hd⟩ := inodes_read_image n ino' rest hl'
        (fun x hx => hb x (by simp [hx]))
      refine ⟨⟨a % 256, b % 256, read_uint16_t lo hi⟩ :: nodes, ?_, ?_⟩
      · simp only [List.cons_append, Inodes.read, List.append_eq, hr]
      · unfold Inodes.dump_inodes_to_file at hd ⊢
        rw [List.flatMap_cons, hd]
        unfold Inode.dump_inode
        simp only
        rw [write_read_uint16_t (hb lo (by simp)) (hb hi (by simp)), Nat.mod_mod,
          Nat.mod_mod, Nat.mod_eq_of_lt (hb a (by simp)), Nat.mod_eq_of_lt (hb b (by simp))]
        rfl
    | [], hl, _ => simp only [List.length_nil] at hl; omega
    | [_], hl, _ => simp only [List.length_cons, List.length_nil] at hl; omega
    | [_, _], hl, _ => simp only [List.length_cons, List.length_nil] at hl; omega
    | [_, _, _], hl, _ => simp only [List.length_cons, List.length_nil] at hl; omega

theorem memory_blocks_read_image : ∀ (n : Nat) (blk rest : vec_c), blk.length = 53 * n →
    (∀ x ∈ blk, x < 256) →
    ∃ blocks, Memory_Blocks.read n (blk ++ rest) = .ok (blocks, rest) ∧
      Memory_Blocks.dump_memory_blocks_to_file blocks = .ok blk
  | 0, blk, rest, hl, _ => by
    have : blk = [] := List.length_eq_zero.1 (by simpa using hl)
    subst this
    exact ⟨[], rfl, rfl⟩
  | n + 1, blk, rest, hl, hb => by
    match blk, hl, hb with
    | lo :: hi :: occ :: blk', hl, hb =>
      have hl' : blk'.length = 50 + 53 * n := by
        simp only [List.length_cons] at hl
        omega
      have hsplit : blk' = blk'.take 50 ++ blk'.drop 50 := (List.take_append_drop 50 blk').symm
      have htl : (blk'.take 50).length = 50 := by
        rw [List.length_take]
        omega
      have hdl : (blk'.drop 50).length = 53 * n := by
        rw [List.length_drop]
        omega
      obtain ⟨blocks, hr, hd⟩ := memory_blocks_read_image n (blk'.drop 50) rest hdl
        (fun x hx => hb x (by simp [List.mem_of_mem_drop hx]))
      refine ⟨⟨read_uint16_t lo hi, occ % 256, blk'.take 50⟩ :: blocks, ?_, ?_⟩
      · simp only [List.cons_append, Memory_Blocks.read, read_string, content_size, List.append_eq]
        rw [if_pos (by simp; omega)]
        have h1 : (blk' ++ rest).take 50 = blk'.take 50 := by
          rw [List.take_append_of_le_length (by omega)]
        have h2 : (blk' ++ rest).drop 50 = blk'.drop 50 ++ rest := by
          rw [List.drop_append_of_le_length (by omega)]
        simp only [h1, h2, hr]
      · simp only [Memory_Blocks.dump_memory_blocks_to_file, Memory_Block.dump_memory_block,
          write_string, content_size, hd]
        rw [if_pos (le_of_eq htl.symm)]
        simp only
        rw [write_read_uint16_t (hb lo (by simp)) (hb hi (by simp)), Nat.mod_mod,
          Nat.mod_eq_of_lt (hb occ (by simp))]
        simp only [List.take_take, Nat.min_self, List.cons_append, List.nil_append,
          List.append_assoc, List.take_append_drop]
    | [], hl, _ => simp only [List.length_nil] at hl; omega
    | [_], hl, _ => simp only [List.length_cons, List.length_nil] at hl; omega
    | [_, _], hl, _ => simp only [List.length_cons, List.length_nil] at hl; omega
theorem find_first_free_empty (n : Nat) :
    Allocator.find_first_free (n + 1) (USED :: List.replicate n FREE) = .ok 1 := by
  unfold Allocator.find_first_free
  cases n with
  | zero => simp [Allocator.find_first_free_from, USED, FREE]
  | succ m => simp [Allocator.find_first_free_from, USED, FREE, List.replicate_succ]

theorem inodes_read_zero : ∀ (n : Nat) (rest : vec_c),
    Inodes.read n (List.replicate (4 * n) 0 ++ rest) = .ok (List.replicate n ⟨0, 0, 0⟩, rest)
  | 0, rest => rfl
  | n + 1, rest => by
    have h : List.replicate (4 * (n + 1)) 0 ++ rest
        = 0 :: 0 :: 0 :: 0 :: (List.replicate (4 * n) 0 ++ rest) := by
      rw [show 4 * (n + 1) = 4 * n + 1 + 1 + 1 + 1 by ring]
      simp only [List.replicate_succ, List.cons_append]
    rw [h]
    simp only [Inodes.read, inodes_read_zero n rest, List.replicate_succ]
    rw [read_uint16_t_eq (by norm_num) (by norm_num)]

theorem memory_blocks_read_zero : ∀ (n : Nat) (rest : vec_c),
    Memory_Blocks.read n (List.replicate ((3 + content_size) * n) 0 ++ rest)
      = .ok (List.replicate n ⟨0, 0, List.replicate content_size 0⟩, rest)
  | 0, rest => by
    rw [Nat.mul_zero]
    rfl
  | n + 1, rest => by
    have h : List.replicate ((3 + content_size) * (n + 1)) 0 ++ rest
        = 0 :: 0 :: 0 :: (List.replicate content_size 0
          ++ (List.replicate ((3 + content_size) * n) 0 ++ rest)) := by
      rw [show (3 + content_size) * (n + 1) = 3 + (content_size + (3 + content_size) * n) by ring,
        List.replicate_add, List.replicate_add]
      simp only [List.replicate, List.cons_append, List.nil_append, List.append_assoc]
    rw [h]
    simp only [Memory_Blocks.read, read_string]
    rw [if_pos (by simp)]
    have h1 : (List.replicate content_size 0
        ++ (List.replicate ((3 + content_size) * n) 0 ++ rest)).take content_size
        = List.replicate content_size 0 := List.take_left' (by simp)
    have h2 : (List.replicate content_size 0
        ++ (List.replicate ((3 + content_size) * n) 0 ++ rest)).drop content_size
        = List.replicate ((3 + content_size) * n) 0 ++ rest := List.drop_left' (by simp)
    simp only [h1, h2, memory_blocks_read_zero n rest]
    rw [read_uint16_t_eq (by norm_num) (by norm_num)]
    rfl

theorem free_blocks_amount_from_all_free (size : Nat) (status : vec_c) : ∀ (fuel i : Nat),
    i + fuel = size → (∀ j, i ≤ j → j < size → status[j]? = some FREE) →
    Allocator.free_blocks_amount_from size status fuel i = .ok fuel
  | 0, _, _, _ => rfl
  | fuel + 1, i, hf, hall => by
    simp only [Allocator.free_blocks_amount_from]
    rw [if_pos (by omega), hall i (le_refl _) (by omega),
      free_blocks_amount_from_all_free size status fuel (i + 1) (by omega)
        (fun j h1 h2 => hall j (by omega) h2)]
    simp

theorem info_empty (n : Nat) (hn : n < 65536) :
    (⟨n + 1, 1, USED :: List.replicate n FREE⟩ : Allocator).info = .ok (n + 1, n) := by
  unfold Allocator.info
  simp only [Nat.add_sub_cancel]
  rw [free_blocks_amount_from_all_free (n + 1) _ n 1 (by omega)]
  · simp only [Nat.mod_eq_of_lt hn]
  · intro j h1 h2
    obtain ⟨k, rfl⟩ : ∃ k, j = k + 1 := ⟨j - 1, by omega⟩
    rw [List.getElem?_cons_succ, List.getElem?_replicate, if_pos (by omega)]

/-- Loading the image written by `make_empty_file_system`. -/
theorem load_make_empty (B n : Nat) (hB : B < 65536) (hn : B / 4 = n + 1) :
    File_System.load (make_empty_file_system B)
      = .ok ⟨⟨n + 1, 1, USED :: List.replicate n FREE⟩,
          ⟨1, 0, 0⟩ :: List.replicate n ⟨0, 0, 0⟩,
          ⟨n + 1, 1, USED :: List.replicate n FREE⟩,
          List.replicate (n + 1) ⟨0, 0, List.replicate 50 0⟩⟩ := by
  have hlen : (USED :: List.replicate n FREE).length = n + 1 := by simp
  have hn1 : n + 1 < 65536 := by omega
  have himg : make_empty_file_system B
      = write_uint16_t (n + 1) ++ (USED :: List.replicate n FREE)
        ++ ([1, 0, 0, 0] ++ (List.replicate (4 * n) 0
        ++ (write_uint16_t (n + 1) ++ (USED :: List.replicate n FREE)
        ++ (List.replicate (53 * (n + 1)) 0 ++ [])))) := by
    unfold make_empty_file_system
    rw [Nat.mod_eq_of_lt hB, hn, write_manager_eq, write_inodes_eq, write_memory_blocks_eq]
    simp only [write_uint16_t, List.append_assoc, List.append_nil]
  unfold File_System.load
  rw [himg, allocator_read_image _ hn1 hlen (find_first_free_empty n)]
  simp only [List.cons_append, List.nil_append, Inodes.read, List.append_eq]
  rw [inodes_read_zero, read_uint16_t_eq (by norm_num) (by norm_num)]
  simp only
  rw [allocator_read_image _ hn1 hlen (find_first_free_empty n)]
  simp only
  have hm : Memory_Blocks.read (n + 1) (List.replicate (53 * (n + 1)) 0 ++ [])
      = .ok (List.replicate (n + 1) ⟨0, 0, List.replicate 50 0⟩, []) :=
    memory_blocks_read_zero (n + 1) []
  rw [hm]
/-! ### The `occupied` fields after a write -/

theorem getElem?_cons_eq_head {x y : Nat} {tl : List Nat} (hnd : (x :: tl).Nodup) :
    ∀ {k : Nat}, (x :: tl)[k]? = some y → (y = x ↔ k = 0)
  | 0, h => by
    simp only [List.getElem?_cons_zero, Option.some.injEq] at h
    simp [h]
  | k + 1, h => by
    rw [List.getElem?_cons_succ] at h
    have hy : y ∈ tl := List.mem_iff_getElem?.2 ⟨k, h⟩
    rw [List.nodup_cons] at hnd
    constructor
    · intro e
      exact absurd (e ▸ hy) hnd.1
    · intro e
      omega

/-- The blocks the cursor of `save_file` has left behind all carry `occupied = content_size`. -/
theorem save_file_loop_occupied : ∀ (cs : vec_c) {blocks blocks' : mem_v} {mb mi mb' mi' : Nat}
    {tl : List Nat},
    Chain blocks mb (mb :: tl) → Sized blocks → mi ≤ content_size →
    mi + cs.length ≤ content_size * (tl.length + 1) →
    Memory_Blocks.save_file_loop blocks mb mi cs = .ok (blocks', mb', mi') →
    ∀ k, (mb :: tl)[k]? = some mb' →
      ∀ i ∈ (mb :: tl).take k, occupied_at blocks' i = content_size
  | [], blocks, blocks', mb, mi, mb', mi', tl, hc, _, _, _, hrun => by
    intro k hk i hi
    simp only [Memory_Blocks.save_file_loop] at hrun
    injection hrun with hrun
    injection hrun with h1 h2
    injection h2 with h2 h3
    subst h2
    have := (getElem?_cons_eq_head (chain_nodup hc) hk).1 rfl
    subst this
    simp at hi
  | c :: rest, blocks, blocks', mb, mi, mb', mi', tl, hc, hs, hmi, hcap, hrun => by
    have hnd := chain_nodup hc
    have hc' := hc
    rw [chain_cons_iff] at hc'
    obtain ⟨-, b0, hb0, hnext⟩ := hc'
    have hb0len : b0.content.length = content_size := hs b0 (List.mem_iff_getElem?.2 ⟨mb, hb0⟩)
    by_cases hadv : mi = content_size
    · rcases hnext with ⟨rfl, _⟩ | ⟨hne, hc2⟩
      · simp [content_size] at hcap hadv; omega
      · obtain ⟨tl2, htl⟩ := chain_head hc2
        subst htl
        set nb := b0.next_block with hnb
        have hmbnb : mb ≠ nb := by
          intro e
          rw [List.nodup_cons] at hnd
          exact hnd.1 (by rw [e]; simp)
        obtain ⟨bn, hbn, -⟩ := (chain_cons_iff.1 hc2).2
        have hbnlen : bn.content.length = content_size := hs bn (List.mem_iff_getElem?.2 ⟨nb, hbn⟩)
        have hg1 : ∀ j, (blocks.set mb { b0 with occupied := content_size })[j]? =
            if mb = j then some { b0 with occupied := content_size } else blocks[j]? :=
          getElem?_set_of_some hb0 _
        have hbn1 : (blocks.set mb { b0 with occupied := content_size })[nb]? = some bn := by
          rw [hg1, if_neg hmbnb]; exact hbn
        have hg2 : ∀ j, ((blocks.set mb { b0 with occupied := content_size }).set nb
            { bn with content := bn.content.set 0 c })[j]? =
            if nb = j then some { bn with content := bn.content.set 0 c }
            else if mb = j then some { b0 with occupied := content_size } else blocks[j]? := by
          intro j
          rw [getElem?_set_of_some hbn1, hg1]
        have hc3 : Chain ((blocks.set mb { b0 with occupied := content_size }).set nb
            { bn with content := bn.content.set 0 c }) nb (nb :: tl2) := by
          refine chain_congr hc2 ?_
          intro i hi b hb
          rw [hg2]
          by_cases e1 : nb = i
          · subst e1
            rw [hbn] at hb; injection hb with hb; subst hb
            exact ⟨{ bn with content := bn.content.set 0 c }, by simp, rfl⟩
          · have e2 : mb ≠ i := by
              intro e
              rw [List.nodup_cons] at hnd
              exact hnd.1 (by rw [e]; exact hi)
            exact ⟨b, by simp [e1, e2, hb], rfl⟩
        have hs3 : Sized ((blocks.set mb { b0 with occupied := content_size }).set nb
            { bn with content := bn.content.set 0 c }) :=
          sized_set (sized_set hs hb0len) (by simp [hbnlen])
        have hcap3 : 1 + rest.length ≤ content_size * (tl2.length + 1) := by
          simp [content_size] at hcap hadv ⊢; omega
        have hrun3 : Memory_Blocks.save_file_loop
            ((blocks.set mb { b0 with occupied := content_size }).set nb
              { bn with content := bn.content.set 0 c }) nb 1 rest = .ok (blocks', mb', mi') := by
          simp only [Memory_Blocks.save_file_loop, if_pos hadv, hb0] at hrun
          rw [← hnb] at hrun
          simp only [hbn1] at hrun
          rw [if_pos (by rw [hbnlen]; simp [content_size])] at hrun
          exact hrun
        obtain ⟨blocks'', mb'', mi'', k0, b0', e1, e2, e3, e4, e5, e6, e7, -⟩ :=
          save_file_loop_spec rest hc3 hs3 (by simp [content_size] : 1 ≤ content_size) hcap3
        rw [hrun3] at e1
        injection e1 with e1
        injection e1 with e1a e1b
        injection e1b with e1b e1c
        subst e1a e1b e1c
        have hmbnot : mb ∉ (nb :: tl2).take (k0 + 1) := by
          intro hmem
          rw [List.nodup_cons] at hnd
          exact hnd.1 (List.mem_of_mem_take hmem)
        intro k hk i hi
        have hmb'mem : mb' ∈ nb :: tl2 := List.mem_iff_getElem?.2 ⟨k0, e7⟩
        have hk0 : k ≠ 0 := by
          intro e
          have := (getElem?_cons_eq_head hnd hk).2 e
          rw [List.nodup_cons] at hnd
          exact hnd.1 (this ▸ hmb'mem)
        obtain ⟨k', rfl⟩ : ∃ k', k = k' + 1 := ⟨k - 1, by omega⟩
        rw [List.getElem?_cons_succ] at hk
        rw [List.take_succ_cons] at hi
        rcases List.mem_cons.1 hi with rfl | hi
        · simp only [occupied_at]
          rw [e6 i hmbnot, hg2]
          simp [Ne.symm hmbnb]
        · exact save_file_loop_occupied rest hc3 hs3 (by simp [content_size] : 1 ≤ content_size)
            hcap3 hrun3 k' hk i hi
    · have hlt : mi < b0.content.length := by rw [hb0len]; omega
      have hg1 : ∀ j, (blocks.set mb { b0 with content := b0.content.set mi c })[j]? =
          if mb = j then some { b0 with content := b0.content.set mi c } else blocks[j]? :=
        getElem?_set_of_some hb0 _
      have hc3 : Chain (blocks.set mb { b0 with content := b0.content.set mi c }) mb (mb :: tl) := by
        refine chain_congr hc ?_
        intro i hi b hb
        rw [hg1]
        by_cases e1 : mb = i
        · subst e1
          rw [hb0] at hb; injection hb with hb; subst hb
          exact ⟨{ b0 with content := b0.content.set mi c }, by simp, rfl⟩
        · exact ⟨b, by simp [e1, hb], rfl⟩
      have hs3 : Sized (blocks.set mb { b0 with content := b0.content.set mi c }) :=
        sized_set hs (by simp [hb0len])
      have hrun3 : Memory_Blocks.save_file_loop
          (blocks.set mb { b0 with content := b0.content.set mi c }) mb (mi + 1) rest
            = .ok (blocks', mb', mi') := by
        simp only [Memory_Blocks.save_file_loop, if_neg hadv, hb0, if_pos hlt] at hrun
        exact hrun
      exact save_file_loop_occupied rest hc3 hs3 (by omega : mi + 1 ≤ content_size)
        (by simp only [List.length_cons] at hcap; omega) hrun3

/-- After `save_file` the blocks before the last written one carry `occupied = content_size`
and the last written one carries the rest. -/
theorem save_file_occupied {blocks blocks' : mem_v} {c : List Nat} {h : Nat} {content : vec_c}
    (hc : Chain blocks h c) (hs : Sized blocks) (hlen : content.length < 65536)
    (hcap : content.length ≤ content_size * c.length)
    (hrun : Memory_Blocks.save_file blocks h content = .ok blocks') {k mi : Nat}
    (hk : content_size * k + mi = content.length) (hmi : mi ≤ content_size)
    (hpos : content ≠ [] → 0 < mi) :
    (∀ i ∈ c.take k, occupied_at blocks' i = content_size) ∧
    (∀ i, (c)[k]? = some i → occupied_at blocks' i = mi) := by
  obtain ⟨tl, rfl⟩ := chain_head hc
  have hnd := chain_nodup hc
  obtain ⟨blocks1, mb', mi', k0, b0, e1, e2, e3, e4, e5, e6, e7, e8, e9, e10, -⟩ :=
    save_file_loop_spec content hc hs (Nat.zero_le _) (by simpa using hcap)
  have hocc := save_file_loop_occupied content hc hs (Nat.zero_le _) (by simpa using hcap) e1 k0 e7
  have hkk : k0 = k ∧ mi' = mi := by
    by_cases hne : content = []
    · subst hne
      simp only [List.length_nil, content_size] at hk e8
      omega
    · have h1 := hpos hne
      have h2 := e10 (Or.inr hne)
      simp only [content_size] at hk e8 hmi e9
      omega
  obtain ⟨rfl, rfl⟩ := hkk
  have hmb'mem : mb' ∈ h :: tl := List.mem_iff_getElem?.2 ⟨k0, e7⟩
  obtain ⟨bm', hbm'⟩ : ∃ bm', blocks1[mb']? = some bm' := by
    have : mb' < blocks1.length := by
      rw [e3]
      exact chain_mem_lt hc mb' hmb'mem
    exact ⟨_, List.getElem?_eq_getElem this⟩
  have hmod : mi' % 256 = mi' := Nat.mod_eq_of_lt (by simp only [content_size] at e9; omega)
  have hF : blocks' = set_occupied blocks1 mb' mi' := by
    unfold Memory_Blocks.save_file at hrun
    rw [if_neg (by omega), e1] at hrun
    simp only [hbm', hmod] at hrun
    injection hrun with hrun
    rw [← hrun]
    simp only [set_occupied, hbm']
  subst hF
  constructor
  · intro i hi
    have hne : mb' ≠ i := by
      intro e
      subst e
      have hsplit := List.take_append_drop k0 (h :: tl)
      rw [← hsplit, List.nodup_append] at hnd
      refine hnd.2.2 hi ?_
      rw [List.mem_iff_getElem?]
      exact ⟨0, by rw [List.getElem?_drop]; simpa using e7⟩
    have := hocc i hi
    simp only [occupied_at] at this ⊢
    rw [set_occupied_getElem? hbm', if_neg hne]
    exact this
  · intro i hi
    rw [e7] at hi
    injection hi with hi
    subst hi
    simp [occupied_at, set_occupied_getElem? hbm']
/-! ### Blocks linked in index order -/

theorem linked_blocks_getElem? {n i : Nat} (hi : i < n) :
    (linked_blocks n)[i]? = some ⟨if i + 1 = n then 0 else i + 1, 0, List.replicate 50 0⟩ := by
  unfold linked_blocks
  rw [List.getElem?_map, List.getElem?_range hi]
  rfl

theorem chain_linked (n : Nat) : ∀ (m k : Nat), k + m + 1 = n →
    Chain (linked_blocks n) k (List.range' k (m + 1))
  | 0, k, h => by
    show Chain (linked_blocks n) k [k]
    rw [chain_cons_iff]
    exact ⟨rfl, _, linked_blocks_getElem? (by omega), Or.inl ⟨rfl, by simp; omega⟩⟩
  | m + 1, k, h => by
    rw [List.range'_succ, chain_cons_iff]
    refine ⟨rfl, _, linked_blocks_getElem? (by omega), Or.inr ⟨?_, ?_⟩⟩
    · simp only
      rw [if_neg (by omega)]
      omega
    · simp only
      rw [if_neg (by omega)]
      exact chain_linked n m (k + 1) (by omega)

theorem sized_linked (n : Nat) : Sized (linked_blocks n) := by
  intro b hb
  unfold linked_blocks at hb
  obtain ⟨i, -, rfl⟩ := List.mem_map.1 hb
  simp [content_size]
/-! ### Shrinking a chain always returns -/

theorem erase_from_block_list_total {blocks : mem_v} {c : List Nat} {h : Nat}
    (hc : Chain blocks h c) (h2 : 2 ≤ c.length) :
    ∃ freed blocks', Memory_Blocks.erase_from_block_list blocks h = .ok (freed, blocks') := by
  have hlen := chain_length_le hc
  obtain ⟨tl, rfl⟩ := chain_head hc
  have hc0 := hc
  rw [chain_cons_iff] at hc0
  obtain ⟨-, b0, hb0, h1⟩ := hc0
  unfold Memory_Blocks.erase_from_block_list
  simp only [hb0]
  rcases h1 with ⟨rfl, h0⟩ | ⟨hne, hc'⟩
  · simp at h2
  · rw [if_neg hne]
    obtain ⟨mid, last, bl, hml, hbl, hnl⟩ := chain_last hc'
    rw [hml] at hc'
    obtain ⟨q, p, hq, hres⟩ :=
      @last_two_of_list_spec blocks mid blocks.length h b0.next_block last hc' (by
        have : (h :: tl).length ≤ blocks.length := hlen
        rw [hml] at this
        simp at this
        omega)
    rw [hres]
    simp only
    have hceq : h :: tl = q ++ [p, last] := by
      rw [hml, ← List.cons_append, hq]; simp
    have hp_lt := chain_mem_lt hc p (by rw [hceq]; simp)
    have hl_lt := chain_mem_lt hc last (by rw [hceq]; simp)
    rw [List.getElem?_eq_getElem hp_lt]
    simp only
    rw [List.getElem?_eq_getElem (by simpa using hl_lt)]
    exact ⟨_, _, rfl⟩

theorem deallocate_excessive_memory_total (g L : Nat) : ∀ (fuel : Nat) (fs : File_System)
    (c : List Nat), Chain fs.memory g c → content_size * c.length < 65536 →
    fs.memory_allocator.status.length = fs.memory_allocator.size →
    (∀ i ∈ c.tail, fs.memory_allocator.status[i]? = some USED) → c.length ≤ fuel →
    ∃ fs', File_System.deallocate_excessive_memory g L fuel fs (content_size * c.length)
      = (.ok (), fs')
  | 0, fs, c, hc, _, _, _, hf => by
    have := chain_length_pos hc
    omega
  | fuel + 1, fs, c, hc, h16, hwf, hused, hf => by
    have hpos := chain_length_pos hc
    simp only [File_System.deallocate_excessive_memory]
    split
    · rename_i hcond
      have h2 : 2 ≤ c.length := by
        simp only [content_size] at hcond h16
        omega
      obtain ⟨freed, blocks1, hpop⟩ := erase_from_block_list_total hc h2
      obtain ⟨pre, p, hceq, p1, -⟩ := erase_from_block_list_spec hpop hc
      have hnd := chain_nodup hc
      obtain ⟨tl, htl⟩ := chain_head hc
      have hsplit : pre ++ [p, freed] = (pre ++ [p]) ++ [freed] := by simp
      have htail : ∀ i ∈ (pre ++ [p]).tail ++ [freed], i ∈ c.tail := by
        intro i hi
        rw [hceq, hsplit, List.tail_append_of_ne_nil (by simp)]
        exact hi
      have hfu := hused freed (htail freed (by simp))
      have hf0 : freed ≠ 0 := by
        rw [htl] at hc
        exact chain_tail_ne_zero hc freed (by
          have := htail freed (by simp)
          rw [htl] at this
          exact this)
      have hflt : freed < fs.memory_allocator.status.length := (List.getElem?_eq_some.1 hfu).1
      have hfree : fs.memory_allocator.free freed
          = .ok ⟨fs.memory_allocator.size, min fs.memory_allocator.first_free freed,
              fs.memory_allocator.status.set freed FREE⟩ := by
        unfold Allocator.free
        rw [if_neg (by omega), hfu]
        simp [USED, FREE]
      rw [hpop]
      simp only
      rw [hfree]
      simp only
      have hlen1 : (pre ++ [p]).length + 1 = c.length := by rw [hceq]; simp
      have ha : (content_size * c.length + 65536 - content_size) % 65536
          = content_size * (pre ++ [p]).length := by
        simp only [content_size] at h16 ⊢
        omega
      rw [ha]
      refine deallocate_excessive_memory_total g L fuel _ (pre ++ [p]) p1 ?_ ?_ ?_ (by omega)
      · simp only [content_size] at h16 ⊢
        omega
      · simp [hwf]
      · intro i hi
        have hne : freed ≠ i := by
          intro e
          rw [hceq, hsplit, List.nodup_append] at hnd
          exact hnd.2.2 (List.mem_of_mem_tail hi) (by simp [e])
        simp only
        rw [List.getElem?_set_ne hne]
        exact hused i (htail i (List.mem_append_left _ hi))
    · exact ⟨_, rfl⟩
/-! ### Growing and shrinking a chain: every outcome -/

/-- `allocate_needed_memory` only appends blocks that were marked free, whatever its outcome. -/
theorem allocate_needed_memory_any : ∀ {fuel : Nat} {fs fs' : File_System}
    {r : Except Failure Unit} {c : List Nat} {h L a : Nat},
    File_System.allocate_needed_memory h L fuel fs a = (r, fs') →
    Chain fs.memory h c → fs.memory_allocator.first_free ≤ fs.memory_allocator.size →
    (∀ i ∈ c, ¬ fs.memory_allocator.is_free i) → a < 65536 →
    ∃ new, Chain fs'.memory h (c ++ new) ∧ fs'.memory.length = fs.memory.length ∧
      (∀ i ∈ new, fs.memory_allocator.is_free i ∧ occupied_at fs'.memory i = 0) ∧
      (∀ i, i ∉ new → block_payload fs'.memory i = block_payload fs.memory i ∧
        occupied_at fs'.memory i = occupied_at fs.memory i) ∧
      (∀ i, i ∉ c → i ∉ new → fs'.memory[i]? = fs.memory[i]?) ∧
      (∀ i, i ∉ new → fs'.memory_allocator.status[i]? = fs.memory_allocator.status[i]?) ∧
      (∀ i ∈ new, fs'.memory_allocator.status[i]? = some USED) ∧
      (Sized fs.memory → Sized fs'.memory) ∧
      (r = .ok () → L ≤ (a + content_size * new.length) % 65536)
  | 0, fs, fs', r, c, h, L, a, hal, hc, _, _, ha => by
    have hfs : fs' = fs := by
      simp only [File_System.allocate_needed_memory] at hal
      split at hal <;> (injection hal with _ h2; exact h2.symm)
    subst hfs
    refine ⟨[], by simpa using hc, rfl, by simp, by simp, by simp, by simp, by simp, id, ?_⟩
    intro hr
    subst hr
    simp only [File_System.allocate_needed_memory] at hal
    split at hal
    · simp at hal
    · simp only [List.length_nil, Nat.mul_zero, Nat.add_zero]
      rw [Nat.mod_eq_of_lt ha]
      omega
  | fuel + 1, fs, fs', r, c, h, L, a, hal, hc, hwf, hfree, ha => by
    -- the outcomes that leave the blocks as they are
    have hsame : ∀ {ma : Allocator} {e : Failure}, ma.status = fs.memory_allocator.status →
        (Except.error e, { fs with memory_allocator := ma }) = (r, fs') →
        ∃ new, Chain fs'.memory h (c ++ new) ∧ fs'.memory.length = fs.memory.length ∧
          (∀ i ∈ new, fs.memory_allocator.is_free i ∧ occupied_at fs'.memory i = 0) ∧
          (∀ i, i ∉ new → block_payload fs'.memory i = block_payload fs.memory i ∧
            occupied_at fs'.memory i = occupied_at fs.memory i) ∧
          (∀ i, i ∉ c → i ∉ new → fs'.memory[i]? = fs.memory[i]?) ∧
          (∀ i, i ∉ new → fs'.memory_allocator.status[i]? = fs.memory_allocator.status[i]?) ∧
          (∀ i ∈ new, fs'.memory_allocator.status[i]? = some USED) ∧
          (Sized fs.memory → Sized fs'.memory) ∧
          (r = .ok () → L ≤ (a + content_size * new.length) % 65536) := by
      intro ma e hst heq
      injection heq with h1 h2
      subst h1 h2
      exact ⟨[], by simpa using hc, rfl, by simp, by simp, by simp, by simp [hst], by simp, id,
        by simp⟩
    simp only [File_System.allocate_needed_memory] at hal
    split at hal
    · rename_i hgt
      split at hal
      · exact @hsame fs.memory_allocator _ rfl hal
      · rename_i nb ma hgf
        obtain ⟨g1, g2, g3, g4, g5, -, -⟩ := get_free_index_spec hgf hwf
        split at hal
        · exact hsame g1 hal
        · rename_i hnb
          split at hal
          · exact hsame g1 hal
          · rename_i blocks1 happ
            obtain ⟨hfree_nb, hnb_lt, -⟩ := g5 hnb
            split at hal
            · rename_i e hmark
              exfalso
              unfold Allocator.mark_as_used at hmark
              unfold Allocator.is_free at hfree_nb
              rw [g1, hfree_nb] at hmark
              simp [FREE] at hmark
            · rename_i ma' hmark
              obtain ⟨m1, m2⟩ := mark_as_used_spec hmark
              have hnot : nb ∉ c := fun hmem => hfree nb hmem hfree_nb
              obtain ⟨p1, p2, p3, p4, p5, p6, p7⟩ := append_to_block_list_spec happ hc hnb hnot
              have hstat : ∀ i, ma'.status[i]? =
                  if nb = i then some USED else fs.memory_allocator.status[i]? := by
                intro i
                rw [m1]
                simp only
                rw [List.getElem?_set, g1]
                by_cases e : nb = i
                · subst e
                  have : nb < fs.memory_allocator.status.length := by rw [← g1]; exact m2
                  simp [this]
                · simp [e]
              have hfree1 : ∀ i ∈ c ++ [nb], ¬ Allocator.is_free ma' i := by
                intro i hi
                unfold Allocator.is_free
                rw [hstat]
                by_cases e : nb = i
                · simp [e, USED, FREE]
                · rw [if_neg e]
                  have : i ∈ c := by
                    rcases List.mem_append.1 hi with hi | hi
                    · exact hi
                    · simp at hi; exact absurd hi.symm e
                  exact hfree i this
              have hwf1 : ma'.first_free ≤ ma'.size := by rw [m1]; exact g4
              obtain ⟨new', q1, q2, q5, q6, q7, q8, q9, q12, q13⟩ :=
                @allocate_needed_memory_any fuel
                  { fs with memory_allocator := ma', memory := blocks1 } fs' r _ h L _
                  hal p1 hwf1 hfree1 (Nat.mod_lt _ (by norm_num))
              simp only at q1 q2 q5 q6 q7 q8 q9 q12
              have hnb_new : nb ∉ new' := by
                intro hmem
                have := (q5 nb hmem).1
                unfold Allocator.is_free at this
                rw [hstat] at this
                simp [USED, FREE] at this
              refine ⟨nb :: new', by simpa using q1, by rw [q2, p2], ?_, ?_, ?_, ?_, ?_,
                fun hs => q12 (p7 hs), ?_⟩
              · intro i hi
                rcases List.mem_cons.1 hi with rfl | hi
                · refine ⟨hfree_nb, ?_⟩
                  rw [(q6 i hnb_new).2]
                  simp [occupied_at, p3]
                · refine ⟨?_, (q5 i hi).2⟩
                  have := (q5 i hi).1
                  unfold Allocator.is_free at this ⊢
                  rw [hstat] at this
                  by_cases e : nb = i
                  · subst e; exact absurd hi hnb_new
                  · rwa [if_neg e] at this
              · intro i hi
                have h1 : i ≠ nb := fun e => hi (by simp [e])
                have h2 : i ∉ new' := fun e => hi (List.mem_cons_of_mem _ e)
                exact ⟨by rw [(q6 i h2).1, p4 i h1], by rw [(q6 i h2).2, p5 i h1]⟩
              · intro i hi1 hi
                have h1 : i ≠ nb := fun e => hi (by simp [e])
                have h2 : i ∉ new' := fun e => hi (List.mem_cons_of_mem _ e)
                rw [q7 i (by simp [hi1, h1]) h2, p6 i hi1 h1]
              · intro i hi
                have h1 : nb ≠ i := fun e => hi (by simp [e])
                have h2 : i ∉ new' := fun e => hi (List.mem_cons_of_mem _ e)
                rw [q8 i h2, hstat, if_neg h1]
              · intro i hi
                rcases List.mem_cons.1 hi with rfl | hi
                · rw [q8 i hnb_new, hstat]; simp
                · exact q9 i hi
              · intro hr
                have := q13 hr
                simp only [content_size, List.length_cons] at this ⊢
                omega
    · rename_i hle
      injection hal with h1 h2
      subst h1 h2
      refine ⟨[], by simpa using hc, rfl, by simp, by simp, by simp, by simp, by simp, id, ?_⟩
      intro _
      simp only [List.length_nil, Nat.mul_zero, Nat.add_zero]
      rw [Nat.mod_eq_of_lt ha]
      omega

/-- `deallocate_excessive_memory` only removes blocks from the tail of the chain, whatever
its outcome; when it returns, the blocks left have room for `L` bytes. -/
theorem deallocate_excessive_memory_any : ∀ {fuel : Nat} {fs fs' : File_System}
    {r : Except Failure Unit} {c : List Nat} {g L a : Nat},
    File_System.deallocate_excessive_memory g L fuel fs a = (r, fs') →
    Chain fs.memory g c → a = (content_size * c.length) % 65536 → L ≤ a →
    ∃ cd' rest, c = cd' ++ rest ∧ Chain fs'.memory g cd' ∧
      fs'.memory.length = fs.memory.length ∧
      (∀ i, i ∉ c → fs'.memory[i]? = fs.memory[i]?) ∧
      (∀ i, i ∉ c → fs'.memory_allocator.status[i]? = fs.memory_allocator.status[i]?) ∧
      (Sized fs.memory → Sized fs'.memory) ∧
      (r = .ok () → L ≤ content_size * cd'.length)
  | 0, fs, fs', r, c, g, L, a, hd, hc, ha, hL => by
    have hfs : fs' = fs := by
      simp only [File_System.deallocate_excessive_memory] at hd
      split at hd <;> (injection hd with _ h2; exact h2.symm)
    subst hfs
    refine ⟨c, [], by simp, hc, rfl, fun _ _ => rfl, fun _ _ => rfl, id, fun _ => ?_⟩
    have := Nat.mod_le (content_size * c.length) 65536
    omega
  | fuel + 1, fs, fs', r, c, g, L, a, hd, hc, ha, hL => by
    simp only [File_System.deallocate_excessive_memory] at hd
    split at hd
    · rename_i hcond
      split at hd
      · injection hd with h1 h2
        subst h1 h2
        exact ⟨c, [], by simp, hc, rfl, fun _ _ => rfl, fun _ _ => rfl, id, by simp⟩
      · rename_i freed blocks1 hpop
        obtain ⟨pre, p, hceq, p1, p2, p3, p4, p5, p6, p7⟩ := erase_from_block_list_spec hpop hc
        have hsplit : pre ++ [p, freed] = (pre ++ [p]) ++ [freed] := by simp
        split at hd
        · injection hd with h1 h2
          subst h1 h2
          exact ⟨pre ++ [p], [freed], by rw [hceq, hsplit], p1, p2, p4, fun _ _ => rfl, p7,
            by simp⟩
        · rename_i ma hfree
          obtain ⟨f1, _, _, f4, _⟩ := free_spec hfree
          have hstat : ∀ i, ma.status[i]? =
              if freed = i then some FREE else fs.memory_allocator.status[i]? := by
            intro i
            rw [f1]
            simp only
            by_cases e : freed = i
            · subst e; rw [List.getElem?_set_self f4, if_pos rfl]
            · rw [List.getElem?_set_ne e, if_neg e]
          have hlen1 : (pre ++ [p]).length + 1 = c.length := by rw [hceq]; simp
          obtain ⟨cd', rest, q1, q2, q3, q4, q5, q8, q9⟩ :=
            @deallocate_excessive_memory_any fuel
              { fs with memory_allocator := ma, memory := blocks1 } fs' r (pre ++ [p]) g L _
              hd p1 (by
                subst ha
                simp only [content_size] at hcond ⊢
                omega)
              (by
                have hA : a < 65536 := by rw [ha]; exact Nat.mod_lt _ (by norm_num)
                simp only [content_size] at hcond ⊢
                rcases Nat.lt_or_ge a 50 with h50 | h50
                · have : (a + 65536 - 50) % 65536 = a + 65486 := by omega
                  omega
                · have h1 : (a + 4294967296 - 50) % 4294967296 = a - 50 := by omega
                  have h2 : (a + 65536 - 50) % 65536 = a - 50 := by omega
                  omega)
          simp only at q3 q4 q5 q8
          refine ⟨cd', rest ++ [freed], ?_, q2, by rw [q3, p2], ?_, ?_,
            fun hs => q8 (p7 hs), q9⟩
          · rw [hceq, hsplit, q1, List.append_assoc]
          · intro i hi
            have h1 : i ∉ pre ++ [p] := fun e => hi (by
              rw [hceq, hsplit]; exact List.mem_append_left _ e)
            rw [q4 i h1, p4 i hi]
          · intro i hi
            have h1 : i ∉ pre ++ [p] := fun e => hi (by
              rw [hceq, hsplit]; exact List.mem_append_left _ e)
            have h2 : freed ≠ i := fun e => hi (by rw [hceq, ← e]; simp)
            rw [q5 i h1, hstat, if_neg h2]
    · injection hd with h1 h2
      subst h1 h2
      refine ⟨c, [], by simp, hc, rfl, fun _ _ => rfl, fun _ _ => rfl, id, fun _ => ?_⟩
      have := Nat.mod_le (content_size * c.length) 65536
      omega

/-! ### Which step reports which failure -/

theorem save_file_loop_error : ∀ (content : vec_c) {blocks : mem_v} {mb mi : Nat} {e : Failure},
    Memory_Blocks.save_file_loop blocks mb mi content = .error e → e = .undefined
  | [], _, _, _, _, h => by simp [Memory_Blocks.save_file_loop] at h
  | c :: rest, blocks, mb, mi, e, h => by
    simp only [Memory_Blocks.save_file_loop] at h
    split at h
    · split at h
      · injection h with h; exact h.symm
      · split at h
        · injection h with h; exact h.symm
        · split at h
          · exact save_file_loop_error rest h
          · injection h with h; exact h.symm
    · split at h
      · injection h with h; exact h.symm
      · split at h
        · exact save_file_loop_error rest h
        · injection h with h; exact h.symm

theorem save_file_error {blocks : mem_v} {h : Nat} {content : vec_c} {e : Failure}
    (herr : Memory_Blocks.save_file blocks h content = .error e) : e = .undefined := by
  unfold Memory_Blocks.save_file at herr
  split at herr
  · injection herr with herr; exact herr.symm
  · split at herr
    · rename_i e' hl
      injection herr with herr
      subst herr
      exact save_file_loop_error content hl
    · split at herr
      · injection herr with herr; exact herr.symm
      · simp at herr

theorem last_two_of_list_error {blocks : mem_v} : ∀ {fuel s n : Nat} {e : Failure},
    Memory_Blocks.last_two_of_list blocks fuel s n = .error e → e = .undefined
  | 0, _, _, _, h => by
    simp only [Memory_Blocks.last_two_of_list] at h
    injection h with h; exact h.symm
  | fuel + 1, s, n, e, h => by
    simp only [Memory_Blocks.last_two_of_list] at h
    split at h
    · injection h with h; exact h.symm
    · split at h
      · exact last_two_of_list_error h
      · simp at h

theorem erase_from_block_list_error {blocks : mem_v} {h : Nat} {e : Failure}
    (herr : Memory_Blocks.erase_from_block_list blocks h = .error e) :
    e ≠ .runtime_error "Unable to extend directory; Out of memory" := by
  unfold Memory_Blocks.erase_from_block_list at herr
  split at herr
  · injection herr with herr; subst herr; simp
  · split at herr
    · injection herr with herr; subst herr; simp
    · split at herr
      · rename_i e' hl
        injection herr with herr
        subst herr
        rw [last_two_of_list_error hl]
        simp
      · split at herr
        · injection herr with herr; subst herr; simp
        · split at herr
          · injection herr with herr; subst herr; simp
          · simp at herr

theorem free_error {a : Allocator} {i : Nat} {e : Failure} (herr : a.free i = .error e) :
    e ≠ .runtime_error "Unable to extend directory; Out of memory" := by
  unfold Allocator.free at herr
  split at herr
  · injection herr with herr; subst herr; simp
  · split at herr
    · injection herr with herr; subst herr; simp
    · split at herr
      · injection herr with herr; subst herr; simp
      · simp at herr

theorem deallocate_excessive_memory_error (g L : Nat) : ∀ {fuel : Nat} {fs fs' : File_System}
    {a : Nat} {e : Failure},
    File_System.deallocate_excessive_memory g L fuel fs a = (.error e, fs') →
    e ≠ .runtime_error "Unable to extend directory; Out of memory"
  | 0, fs, fs', a, e, h => by
    simp only [File_System.deallocate_excessive_memory] at h
    split at h
    · injection h with h1 _
      injection h1 with h1
      subst h1
      simp
    · simp at h
  | fuel + 1, fs, fs', a, e, h => by
    simp only [File_System.deallocate_excessive_memory] at h
    split at h
    · split at h
      · rename_i e' hpop
        injection h with h1 _
        injection h1 with h1
        subst h1
        exact erase_from_block_list_error hpop
      · split at h
        · rename_i e' hfree
          injection h with h1 _
          injection h1 with h1
          subst h1
          exact free_error hfree
        · exact deallocate_excessive_memory_error g L h
    · simp at h

theorem chain_payload_of_block_payload {blocks blocks' : mem_v} : ∀ {l : List Nat},
    (∀ i ∈ l, block_payload blocks' i = block_payload blocks i) →
    chain_payload blocks' l = chain_payload blocks l
  | [], _ => rfl
  | x :: l, h => by
    simp only [chain_payload]
    rw [h x (by simp),
      chain_payload_of_block_payload (fun i hi => h i (List.mem_cons_of_mem _ hi))]

/-- A write that ends with the failure `Out of memory` has stopped in
`allocate_needed_memory`. -/
theorem save_content_to_memory_out_of_memory {fs fs' : File_System} {h : Nat} {c : List Nat}
    {content : vec_c} (hc : Chain fs.memory h c)
    (hsave : fs.save_content_to_memory h content
      = (.error (.runtime_error "Unable to extend directory; Out of memory"), fs')) :
    File_System.allocate_needed_memory h (content.length % 65536)
      (fs.memory_allocator.status.length + 1) fs ((content_size * c.length) % 65536)
      = (.error (.runtime_error "Unable to extend directory; Out of memory"), fs') := by
  unfold File_System.save_content_to_memory at hsave
  rw [get_file_size_spec hc] at hsave
  simp only at hsave
  split at hsave
  · rename_i e fs1 hstep
    have h1 : e = .runtime_error "Unable to extend directory; Out of memory" :=
      Except.error.inj (congrArg Prod.fst hsave)
    have h2 : fs1 = fs' := congrArg Prod.snd hsave
    subst h1 h2
    split at hstep
    · exact hstep
    · exact absurd rfl (deallocate_excessive_memory_error _ _ hstep)
  · rename_i fs1 hstep
    split at hsave
    · rename_i e hsf
      have h1 : e = .runtime_error "Unable to extend directory; Out of memory" :=
        Except.error.inj (congrArg Prod.fst hsave)
      subst h1
      have := save_file_error hsf
      simp at this
    · simp at hsave
/-! ### Reshaping a chain has a defined outcome -/

theorem append_to_block_list_total {blocks : mem_v} {c : List Nat} {h nb : Nat}
    (hc : Chain blocks h c) (hnb : nb < blocks.length) :
    ∃ blocks', Memory_Blocks.append_to_block_list blocks h nb = .ok blocks' := by
  obtain ⟨init, last, bl, rfl, hbl, -⟩ := chain_last hc
  have hlen := chain_length_le hc
  unfold Memory_Blocks.append_to_block_list
  rw [last_of_list_spec hc (by simpa using hlen)]
  simp only [hbl]
  rw [List.getElem?_eq_getElem (by simpa using hnb)]
  exact ⟨_, rfl⟩

/-- With more fuel than free slots, `allocate_needed_memory` returns or throws. -/
theorem allocate_needed_memory_defined (h L : Nat) : ∀ (fuel : Nat) (fs : File_System)
    (c : List Nat) (a : Nat), Chain fs.memory h c → fs.memory_allocator.wf →
    fs.memory_allocator.size ≤ fs.memory.length →
    (∀ i ∈ c, ¬ fs.memory_allocator.is_free i) →
    fs.memory_allocator.status.count FREE < fuel →
    (File_System.allocate_needed_memory h L fuel fs a).1 ≠ .error .undefined
  | 0, _, _, _, _, _, _, _, hcount => by omega
  | fuel + 1, fs, c, a, hc, hwf, hsize, hfree, hcount => by
    simp only [File_System.allocate_needed_memory]
    split
    · obtain ⟨a1, ha1⟩ := advance_total (fs.memory_allocator.size - fs.memory_allocator.first_free)
        fs.memory_allocator hwf.2
      have hgf : fs.memory_allocator.get_free_index
          = .ok (if a1.first_free = a1.size then 0 else a1.first_free, a1) := by
        unfold Allocator.get_free_index
        rw [ha1]
      obtain ⟨g1, g2, -, g4, g5, -, -⟩ := get_free_index_spec hgf hwf.1
      rw [hgf]
      simp only
      generalize (if a1.first_free = a1.size then 0 else a1.first_free) = nb at g5 ⊢
      split
      · simp
      · rename_i hnb
        obtain ⟨hfree_nb, hnb_lt, -⟩ := g5 hnb
        have hnot : nb ∉ c := fun hmem => hfree nb hmem hfree_nb
        obtain ⟨blocks1, happ⟩ := append_to_block_list_total hc
          (show nb < fs.memory.length by omega)
        obtain ⟨p1, p2, -⟩ := append_to_block_list_spec happ hc hnb hnot
        have hst : a1.status[nb]? = some FREE := by rw [g1]; exact hfree_nb
        have hnbl : nb < fs.memory_allocator.status.length := (List.getElem?_eq_some.1 hfree_nb).1
        have hmark : a1.mark_as_used nb = .ok { a1 with status := a1.status.set nb USED } := by
          unfold Allocator.mark_as_used
          rw [hst]
          simp [FREE]
        rw [happ]
        simp only
        rw [hmark]
        simp only
        refine allocate_needed_memory_defined h L fuel _ (c ++ [nb]) _ p1 ?_ ?_ ?_ ?_
        · exact ⟨g4, by simp [g1, g2, hwf.2]⟩
        · simp only
          rw [g2, p2]
          exact hsize
        · intro i hi
          unfold Allocator.is_free
          simp only
          rw [g1]
          by_cases e : nb = i
          · subst e
            rw [List.getElem?_set_self hnbl]
            simp [USED, FREE]
          · rw [List.getElem?_set_ne e]
            rcases List.mem_append.1 hi with hi | hi
            · exact hfree i hi
            · simp at hi
              exact absurd hi.symm e
        · simp only
          rw [g1, List.count_set USED FREE _ nb hnbl]
          have hget : fs.memory_allocator.status[nb] = FREE := by
            have := List.getElem?_eq_getElem hnbl
            rw [hfree_nb] at this
            exact (Option.some.inj this).symm
          have hpos : 0 < fs.memory_allocator.status.count FREE := by
            rw [List.count_pos_iff]
            rw [← hget]
            exact List.getElem_mem _
          rw [hget]
          simp only [USED, FREE, beq_self_eq_true, if_true] at hcount hpos ⊢
          rw [if_neg (by decide)]
          omega
    · simp

/-- With at least as much fuel as the chain has blocks, `deallocate_excessive_memory` returns
or throws. -/
theorem deallocate_excessive_memory_defined (g L : Nat) : ∀ (fuel : Nat) (fs : File_System)
    (c : List Nat) (a : Nat), Chain fs.memory g c →
    fs.memory_allocator.status.length = fs.memory_allocator.size → c.length ≤ fuel →
    (File_System.deallocate_excessive_memory g L fuel fs a).1 ≠ .error .undefined
  | 0, fs, c, _, hc, _, hf => by
    have := chain_length_pos hc
    omega
  | fuel + 1, fs, c, a, hc, hwf, hf => by
    simp only [File_System.deallocate_excessive_memory]
    split
    · rcases Nat.lt_or_ge c.length 2 with h1 | h2
      · -- the chain is the head alone: `erase_from_block_list` throws
        obtain ⟨tl, rfl⟩ := chain_head hc
        have htl : tl = [] := List.length_eq_zero.1 (by simp at h1; omega)
        subst htl
        obtain ⟨-, b0, hb0, hn⟩ := chain_cons_iff.1 hc
        have h0 : b0.next_block = 0 := by
          rcases hn with ⟨-, h0⟩ | ⟨-, hc'⟩
          · exact h0
          · simp [Chain] at hc'
        unfold Memory_Blocks.erase_from_block_list
        simp [hb0, h0]
      · obtain ⟨freed, blocks1, hpop⟩ := erase_from_block_list_total hc h2
        obtain ⟨pre, p, hceq, p1, -⟩ := erase_from_block_list_spec hpop hc
        rw [hpop]
        simp only
        have hlen1 : (pre ++ [p]).length + 1 = c.length := by rw [hceq]; simp
        split
        · rename_i e hfree
          simp only
          unfold Allocator.free at hfree
          split at hfree
          · injection hfree with hfree; subst hfree; simp
          · rename_i hcond
            split at hfree
            · rename_i hnone
              rw [List.getElem?_eq_none_iff] at hnone
              omega
            · split at hfree
              · injection hfree with hfree; subst hfree; simp
              · simp at hfree
        · rename_i ma hfree
          obtain ⟨f1, -⟩ := free_spec hfree
          exact deallocate_excessive_memory_defined g L fuel _ (pre ++ [p]) _ p1
            (by rw [f1]; simp [hwf]) (by omega)
    · simp
/-- A payload of exactly 65536 bytes on a chain of one block: the sizes agree modulo
65536, nothing is reshaped, and `save_file` has no result. -/
theorem save_content_to_memory_long {fs : File_System} {h : Nat} {bytes : vec_c}
    (hlen : bytes.length = 65536)
    (hsz : Memory_Blocks.get_file_size fs.memory h = .ok 50) :
    (fs.save_content_to_memory h bytes).1 = .error .undefined := by
  unfold File_System.save_content_to_memory
  rw [hsz, hlen]
  simp only [Nat.mod_self, gt_iff_lt, Nat.not_lt_zero, if_false,
    File_System.deallocate_excessive_memory, content_size]
  unfold Memory_Blocks.save_file
  rw [if_pos (by omega)]
/-! ### Claims C1 to C10 -/

/-- The literal `empty16` is the state the constructor builds from the image written by
`make_empty_file_system(16)`. -/
theorem load_make_empty16 : File_System.load (make_empty_file_system 16) = .ok empty16 := by
  decide!

/-- The literal `empty140` is the state the constructor builds from the image written by
`make_empty_file_system(560)`. -/
theorem load_make_empty140 : File_System.load (make_empty_file_system 560) = .ok empty140 := by
  decide!

theorem deep_walk_0_8 :
    File_System.find_directory_loop empty140 ⟨0, 0, [], []⟩ (List.replicate 8 (bytes_of "d"))
      = (.ok ⟨8, 8, [], []⟩, deep_state 8) := by
  decide!

theorem deep_walk_8_16 :
    File_System.find_directory_loop (deep_state 8) ⟨8, 8, [], []⟩
      (List.replicate 8 (bytes_of "d")) = (.ok ⟨16, 16, [], []⟩, deep_state 16) := by
  decide!

theorem deep_walk_16_24 :
    File_System.find_directory_loop (deep_state 16) ⟨16, 16, [], []⟩
      (List.replicate 8 (bytes_of "d")) = (.ok ⟨24, 24, [], []⟩, deep_state 24) := by
  decide!

theorem deep_walk_24_32 :
    File_System.find_directory_loop (deep_state 24) ⟨24, 24, [], []⟩
      (List.replicate 8 (bytes_of "d")) = (.ok ⟨32, 32, [], []⟩, deep_state 32) := by
  decide!

theorem deep_walk_32_40 :
    File_System.find_directory_loop (deep_state 32) ⟨32, 32, [], []⟩
      (List.replicate 8 (bytes_of "d")) = (.ok ⟨40, 40, [], []⟩, deep_state 40) := by
  decide!

theorem deep_walk_40_48 :
    File_System.find_directory_loop (deep_state 40) ⟨40, 40, [], []⟩
      (List.replicate 8 (bytes_of "d")) = (.ok ⟨48, 48, [], []⟩, deep_state 48) := by
  decide!

theorem deep_walk_48_56 :
    File_System.find_directory_loop (deep_state 48) ⟨48, 48, [], []⟩
      (List.replicate 8 (bytes_of "d")) = (.ok ⟨56, 56, [], []⟩, deep_state 56) := by
  decide!

theorem deep_walk_56_64 :
    File_System.find_directory_loop (deep_state 56) ⟨56, 56, [], []⟩
      (List.replicate 8 (bytes_of "d")) = (.ok ⟨64, 64, [], []⟩, deep_state 64) := by
  decide!

theorem deep_walk_64_72 :
    File_System.find_directory_loop (deep_state 64) ⟨64, 64, [], []⟩
      (List.replicate 8 (bytes_of "d")) = (.ok ⟨72, 72, [], []⟩, deep_state 72) := by
  decide!

theorem deep_walk_72_80 :
    File_System.find_directory_loop (deep_state 72) ⟨72, 72, [], []⟩
      (List.replicate 8 (bytes_of "d")) = (.ok ⟨80, 80, [], []⟩, deep_state 80) := by
  decide!

theorem deep_walk_80_88 :
    File_System.find_directory_loop (deep_state 80) ⟨80, 80, [], []⟩
      (List.replicate 8 (bytes_of "d")) = (.ok ⟨88, 88, [], []⟩, deep_state 88) := by
  decide!

theorem deep_walk_88_96 :
    File_System.find_directory_loop (deep_state 88) ⟨88, 88, [], []⟩
      (List.replicate 8 (bytes_of "d")) = (.ok ⟨96, 96, [], []⟩, deep_state 96) := by
  decide!

theorem deep_walk_96_104 :
    File_System.find_directory_loop (deep_state 96) ⟨96, 96, [], []⟩
      (List.replicate 8 (bytes_of "d")) = (.ok ⟨104, 104, [], []⟩, deep_state 104) := by
  decide!

theorem deep_walk_104_112 :
    File_System.find_directory_loop (deep_state 104) ⟨104, 104, [], []⟩
      (List.replicate 8 (bytes_of "d")) = (.ok ⟨112, 112, [], []⟩, deep_state 112) := by
  decide!

theorem deep_walk_112_120 :
    File_System.find_directory_loop (deep_state 112) ⟨112, 112, [], []⟩
      (List.replicate 8 (bytes_of "d")) = (.ok ⟨120, 120, [], []⟩, deep_state 120) := by
  decide!

theorem deep_walk_120_126 :
    File_System.find_directory_loop (deep_state 120) ⟨120, 120, [], []⟩
      (List.replicate 6 (bytes_of "d")) = (.ok ⟨126, 126, [], []⟩, deep_state 126) := by
  decide!

theorem deep_touch_entry :
    (deep_state 126).add_new_file_to_directory ⟨126, 126, [], []⟩ (bytes_of "f") false
      = (.ok ⟨126, 126, [bytes_of "f"], [127]⟩, deep_added) := by
  decide!

theorem deep_touch_saved :
    deep_added.save_directory_to_memory ⟨126, 126, [bytes_of "f"], [127]⟩
      = (.ok (), image_deep) := by
  decide!

/-- The literal `image_deep` is the state that `touch d/d/.../d/f` (126 segments) leaves
behind on the empty image of 560 bytes. -/
theorem image_deep_reached :
    empty140.add_file deep_path (bytes_of "f") = (.ok (), image_deep) := by
  have hpath : deep_path = List.replicate 8 (bytes_of "d") ++
      (List.replicate 8 (bytes_of "d") ++
      (List.replicate 8 (bytes_of "d") ++
      (List.replicate 8 (bytes_of "d") ++
      (List.replicate 8 (bytes_of "d") ++
      (List.replicate 8 (bytes_of "d") ++
      (List.replicate 8 (bytes_of "d") ++
      (List.replicate 8 (bytes_of "d") ++
      (List.replicate 8 (bytes_of "d") ++
      (List.replicate 8 (bytes_of "d") ++
      (List.replicate 8 (bytes_of "d") ++
      (List.replicate 8 (bytes_of "d") ++
      (List.replicate 8 (bytes_of "d") ++
      (List.replicate 8 (bytes_of "d") ++
      (List.replicate 8 (bytes_of "d") ++
      (List.replicate 6 (bytes_of "d")))))))))))))))) := by
    simp only [deep_path, List.append_replicate_replicate]
  have hroot : Memory_Blocks.full_file_content empty140.memory 0 = .ok [] := by decide!
  have hmk : Directory.make 0 0 [] = .ok ⟨0, 0, [], []⟩ := by decide!
  rw [hpath]
  exact add_file_of_steps hroot hmk
    (find_directory_loop_chain deep_walk_0_8
      (find_directory_loop_chain deep_walk_8_16
      (find_directory_loop_chain deep_walk_16_24
      (find_directory_loop_chain deep_walk_24_32
      (find_directory_loop_chain deep_walk_32_40
      (find_directory_loop_chain deep_walk_40_48
      (find_directory_loop_chain deep_walk_48_56
      (find_directory_loop_chain deep_walk_56_64
      (find_directory_loop_chain deep_walk_64_72
      (find_directory_loop_chain deep_walk_72_80
      (find_directory_loop_chain deep_walk_80_88
      (find_directory_loop_chain deep_walk_88_96
      (find_directory_loop_chain deep_walk_96_104
      (find_directory_loop_chain deep_walk_104_112
      (find_directory_loop_chain deep_walk_112_120 deep_walk_120_126)))))))))))))))
    deep_touch_entry deep_touch_saved

/-- C1 (evaluation at the failing input).  `image_ghost_file` is reached from the empty
image of 16 bytes by `touch name47; touch b; erase b` (all three return).  `erase b` wrote
back a root payload of exactly 50 bytes and left the record of `b` in the second block of
the root, so `b` still resolves: to inode 2, a regular file whose chain is block 2 alone,
with the empty payload; inode slot 2 and block 2 are free again.  `write_to_file([], b, m)`
with 60 bytes returns, but `get_file_content([], b)` afterwards throws instead of returning
`m`: the allocator handed out block 2, the head of the file itself, as its second block,
and `save_file` walked on into block 0, so the root now holds one entry with an 11-byte
name. -/
theorem c1_write_after_erase_not_readable :
    (empty16.add_file [] name47).1 = .ok () ∧
    ((empty16.add_file [] name47).2.add_file [] (bytes_of "b")).1 = .ok () ∧
    image_dir54.erase [] (bytes_of "b") = (.ok (), image_ghost_file) ∧
    image_ghost_file.find_directory []
      = (.ok ⟨0, 0, [name47, bytes_of "b"], [1, 2]⟩, image_ghost_file) ∧
    image_ghost_file.inodes[2]? = some ⟨0, 0, 2⟩ ∧
    Memory_Blocks.chain_of image_ghost_file.memory 2 = some [2] ∧
    image_ghost_file.memory_allocator.status = [48, 48, 49, 48] ∧
    (image_ghost_file.get_file_content [] (bytes_of "b")).1 = .ok [] ∧
    (image_ghost_file.write_to_file [] (bytes_of "b") (List.replicate 60 120)).1 = .ok () ∧
    ((image_ghost_file.write_to_file [] (bytes_of "b") (List.replicate 60 120)).2.find_directory
      []).1 = .ok ⟨0, 0, [List.replicate 10 120 ++ bytes_of "b"], [2]⟩ ∧
    ((image_ghost_file.write_to_file [] (bytes_of "b") (List.replicate 60 120)).2.get_file_content
      [] (bytes_of "b")).1 = .error (.runtime_error "Attempt to get directory") := by
  decide!

/-- Write appends in a state whose chains are consistent with the block allocator.  Let
`path` resolve to the directory `dir` without creating
anything (`find_directory` returns the state unchanged), let `name` be an entry of `dir`
whose inode `f` is a regular file with head block `h`, let the walk from `h` end after the
blocks `c` with every block before the last one full, and let `old` be the payload read from
the chain.  The state satisfies the invariants of the data model that concern these chains:
blocks carry 50 payload bytes, the allocator hints do not pass `size`, no block of the file
is marked free, and no block of a directory chain belongs to the file or is marked free.
Then for every `m` with `len(old) + len(m) < 65536`: if `write_to_file(path, name, m)`
succeeds, `get_file_content(path, name)` on the resulting state returns `old ++ m`. -/
theorem write_appends_of_used_chains (s s2 : File_System) (path : vec_s) (name m old : List Nat)
    (dir : Directory) (refcount h : Nat) (c : List Nat)
    (hia : s.inodes_allocator.wf) (hma : s.memory_allocator.wf) (hs : Sized s.memory)
    (hres : s.find_directory path = (.ok dir, s))
    (hf0 : dir.get_file_inode name ≠ 0)
    (hnode : s.inodes[dir.get_file_inode name]? = some ⟨0, refcount, h⟩)
    (hchain : Memory_Blocks.chain_of s.memory h = some c)
    (hfull : ∀ i ∈ c.dropLast, occupied_at s.memory i = content_size)
    (hold : Memory_Blocks.full_file_content s.memory h = .ok old)
    (hlen : old.length + m.length < 65536)
    (hused : ∀ i ∈ c, ¬ s.memory_allocator.is_free i)
    (hdirs : ∀ g ∈ directory_heads s.inodes, ∀ b ∈ chain_blocks s.memory g,
      b ∉ c ∧ ¬ s.memory_allocator.is_free b)
    (hw : s.write_to_file path name m = (.ok (), s2)) :
    s2.get_file_content path name = (.ok (old ++ m), s2) := by
  have hc : Chain s.memory h c := chain_of_iff.1 hchain
  obtain ⟨init, last, bl, rfl, hbl, -⟩ := chain_last hc
  obtain ⟨c', hc', hocc, hold'⟩ := full_file_content_inv hold
  have := chain_unique hc hc'
  subst this
  -- the payload has 50 bytes per full block plus the bytes of the last block
  have hinit : (init ++ [last]).dropLast = init := by simp
  rw [hinit] at hfull
  have hbllen : bl.content.length = content_size := hs bl (List.mem_iff_getElem?.2 ⟨last, hbl⟩)
  have ho : occupied_at s.memory last ≤ content_size := by
    have := hocc last (by simp) bl hbl
    rw [hbllen] at this
    simpa [occupied_at, hbl] using this
  have holdlen : old.length = content_size * init.length + occupied_at s.memory last := by
    rw [hold', chain_payload_append, List.length_append,
      chain_payload_length_full hs
        (fun i hi => chain_mem_lt hc i (List.mem_append_left _ hi)) hfull]
    simp only [chain_payload, block_payload, hbl, occupied_at, List.append_nil, List.length_take]
    have := hocc last (by simp) bl hbl
    omega
  -- the write
  have hgf : s.get_file dir name = .ok ⟨h, old⟩ := by
    unfold File_System.get_file Inodes.get_memory_block Inodes.is_inode_directory
    simp [hnode, hf0, hold]
  unfold File_System.write_to_file at hw
  rw [hres] at hw
  simp only [hgf, File_System.save_file_to_memory, File.add_to_file] at hw
  obtain ⟨w1, w2, -, -, -, w6⟩ :=
    save_content_grow_spec hw hc hs hma.1 hused hfull rfl ho (by simpa using hlen)
      (by rw [List.length_append, holdlen]; omega)
  -- the read
  have hag : ∀ g ∈ directory_heads s.inodes, ∀ cg, Chain s.memory g cg →
      ∀ b ∈ cg, s2.memory[b]? = s.memory[b]? := by
    intro g hg cg hcg b hb
    have hcb : chain_blocks s.memory g = cg := by
      unfold chain_blocks
      rw [chain_of_iff.2 hcg]
      rfl
    obtain ⟨h1, h2⟩ := hdirs g hg b (by rw [hcb]; exact hb)
    exact w6 b h1 h2
  unfold File_System.get_file_content
  rw [find_directory_frame hres hia.1 w2 hag]
  unfold Inodes.get_memory_block Inodes.is_inode_directory
  simp [w2, hnode, w1]

/-- An instance of `write_appends_of_used_chains`: the scenario "touch a; write hello; read" on the empty image of 16 bytes. -/
theorem write_appends_of_used_chains_example :
    image_touch_a.write_to_file [] (bytes_of "a") (bytes_of "hello") = (.ok (), image_hello) ∧
    image_hello.get_file_content [] (bytes_of "a") = (.ok ([] ++ bytes_of "hello"), image_hello) :=
  ⟨by decide!,
   write_appends_of_used_chains image_touch_a image_hello [] (bytes_of "a") (bytes_of "hello") []
    ⟨0, 0, [bytes_of "a"], [1]⟩ 1 1 [1] (by decide!) (by decide!) (by decide!) (by decide!)
    (by decide!) (by decide!) (by decide!) (by decide!) (by decide!) (by decide!) (by decide!)
    (by decide!) (by decide!)⟩

/-- C2 (evaluation at the failing input).  In `image_file51` the file `f` holds 51 bytes.
`cut([], f, 1)` succeeds, but `get_file_content([], f)` still returns all 51 bytes instead
of the first 50: the loop of `deallocate_excessive_memory` stops at
`content_size = actual_size - 50`, and `save_file` leaves the second block with its old
`occupied = 1`. -/
theorem c2_cut_one_byte_keeps_payload :
    (image_file51.get_file_content [] (bytes_of "f")).1 = .ok (List.replicate 51 65) ∧
    (image_file51.cut [] (bytes_of "f") 1).1 = .ok () ∧
    ((image_file51.cut [] (bytes_of "f") 1).2.get_file_content [] (bytes_of "f")).1
      = .ok (List.replicate 51 65) := by
  decide!

/-- C3 (evaluation at the failing input).  Decoding the encoding of the single entry
`("a", 256)` yields the entry `("a", 0)`: the inode index is not preserved. -/
theorem c3_roundtrip_loses_inode_256 :
    Directory.make 0 0 (Directory.get_directory_content ⟨0, 0, [bytes_of "a"], [256]⟩)
      = .ok ⟨0, 0, [bytes_of "a"], [0]⟩ := by
  decide!

/-- C4 (evaluation at the failing input).  The record written for the entry `("a", 256)` is
`'a', NUL, 0, 0`; little-endian would be `'a', NUL, 0, 1`.  For `("a", 128)` the record is
`'a', NUL, 128, 255` instead of `'a', NUL, 128, 0`. -/
theorem c4_encoding_high_byte :
    Directory.get_directory_content ⟨0, 0, [bytes_of "a"], [256]⟩ = [97, 0, 0, 0] ∧
    Directory.get_directory_content ⟨0, 0, [bytes_of "a"], [128]⟩ = [97, 0, 128, 255] := by
  decide!

/-- C5 (evaluation at the failing input).  In `image_dir54` the root holds the entries
`name47 → 1` and `b → 2`.  `erase([], b)` succeeds and frees inode 2, but the directory
re-read from storage still has both entries and `get_file_inode(b)` still returns 2: the
new payload has 50 bytes, the chain keeps its second block, and that block keeps
`occupied = 4` with the old record of `b`. -/
theorem c5_erased_entry_still_listed :
    (image_dir54.find_directory []).1 = .ok ⟨0, 0, [name47, bytes_of "b"], [1, 2]⟩ ∧
    (image_dir54.erase [] (bytes_of "b")).1 = .ok () ∧
    ((image_dir54.erase [] (bytes_of "b")).2.find_directory []).1
      = .ok ⟨0, 0, [name47, bytes_of "b"], [1, 2]⟩ ∧
    (image_dir54.erase [] (bytes_of "b")).2.inodes_allocator.status = [48, 48, 49, 49] := by
  decide!

/-- C7 (evaluation at the failing input).  In `image_file51` the chain of head block 1 is
`1 → 2` (capacity 100).  `save_content_to_memory(1, content)` with 50 bytes of content
succeeds and leaves the chain `1 → 2`, i.e. `K = 2` blocks for `L = 50`, so `(K-1)*50 < L`
fails; the second block keeps `occupied = 1`. -/
theorem c7_two_blocks_for_fifty_bytes :
    Memory_Blocks.chain_of image_file51.memory 1 = some [1, 2] ∧
    (image_file51.save_content_to_memory 1 (List.replicate 50 65)).1 = .ok () ∧
    Memory_Blocks.chain_of
      (image_file51.save_content_to_memory 1 (List.replicate 50 65)).2.memory 1 = some [1, 2] ∧
    occupied_at (image_file51.save_content_to_memory 1 (List.replicate 50 65)).2.memory 2 = 1 := by
  decide!

/-- C8 (evaluation at the failing input).  In `image_deep` the lowest free inode index is
128.  `find_directory(["x"])` succeeds and creates the directory `x` with inode 128, but the
record it stores in the root is `'x', NUL, 0x80, 0xFF`: the root re-read from storage lists
`x` with inode 65408, there is no such inode, and a second `find_directory(["x"])` has no
defined result. -/
theorem c8_created_directory_not_reachable :
    (image_deep.find_directory [bytes_of "x"]).1 = .ok ⟨128, 128, [], []⟩ ∧
    ((image_deep.find_directory [bytes_of "x"]).2.find_directory []).1
      = .ok ⟨0, 0, [bytes_of "d", bytes_of "x"], [1, 65408]⟩ ∧
    Inodes.is_inode_directory (image_deep.find_directory [bytes_of "x"]).2.inodes 65408
      = .error .undefined ∧
    ((image_deep.find_directory [bytes_of "x"]).2.find_directory [bytes_of "x"]).1
      = .error .undefined := by
  decide!

/-- C9 (evaluation at the failing input).  In `image_deep` every block marked free is
zeroed and the lowest free inode index is 128.  `add_file([], "a")` succeeds and creates
inode 128, but the root re-read from storage lists `a` with inode 65408, and
`get_file_content([], "a")` has no defined result instead of returning the empty
sequence. -/
theorem c9_touched_file_not_readable :
    (image_deep.add_file [] (bytes_of "a")).1 = .ok () ∧
    (image_deep.add_file [] (bytes_of "a")).2.inodes[128]? = some ⟨0, 1, 128⟩ ∧
    ((image_deep.add_file [] (bytes_of "a")).2.find_directory []).1
      = .ok ⟨0, 0, [bytes_of "d", bytes_of "a"], [1, 65408]⟩ ∧
    ((image_deep.add_file [] (bytes_of "a")).2.get_file_content [] (bytes_of "a")).1
      = .error .undefined := by
  decide!

/-- C10 (evaluation at the failing input).  In `image_one_file` the root already has the
name `f`.  `add_file([], f)` and `mkdir([], f)` both fail with "File already exists", but
each leaves inode slot 2 and block 2 marked used and inode 2 initialised. -/
theorem c10_duplicate_create_consumes_slots :
    image_one_file.inodes_allocator.status = [48, 48, 49, 49] ∧
    image_one_file.memory_allocator.status = [48, 48, 49, 49] ∧
    (image_one_file.add_file [] (bytes_of "f")).1 = .error (.runtime_error "File already exists") ∧
    (image_one_file.add_file [] (bytes_of "f")).2.inodes_allocator.status = [48, 48, 48, 49] ∧
    (image_one_file.add_file [] (bytes_of "f")).2.memory_allocator.status = [48, 48, 48, 49] ∧
    (image_one_file.add_file [] (bytes_of "f")).2.inodes ≠ image_one_file.inodes ∧
    (image_one_file.mkdir [] (bytes_of "f")).1 = .error (.runtime_error "File already exists") ∧
    (image_one_file.mkdir [] (bytes_of "f")).2.inodes_allocator.status = [48, 48, 48, 49] ∧
    (image_one_file.mkdir [] (bytes_of "f")).2.memory_allocator.status = [48, 48, 48, 49] := by
  decide!

/-! ### Claims C11 to C20 -/

/-- The literal `empty32` is the state the constructor builds from the image written by
`make_empty_file_system(32)`. -/
theorem load_make_empty32 : File_System.load (make_empty_file_system 32) = .ok empty32 := by
  decide!

/-- C11 (counterexample).  On the empty image of 16 bytes, with the parent path `d` that
does not exist, `get_file_content`, `cat` and `info` all fail, and each of them leaves a
changed state behind: inode slot 1 and block 1 are marked used, inode 1 is a directory, the
root inode counts one entry, and block 0 holds the record of `d`. -/
theorem c11_read_creates_directory :
    (empty16.get_file_content [bytes_of "d"] (bytes_of "x")).1
      = .error (.runtime_error "Attempt to get directory") ∧
    (empty16.cat [bytes_of "d"] (bytes_of "x")).1
      = .error (.runtime_error "File does not exist. Unable to perform cat operation") ∧
    (empty16.info [bytes_of "d"] (bytes_of "x")).1
      = .error (.runtime_error "File or directory does not exist.") ∧
    empty16.inodes_allocator.status = [48, 49, 49, 49] ∧
    (empty16.get_file_content [bytes_of "d"] (bytes_of "x")).2.inodes_allocator.status
      = [48, 48, 49, 49] ∧
    (empty16.get_file_content [bytes_of "d"] (bytes_of "x")).2.memory_allocator.status
      = [48, 48, 49, 49] ∧
    (empty16.get_file_content [bytes_of "d"] (bytes_of "x")).2.inodes
      = [⟨1, 1, 0⟩, ⟨1, 0, 1⟩, ⟨0, 0, 0⟩, ⟨0, 0, 0⟩] ∧
    (empty16.get_file_content [bytes_of "d"] (bytes_of "x")).2.memory[0]?
      = some ⟨0, 4, [100, 0, 1, 0] ++ List.replicate 46 0⟩ ∧
    (empty16.cat [bytes_of "d"] (bytes_of "x")).2
      = (empty16.get_file_content [bytes_of "d"] (bytes_of "x")).2 ∧
    (empty16.info [bytes_of "d"] (bytes_of "x")).2
      = (empty16.get_file_content [bytes_of "d"] (bytes_of "x")).2 := by
  decide!

/-- C11 (amended).  `cat`, `info` and `get_file_content` leave the state exactly as the
resolution of the parent path by `find_directory` leaves it, whether they succeed or fail:
they create the missing directories of the parent path like the write-side operations, and
they change nothing when every segment of the parent path is found and entered (`Walk`),
since `find_directory` then returns the state as it was. -/
theorem c11_read_only_up_to_resolution (fs : File_System) (path : vec_s) (name : List Nat) :
    (fs.cat path name).2 = (fs.find_directory path).2 ∧
    (fs.info path name).2 = (fs.find_directory path).2 ∧
    (fs.get_file_content path name).2 = (fs.find_directory path).2 ∧
    (∀ content root dir, Memory_Blocks.full_file_content fs.memory 0 = .ok content →
      Directory.make 0 0 content = .ok root → Walk fs root path dir →
      fs.find_directory path = (.ok dir, fs)) := by
  refine ⟨?_, ?_, ?_, ?_⟩
  · unfold File_System.cat
    split
    · rename_i h
      rw [h]
    · rename_i h
      rw [h]
      split
      · rfl
      · split
        · rfl
        · split
          · rfl
          · split
            · rfl
            · split
              · rfl
              · rfl
            · rfl
  · unfold File_System.info
    split
    · rename_i h
      rw [h]
    · rename_i h
      rw [h]
      split
      · rfl
      · split
        · rfl
        · split
          · rfl
          · split
            · rfl
            · split
              · rfl
              · split
                · rfl
                · rfl
            · rfl
  · unfold File_System.get_file_content
    split
    · rename_i h
      rw [h]
    · rename_i h
      rw [h]
      split
      · rfl
      · split
        · rfl
        · split
          · rfl
          · rfl
          · split
            · rfl
            · rfl
  · intro content root dir h1 h2 hw
    unfold File_System.find_directory
    rw [h1]
    simp only [h2]
    exact find_directory_loop_of_walk path hw

/-- C12 (evaluation at the failing input).  The scenario of the claim behaves as claimed:
after `mkdir d; touch d/x` the call `erase([], d)` throws, and after `erase(["d"], x)` it
returns.  But in `image_stale_dir`, reached from the empty image of 32 bytes by
`mkdir d; touch d/name47; touch d/b; erase d/b; erase d/name47` (all five return), the
directory `d` still has the payload `b NUL 3 0`, i.e. the entry `b`, while its refcount is
0, and `erase([], d)` returns instead of throwing. -/
theorem c12_erase_directory_with_payload :
    (image_dir_file.erase [] (bytes_of "d")).1
      = .error (.runtime_error "Unable to erase directory. Directory is not empty") ∧
    ((image_dir_file.erase [bytes_of "d"] (bytes_of "x")).2.erase [] (bytes_of "d")).1
      = .ok () ∧
    empty32.mkdir [] (bytes_of "d") = (.ok (), stale_1) ∧
    stale_1.add_file [bytes_of "d"] name47 = (.ok (), stale_2) ∧
    stale_2.add_file [bytes_of "d"] (bytes_of "b") = (.ok (), stale_3) ∧
    stale_3.erase [bytes_of "d"] (bytes_of "b") = (.ok (), stale_4) ∧
    stale_4.erase [bytes_of "d"] name47 = (.ok (), image_stale_dir) ∧
    image_stale_dir.find_directory [bytes_of "d"]
      = (.ok ⟨1, 1, [bytes_of "b"], [3]⟩, image_stale_dir) ∧
    Memory_Blocks.full_file_content image_stale_dir.memory 1 = .ok [98, 0, 3, 0] ∧
    image_stale_dir.inodes[1]? = some ⟨1, 0, 1⟩ ∧
    (image_stale_dir.erase [] (bytes_of "d")).1 = .ok () := by
  decide!

/-- C13 (evaluation at the failing input).  `image_ghost_links` is reached from the empty
image of 16 bytes by `touch name47; touch b; erase b; link b name44; link b c` (all five
return).  `erase b` left the record of `b` in the root and freed block 2, the head block of
`b`; the first `link` made the root grow into that block.  In `image_ghost_links` inode 2
is a regular file with refcount 2 and head block 2, its chain is block 2 alone, marked used,
and `get_file_content` through `c` returns five bytes.  `erase([], name44)` returns and
leaves refcount 1 as claimed, but it frees block 2, the block of the file's chain, and
`get_file_content` through the other name `c` returns the empty sequence. -/
theorem c13_erase_link_frees_file_block :
    (empty16.add_file [] name47).1 = .ok () ∧
    ((empty16.add_file [] name47).2.add_file [] (bytes_of "b")).1 = .ok () ∧
    image_dir54.erase [] (bytes_of "b") = (.ok (), image_ghost_file) ∧
    image_ghost_file.link [] (bytes_of "b") [] name44 = (.ok (), ghost_links_1) ∧
    ghost_links_1.link [] (bytes_of "b") [] (bytes_of "c") = (.ok (), image_ghost_links) ∧
    (image_ghost_links.find_directory []).1
      = .ok ⟨0, 0, [name47, bytes_of "b", name44, bytes_of "c"], [1, 2, 2, 2]⟩ ∧
    image_ghost_links.inodes[2]? = some ⟨0, 2, 2⟩ ∧
    Memory_Blocks.chain_of image_ghost_links.memory 2 = some [2] ∧
    image_ghost_links.memory_allocator.status = [48, 48, 48, 48] ∧
    (image_ghost_links.get_file_content [] (bytes_of "c")).1 = .ok [0, 99, 0, 2, 0] ∧
    (image_ghost_links.erase [] name44).1 = .ok () ∧
    (image_ghost_links.erase [] name44).2.inodes[2]? = some ⟨0, 1, 2⟩ ∧
    (image_ghost_links.erase [] name44).2.memory_allocator.status = [48, 48, 49, 48] ∧
    ((image_ghost_links.erase [] name44).2.find_directory []).1
      = .ok ⟨0, 0, [name47, bytes_of "b", bytes_of "c"], [1, 2, 2]⟩ ∧
    ((image_ghost_links.erase [] name44).2.get_file_content [] (bytes_of "c")).1 = .ok [] := by
  decide!

/-- C14 (evaluation at the failing input).  `image_ghost_dir` is reached from the empty
image of 16 bytes by `touch name47; mkdir d; erase d` (all three return).  `erase d` left
the record of `d` in the root and freed inode slot 2 and block 2, so both parent paths `[]`
and `[d]` still resolve, `name47` is a regular file with refcount 1 and `d` has refcount 0.
`link([], name47, [d], name50)` returns and increments both refcounts, but the payload of
`d` needs a second block, the allocator hands out block 2, the head of `d` itself, and
`save_file` walks on into block 0: afterwards the chain of `d` holds the 50 bytes of the
name without the inode, the root lists the entries `"" → 1` and `d → 2`, and
`get_file_content([], name47)` throws. -/
theorem c14_link_into_erased_directory :
    (empty16.add_file [] name47).1 = .ok () ∧
    ((empty16.add_file [] name47).2.mkdir [] (bytes_of "d")).1 = .ok () ∧
    ((empty16.add_file [] name47).2.mkdir [] (bytes_of "d")).2.erase [] (bytes_of "d")
      = (.ok (), image_ghost_dir) ∧
    (image_ghost_dir.find_directory []).1 = .ok ⟨0, 0, [name47, bytes_of "d"], [1, 2]⟩ ∧
    image_ghost_dir.find_directory [bytes_of "d"] = (.ok ⟨2, 2, [], []⟩, image_ghost_dir) ∧
    image_ghost_dir.inodes[1]? = some ⟨0, 1, 1⟩ ∧
    image_ghost_dir.inodes[2]? = some ⟨1, 0, 2⟩ ∧
    image_ghost_dir.memory_allocator.status = [48, 48, 49, 48] ∧
    (image_ghost_dir.get_file_content [] name47).1 = .ok [] ∧
    (image_ghost_dir.link [] name47 [bytes_of "d"] name50).1 = .ok () ∧
    (image_ghost_dir.link [] name47 [bytes_of "d"] name50).2.inodes[1]? = some ⟨0, 2, 1⟩ ∧
    (image_ghost_dir.link [] name47 [bytes_of "d"] name50).2.inodes[2]? = some ⟨1, 1, 2⟩ ∧
    Memory_Blocks.full_file_content
      (image_ghost_dir.link [] name47 [bytes_of "d"] name50).2.memory 2 = .ok name50 ∧
    ((image_ghost_dir.link [] name47 [bytes_of "d"] name50).2.find_directory []).1
      = .ok ⟨0, 0, [[], bytes_of "d"], [1, 2]⟩ ∧
    ((image_ghost_dir.link [] name47 [bytes_of "d"] name50).2.get_file_content [] name47).1
      = .error (.runtime_error "Attempt to get directory") := by
  decide!

/-- The postcondition of `link` in a state whose chains are consistent with the block
allocator.  Let both parent paths resolve without creating
anything, let `file` refer in the source directory to the inode `i`, a regular file with
refcount `r < 255` and head block `h`, and let the inode of the destination directory `ddst`
have a refcount below 255.  The state satisfies the invariants of the data model that
concern the chains involved: the allocators keep their class invariant, blocks carry 50
payload bytes, the chain `cd` of `ddst` ends, is full up to its last block and has no block
marked free, the chains of the other directories and the chain `c` of the file share no
block with `cd` and have no block marked free; the inode indices recorded in `ddst` and `i`
are stored faithfully by the directory encoder, the new name has no NUL byte and the new
payload is shorter than 65536 bytes.  If `link` returns, leaving `s2`, then the stored
destination directory is `ddst` with the one entry `link → i` added, the refcounts of `i`
and of `ddst` are each one higher, the inode allocator is unchanged and the chain of `i` is
the same (the link has no inode and no block of its own), and `get_file_content` through
either name returns the payload the file had. -/
theorem link_postcondition_of_used_chains (s s2 : File_System) (f_path l_path : vec_s)
    (file link : List Nat) (dsrc ddst : Directory) (dn : Inode) (r h : Nat)
    (cd c : List Nat) (old : vec_c)
    (hia : s.inodes_allocator.wf) (hma : s.memory_allocator.wf) (hs : Sized s.memory)
    (hsrc : s.find_directory f_path = (.ok dsrc, s))
    (hdst : s.find_directory l_path = (.ok ddst, s))
    (hnode : s.inodes[dsrc.get_file_inode file]? = some ⟨0, r, h⟩) (hr : r < 255)
    (hdnode : s.inodes[ddst.inode_num]? = some dn) (hdir : dn.is_dir ≠ 0)
    (hdr : dn.number < 255)
    (hstable : ∀ j ∈ ddst.inodes, stored_faithfully j)
    (hsti : stored_faithfully (dsrc.get_file_inode file))
    (hnul : 0 ∉ link)
    (hlen : record_bytes ddst.names + link.length + 3 < 65536)
    (hdchain : Memory_Blocks.chain_of s.memory ddst.mem_block = some cd)
    (hfull : ∀ b ∈ cd.dropLast, occupied_at s.memory b = content_size)
    (hused : ∀ b ∈ cd, ¬ s.memory_allocator.is_free b)
    (hdirs : ∀ g ∈ directory_heads s.inodes, g ≠ ddst.mem_block →
      ∀ b ∈ chain_blocks s.memory g, b ∉ cd ∧ ¬ s.memory_allocator.is_free b)
    (hchain : Memory_Blocks.chain_of s.memory h = some c)
    (hfile : ∀ b ∈ c, b ∉ cd ∧ ¬ s.memory_allocator.is_free b)
    (hold : Memory_Blocks.full_file_content s.memory h = .ok old)
    (hlink : s.link f_path file l_path link = (.ok (), s2)) :
    s2.find_directory l_path
      = (.ok { ddst with names := ddst.names ++ [link],
                         inodes := ddst.inodes ++ [dsrc.get_file_inode file] }, s2) ∧
    s2.inodes[dsrc.get_file_inode file]? = some ⟨0, r + 1, h⟩ ∧
    s2.inodes[ddst.inode_num]? = some { dn with number := dn.number + 1 } ∧
    s2.inodes_allocator = s.inodes_allocator ∧
    Memory_Blocks.chain_of s2.memory h = some c ∧
    s2.get_file_content l_path link = (.ok old, s2) ∧
    s2.get_file_content f_path file = (.ok old, s2) := by
  -- the run of `link`
  unfold File_System.link at hlink
  rw [hsrc] at hlink
  simp only at hlink
  rw [hdst] at hlink
  simp only at hlink
  split at hlink
  · simp at hlink
  · rename_i dir2 fs3 hadd
    obtain ⟨hi0, hnot, hdir2, -, dn', sn', a1, a2, a3⟩ := add_link_to_directory_spec hadd
    rw [hdnode] at a1
    injection a1 with a1
    subst a1
    have hne : ddst.inode_num ≠ dsrc.get_file_inode file := by
      intro e
      rw [e, hnode] at hdnode
      injection hdnode with hdnode
      subst hdnode
      exact hdir rfl
    rw [List.getElem?_set_ne hne, hnode] at a2
    injection a2 with a2
    subst a2
    subst a3
    subst hdir2
    -- the old payload of the destination directory
    obtain ⟨content0, hc0, hmk0⟩ := find_directory_result hdst
    obtain ⟨-, -, m3, m4, -⟩ := directory_make_spec hmk0
    obtain ⟨k1, k2, -, -⟩ := read_entries_of_directory_make hmk0
    have hcd : Chain s.memory ddst.mem_block cd := chain_of_iff.1 hdchain
    obtain ⟨init, last, bl, rfl, hbl, -⟩ := chain_last hcd
    have hinit : (init ++ [last]).dropLast = init := by simp
    rw [hinit] at hfull
    obtain ⟨l1, l2⟩ := full_file_content_length hcd hs hfull hc0
    -- the write-back
    unfold File_System.save_directory_to_memory at hlink
    simp only at hlink
    have hclen : (Directory.encode_entries (ddst.names ++ [link])
        (ddst.inodes ++ [dsrc.get_file_inode file])).length
          = record_bytes ddst.names + link.length + 3 := by
      rw [encode_entries_length]
      simp [record_bytes]
      omega
    obtain ⟨w1, w2, w3, -, -, w6⟩ :=
      @save_content_grow_spec _ s2 ddst.mem_block (occupied_at s.memory last) last init _
        hlink hcd hs hma.1 hused hfull rfl l2 (by rw [Directory.get_directory_content, hclen]; exact hlen)
        (by rw [Directory.get_directory_content, hclen, ← l1, ← m3]; omega)
    simp only at w1 w2 w3 w6
    -- the relation between the two states
    have hN : ∀ n ∈ ddst.names ++ [link], 0 ∉ n := by
      intro n hn
      rcases List.mem_append.1 hn with hn | hn
      · exact directory_make_no_nul hmk0 n hn
      · rw [List.mem_singleton.1 hn]
        exact hnul
    have hI : ∀ j ∈ ddst.inodes ++ [dsrc.get_file_inode file], stored_faithfully j := by
      intro j hj
      rcases List.mem_append.1 hj with hj | hj
      · exact hstable j hj
      · rw [List.mem_singleton.1 hj]
        exact hsti
    have hrw : Directory_Rewritten s s2 ddst.mem_block ddst.names ddst.inodes
        (ddst.names ++ [link]) (ddst.inodes ++ [dsrc.get_file_inode file]) := by
      refine ⟨?_, ?_, ⟨content0, hc0, k1, k2⟩, ⟨_, w1, ?_, ?_⟩, ?_⟩
      · intro n
        rw [w2]
        by_cases e1 : dsrc.get_file_inode file = n
        · subst e1
          rw [List.getElem?_set_self (by
            rw [List.length_set]; exact (List.getElem?_eq_some.1 hnode).1), hnode]
          rfl
        · rw [List.getElem?_set_ne e1]
          by_cases e2 : ddst.inode_num = n
          · subst e2
            rw [List.getElem?_set_self (List.getElem?_eq_some.1 hdnode).1, hdnode]
            rfl
          · rw [List.getElem?_set_ne e2]
      · intro g hg hgd cg hcg b hb
        have hcb : chain_blocks s.memory g = cg := by
          unfold chain_blocks
          rw [chain_of_iff.2 hcg]
          rfl
        obtain ⟨h1, h2⟩ := hdirs g hg hgd b (by rw [hcb]; exact hb)
        exact w6 b h1 h2
      · rw [Directory.get_directory_content, hclen]
        exact hlen
      · rw [Directory.get_directory_content]
        simp only
        rw [encode_entries_length]
        exact read_entries_encode _ _ _ (by simp [m4]) (record_bytes_ge _) hN hI
      · intro d d' p1 p2 p3 p4 seg hseg
        have e1 : d'.get_file_inode seg
            = ({ d with names := d.names ++ [link],
                        inodes := d.inodes ++ [dsrc.get_file_inode file] } :
                Directory).get_file_inode seg :=
          get_file_inode_congr (by rw [p3, p1]) (by rw [p4, p2]) seg
        rw [e1, get_file_inode_append hseg]
    -- the destination directory read again
    obtain ⟨dd', f1, f2, f3, -, f5⟩ := find_directory_rewritten hrw hdst hia.1
    obtain ⟨-, -, f6, f7⟩ := f5 rfl
    have hdd : dd' = ⟨ddst.inode_num, ddst.mem_block, ddst.names ++ [link],
        ddst.inodes ++ [dsrc.get_file_inode file]⟩ := by
      cases dd'
      simp only at f2 f3 f6 f7
      subst f2 f3 f6 f7
      rfl
    subst hdd
    -- the source directory read again
    obtain ⟨ds', g1, g2⟩ := find_directory_rewritten hrw hsrc hia.1
    have hlook : ds'.get_file_inode file = dsrc.get_file_inode file := by
      by_cases hb : dsrc.mem_block = ddst.mem_block
      · obtain ⟨p1, p2, p3, p4⟩ := g2.2.2.2 hb
        exact hrw.2.2.2.2 dsrc ds' p1 p2 p3 p4 file hi0
      · rw [g2.2.2.1 hb]
    -- the inode table
    have hi2 : s2.inodes[dsrc.get_file_inode file]? = some ⟨0, r + 1, h⟩ := by
      rw [w2, List.getElem?_set_self (by
        rw [List.length_set]; exact (List.getElem?_eq_some.1 hnode).1)]
      simp only [Option.some.injEq, Inode.mk.injEq, true_and, and_true]
      omega
    -- the chain of the file
    have hcf : Chain s.memory h c := chain_of_iff.1 hchain
    have hfr : ∀ b ∈ c, s2.memory[b]? = s.memory[b]? :=
      fun b hb => w6 b (hfile b hb).1 (hfile b hb).2
    have hold2 : Memory_Blocks.full_file_content s2.memory h = .ok old :=
      full_file_content_congr hcf hfr hold
    refine ⟨f1, hi2, ?_, w3, chain_of_iff.2 (chain_congr_eq hcf hfr), ?_, ?_⟩
    · rw [w2, List.getElem?_set_ne (Ne.symm hne),
        List.getElem?_set_self (List.getElem?_eq_some.1 hdnode).1]
      simp only [Option.some.injEq, Inode.mk.injEq, true_and, and_true]
      omega
    · unfold File_System.get_file_content
      rw [f1]
      simp only
      rw [get_file_inode_new hnot m4]
      unfold Inodes.get_memory_block Inodes.is_inode_directory
      simp [hi2, hold2]
    · unfold File_System.get_file_content
      rw [g1]
      simp only
      rw [hlook]
      unfold Inodes.get_memory_block Inodes.is_inode_directory
      simp [hi2, hold2]

/-- An instance of `link_postcondition_of_used_chains`: `link a b` in the root of
`image_hello`, where `a` is the file with inode 1
and the payload `hello`. -/
theorem link_postcondition_of_used_chains_example :
    image_hello.link [] (bytes_of "a") [] (bytes_of "b") = (.ok (), image_hello_linked) ∧
    image_hello.inodes[1]? = some ⟨0, 1, 1⟩ ∧ image_hello.inodes[0]? = some ⟨1, 1, 0⟩ ∧
    (image_hello_linked.find_directory []
      = (.ok { (⟨0, 0, [bytes_of "a"], [1]⟩ : Directory) with
          names := (⟨0, 0, [bytes_of "a"], [1]⟩ : Directory).names ++ [bytes_of "b"],
          inodes := (⟨0, 0, [bytes_of "a"], [1]⟩ : Directory).inodes ++
            [(⟨0, 0, [bytes_of "a"], [1]⟩ : Directory).get_file_inode (bytes_of "a")] },
        image_hello_linked) ∧
    image_hello_linked.inodes[
        (⟨0, 0, [bytes_of "a"], [1]⟩ : Directory).get_file_inode (bytes_of "a")]?
      = some ⟨0, 1 + 1, 1⟩ ∧
    image_hello_linked.inodes[(⟨0, 0, [bytes_of "a"], [1]⟩ : Directory).inode_num]?
      = some { (⟨1, 1, 0⟩ : Inode) with number := (⟨1, 1, 0⟩ : Inode).number + 1 } ∧
    image_hello_linked.inodes_allocator = image_hello.inodes_allocator ∧
    Memory_Blocks.chain_of image_hello_linked.memory 1 = some [1] ∧
    image_hello_linked.get_file_content [] (bytes_of "b")
      = (.ok (bytes_of "hello"), image_hello_linked) ∧
    image_hello_linked.get_file_content [] (bytes_of "a")
      = (.ok (bytes_of "hello"), image_hello_linked)) :=
  ⟨by decide!, by decide!, by decide!,
   link_postcondition_of_used_chains image_hello image_hello_linked [] [] (bytes_of "a") (bytes_of "b")
    ⟨0, 0, [bytes_of "a"], [1]⟩ ⟨0, 0, [bytes_of "a"], [1]⟩ ⟨1, 1, 0⟩ 1 1 [0] [1]
    (bytes_of "hello") (by decide!) (by decide!) (by decide!) (by decide!) (by decide!)
    (by decide!) (by decide!) (by decide!) (by decide!) (by decide!) (by decide!) (by decide!)
    (by decide!) (by decide!) (by decide!) (by decide!) (by decide!) (by decide!) (by decide!)
    (by decide!) (by decide!) (by decide!)⟩

/-- C15.  `link` rejects bad sources atomically.  Let both parent paths resolve without
creating anything (`find_directory` returns the state as it was).  If `file` is not a name
of the source directory, or the inode it refers to is a directory, then `link` throws ("File
does not exist" when the lookup gives 0, otherwise "Unable to link directory") and leaves the
state exactly as it was: allocators, inode table with all refcounts, and blocks, so also the
stored destination directory. -/
theorem c15_link_rejects_bad_source (s : File_System) (f_path l_path : vec_s)
    (file link : List Nat) (dsrc ddst : Directory)
    (hsrc : s.find_directory f_path = (.ok dsrc, s))
    (hdst : s.find_directory l_path = (.ok ddst, s))
    (hbad : file ∉ dsrc.names ∨
      ∃ node, s.inodes[dsrc.get_file_inode file]? = some node ∧ node.is_dir ≠ 0) :
    s.link f_path file l_path link
      = (.error (.runtime_error (if dsrc.get_file_inode file = 0 then "File does not exist"
          else "Unable to link directory")), s) ∧
    (file ∉ dsrc.names → dsrc.get_file_inode file = 0) := by
  have habs : file ∉ dsrc.names → dsrc.get_file_inode file = 0 := by
    intro h
    unfold Directory.get_file_inode
    exact if_pos (indexOf_of_not_mem h)
  refine ⟨?_, habs⟩
  unfold File_System.link
  rw [hsrc]
  simp only
  rw [hdst]
  simp only
  unfold File_System.add_link_to_directory
  by_cases h0 : dsrc.get_file_inode file = 0
  · rw [if_pos h0, if_pos h0]
  · rw [if_neg h0, if_neg h0]
    rcases hbad with h | ⟨node, hn, hd⟩
    · exact absurd (habs h) h0
    · unfold Inodes.is_inode_directory
      rw [hn]
      have hb : (node.is_dir != 0) = true := by simpa using hd
      simp only [hb]

/-- C15, witness: in `image_one_dir` the root entry `d` is a directory; `link d g` in the
root is rejected. -/
theorem c15_link_rejects_bad_source_witness :
    image_one_dir.find_directory [] = (.ok ⟨0, 0, [bytes_of "d"], [1]⟩, image_one_dir) ∧
    (image_one_dir.link [] (bytes_of "d") [] (bytes_of "g")
      = (.error (.runtime_error
          (if (⟨0, 0, [bytes_of "d"], [1]⟩ : Directory).get_file_inode (bytes_of "d") = 0
            then "File does not exist" else "Unable to link directory")), image_one_dir) ∧
    (bytes_of "d" ∉ (⟨0, 0, [bytes_of "d"], [1]⟩ : Directory).names →
      (⟨0, 0, [bytes_of "d"], [1]⟩ : Directory).get_file_inode (bytes_of "d") = 0)) :=
  ⟨by decide!,
   c15_link_rejects_bad_source image_one_dir [] [] (bytes_of "d") (bytes_of "g")
    ⟨0, 0, [bytes_of "d"], [1]⟩ ⟨0, 0, [bytes_of "d"], [1]⟩ (by decide!) (by decide!)
    (Or.inr ⟨⟨1, 0, 1⟩, by decide!, by decide!⟩)⟩

/-- C16 (counterexample).  (1) On the empty image of 16 bytes `mkdir d` succeeds and takes
inode slot 1; afterwards inode 1 is a directory with refcount 0, not 1, and the refcount of
the root, the parent, went from 0 to 1.  (2) `image_ghost_dir` is reached from the empty
image by `touch name47; mkdir d; erase d`; the root still lists `d → 2`, the path `[d]`
resolves to the directory with inode 2, and inode slot 2 is marked free.  There `touch d/x`
succeeds and takes slot 2, the slot of the parent itself, so the new file's inode ends with
refcount 2, and `mkdir d/x` succeeds and leaves the new directory's inode with refcount 1. -/
theorem c16_new_directory_refcount_zero :
    (empty16.mkdir [] (bytes_of "d") = (.ok (), image_one_dir) ∧
      empty16.inodes_allocator.status = [48, 49, 49, 49] ∧
      image_one_dir.inodes_allocator.status = [48, 48, 49, 49] ∧
      empty16.inodes = [⟨1, 0, 0⟩, ⟨0, 0, 0⟩, ⟨0, 0, 0⟩, ⟨0, 0, 0⟩] ∧
      image_one_dir.inodes = [⟨1, 1, 0⟩, ⟨1, 0, 1⟩, ⟨0, 0, 0⟩, ⟨0, 0, 0⟩] ∧
      (image_one_dir.find_directory []).1 = .ok ⟨0, 0, [bytes_of "d"], [1]⟩) ∧
    ((empty16.add_file [] name47).1 = .ok () ∧
      ((empty16.add_file [] name47).2.mkdir [] (bytes_of "d")).1 = .ok () ∧
      ((empty16.add_file [] name47).2.mkdir [] (bytes_of "d")).2.erase [] (bytes_of "d")
        = (.ok (), image_ghost_dir) ∧
      image_ghost_dir.find_directory [bytes_of "d"] = (.ok ⟨2, 2, [], []⟩, image_ghost_dir) ∧
      image_ghost_dir.inodes_allocator.status = [48, 48, 49, 49] ∧
      image_ghost_dir.inodes = [⟨1, 1, 0⟩, ⟨0, 1, 1⟩, ⟨1, 0, 2⟩, ⟨0, 0, 0⟩] ∧
      (image_ghost_dir.add_file [bytes_of "d"] (bytes_of "x")).1 = .ok () ∧
      (image_ghost_dir.add_file [bytes_of "d"] (bytes_of "x")).2.inodes
        = [⟨1, 1, 0⟩, ⟨0, 1, 1⟩, ⟨0, 2, 2⟩, ⟨0, 0, 0⟩] ∧
      (image_ghost_dir.mkdir [bytes_of "d"] (bytes_of "x")).1 = .ok () ∧
      (image_ghost_dir.mkdir [bytes_of "d"] (bytes_of "x")).2.inodes
        = [⟨1, 1, 0⟩, ⟨0, 1, 1⟩, ⟨1, 1, 2⟩, ⟨0, 0, 0⟩]) := by
  decide!

/-- C16 (amended).  Let the parent path resolve to the directory `dir`, leaving the state
`s1`, in which the inode allocator satisfies its class invariant and the slot of `dir` is
not marked free.  If `add_file` returns, it took the inode slot `i` and the head block `b`
that `get_free_index` gives in `s1` (`i` free in `s1`, used afterwards, different from 0 and
from the inode of `dir`), inode `i` is a file with refcount 1, and the one increment went to
the refcount of the parent `dir`.  If `mkdir` returns, the same holds except that inode `i`
is a directory with refcount 0. -/
theorem c16_new_inode_refcount (s s1 : File_System) (path : vec_s) (name : List Nat)
    (dir : Directory)
    (hres : s.find_directory path = (.ok dir, s1))
    (hwf : s1.inodes_allocator.wf)
    (hused : ¬ s1.inodes_allocator.is_free dir.inode_num) :
    (∀ sf, s.add_file path name = (.ok (), sf) →
      ∃ i ia b ma pn, s1.inodes_allocator.get_free_index = .ok (i, ia) ∧
        s1.memory_allocator.get_free_index = .ok (b, ma) ∧
        i ≠ 0 ∧ i ≠ dir.inode_num ∧ s1.inodes_allocator.is_free i ∧
        ¬ sf.inodes_allocator.is_free i ∧ sf.inodes[i]? = some ⟨0, 1, b⟩ ∧
        s1.inodes[dir.inode_num]? = some pn ∧
        sf.inodes[dir.inode_num]? = some { pn with number := (pn.number + 1) % 256 }) ∧
    (∀ sd, s.mkdir path name = (.ok (), sd) →
      ∃ i ia b ma pn, s1.inodes_allocator.get_free_index = .ok (i, ia) ∧
        s1.memory_allocator.get_free_index = .ok (b, ma) ∧
        i ≠ 0 ∧ i ≠ dir.inode_num ∧ s1.inodes_allocator.is_free i ∧
        ¬ sd.inodes_allocator.is_free i ∧ sd.inodes[i]? = some ⟨1, 0, b⟩ ∧
        s1.inodes[dir.inode_num]? = some pn ∧
        sd.inodes[dir.inode_num]? = some { pn with number := (pn.number + 1) % 256 }) := by
  have key : ∀ (is_dir : Bool) (s' : File_System),
      (match s1.add_new_file_to_directory dir name is_dir with
        | (.error e, fs2) => ((.error e, fs2) : Result Unit)
        | (.ok dir', fs2) => fs2.save_directory_to_memory dir') = (.ok (), s') →
      ∃ i ia b ma pn, s1.inodes_allocator.get_free_index = .ok (i, ia) ∧
        s1.memory_allocator.get_free_index = .ok (b, ma) ∧
        i ≠ 0 ∧ i ≠ dir.inode_num ∧ s1.inodes_allocator.is_free i ∧
        ¬ s'.inodes_allocator.is_free i ∧
        s'.inodes[i]? = some ⟨if is_dir then 1 else 0, if is_dir then 0 else 1, b⟩ ∧
        s1.inodes[dir.inode_num]? = some pn ∧
        s'.inodes[dir.inode_num]? = some { pn with number := (pn.number + 1) % 256 } := by
    intro is_dir s' hrun
    split at hrun
    · simp at hrun
    · rename_i dir' fs2 hadd
      obtain ⟨i, ia, b, ma, node, a1, a2, a3, -, a5, -, a7, a8, -, -, -, -, a13, a14⟩ :=
        add_new_file_to_directory_spec hadd
      obtain ⟨g1, -, -, -, g5, -, -⟩ := get_free_index_spec a1 hwf.1
      have hfree : s1.inodes_allocator.is_free i := (g5 a3).1
      have hne : i ≠ dir.inode_num := fun e => hused (e ▸ hfree)
      have hsv := save_content_to_memory_inodes fs2 dir'.mem_block dir'.get_directory_content
      unfold File_System.save_directory_to_memory at hrun
      rw [hrun] at hsv
      simp only at hsv
      rw [List.getElem?_set_ne hne] at a13
      have hlt : dir.inode_num < s1.inodes.length := (List.getElem?_eq_some.1 a13).1
      refine ⟨i, ia, b, ma, node, a1, a2, a3, hne, hfree, ?_, ?_, a13, ?_⟩
      · rw [hsv.1, a8]
        unfold Allocator.is_free
        simp only
        rw [List.getElem?_set_self a5]
        simp [USED, FREE]
      · rw [hsv.2, a14, List.getElem?_set_ne (Ne.symm hne), List.getElem?_set_self a7]
      · rw [hsv.2, a14, List.getElem?_set_self (by simpa using hlt)]
  constructor
  · intro sf hf
    unfold File_System.add_file at hf
    rw [hres] at hf
    simpa using key false sf hf
  · intro sd hd
    unfold File_System.mkdir at hd
    rw [hres] at hd
    simpa using key true sd hd

/-- C16 (amended), witness: `touch d` and `mkdir d` in the root of the empty image of 16
bytes; both take inode slot 1 and block 1. -/
theorem c16_new_inode_refcount_witness :
    (empty16.add_file [] (bytes_of "d")).1 = .ok () ∧
    (empty16.add_file [] (bytes_of "d")).2.inodes[1]? = some ⟨0, 1, 1⟩ ∧
    empty16.mkdir [] (bytes_of "d") = (.ok (), image_one_dir) ∧
    image_one_dir.inodes[1]? = some ⟨1, 0, 1⟩ ∧
    ((∀ sf, empty16.add_file [] (bytes_of "d") = (.ok (), sf) →
      ∃ i ia b ma pn, empty16.inodes_allocator.get_free_index = .ok (i, ia) ∧
        empty16.memory_allocator.get_free_index = .ok (b, ma) ∧
        i ≠ 0 ∧ i ≠ (⟨0, 0, [], []⟩ : Directory).inode_num ∧
        empty16.inodes_allocator.is_free i ∧
        ¬ sf.inodes_allocator.is_free i ∧ sf.inodes[i]? = some ⟨0, 1, b⟩ ∧
        empty16.inodes[(⟨0, 0, [], []⟩ : Directory).inode_num]? = some pn ∧
        sf.inodes[(⟨0, 0, [], []⟩ : Directory).inode_num]?
          = some { pn with number := (pn.number + 1) % 256 }) ∧
    (∀ sd, empty16.mkdir [] (bytes_of "d") = (.ok (), sd) →
      ∃ i ia b ma pn, empty16.inodes_allocator.get_free_index = .ok (i, ia) ∧
        empty16.memory_allocator.get_free_index = .ok (b, ma) ∧
        i ≠ 0 ∧ i ≠ (⟨0, 0, [], []⟩ : Directory).inode_num ∧
        empty16.inodes_allocator.is_free i ∧
        ¬ sd.inodes_allocator.is_free i ∧ sd.inodes[i]? = some ⟨1, 0, b⟩ ∧
        empty16.inodes[(⟨0, 0, [], []⟩ : Directory).inode_num]? = some pn ∧
        sd.inodes[(⟨0, 0, [], []⟩ : Directory).inode_num]?
          = some { pn with number := (pn.number + 1) % 256 })) :=
  ⟨by decide!, by decide!, by decide!, by decide!,
   c16_new_inode_refcount empty16 empty16 [] (bytes_of "d") ⟨0, 0, [], []⟩
    (by decide!) (by decide!) (by decide!)⟩

/-- C17.  Path traversal through a file fails.  Let the prefix `p` of a path resolve to the
directory `dir`, leaving the state `fs1`, and let the next segment `s` be present in `dir`
with an inode whose `is_dir` is 0.  Then `find_directory` on `p ++ s :: q` throws
"Incorrect path (found file inside specified path)" and leaves the state `fs1`: nothing is
created for `s` or for a segment of `q`.  With that parent path `add_file`, `mkdir`,
`write_to_file`, `cut`, `erase`, `cat`, `info`, `get_file_content` and `link` (as source path,
and as destination path once the source path has resolved) fail in the same way. -/
theorem c17_path_through_file_fails (fs fs1 : File_System) (p q : vec_s) (s : List Nat)
    (dir : Directory) (node : Inode)
    (hp : fs.find_directory p = (.ok dir, fs1))
    (hs : dir.get_file_inode s ≠ 0)
    (hnode : fs1.inodes[dir.get_file_inode s]? = some node) (hfile : node.is_dir = 0) :
    fs.find_directory (p ++ s :: q) = (.error incorrect_path, fs1) ∧
    (∀ name, fs.add_file (p ++ s :: q) name = (.error incorrect_path, fs1)) ∧
    (∀ name, fs.mkdir (p ++ s :: q) name = (.error incorrect_path, fs1)) ∧
    (∀ name m, fs.write_to_file (p ++ s :: q) name m = (.error incorrect_path, fs1)) ∧
    (∀ name n, fs.cut (p ++ s :: q) name n = (.error incorrect_path, fs1)) ∧
    (∀ name, fs.erase (p ++ s :: q) name = (.error incorrect_path, fs1)) ∧
    (∀ name, fs.cat (p ++ s :: q) name = (.error incorrect_path, fs1)) ∧
    (∀ name, fs.info (p ++ s :: q) name = (.error incorrect_path, fs1)) ∧
    (∀ name, fs.get_file_content (p ++ s :: q) name = (.error incorrect_path, fs1)) ∧
    (∀ name l_path l, fs.link (p ++ s :: q) name l_path l = (.error incorrect_path, fs1)) ∧
    (∀ (fs0 : File_System) f_path name l d0, fs0.find_directory f_path = (.ok d0, fs) →
      fs0.link f_path name (p ++ s :: q) l = (.error incorrect_path, fs1)) := by
  have hfd := find_directory_through_file q hp hs hnode hfile
  refine ⟨hfd, ?_, ?_, ?_, ?_, ?_, ?_, ?_, ?_, ?_, ?_⟩
  · intro name
    unfold File_System.add_file
    rw [hfd]
  · intro name
    unfold File_System.mkdir
    rw [hfd]
  · intro name m
    unfold File_System.write_to_file
    rw [hfd]
  · intro name n
    unfold File_System.cut
    rw [hfd]
  · intro name
    unfold File_System.erase
    rw [hfd]
  · intro name
    unfold File_System.cat
    rw [hfd]
  · intro name
    unfold File_System.info
    rw [hfd]
  · intro name
    unfold File_System.get_file_content
    rw [hfd]
  · intro name l_path l
    unfold File_System.link
    rw [hfd]
  · intro fs0 f_path name l d0 h0
    unfold File_System.link
    rw [h0]
    simp only [hfd]

/-- C17, witness: in `image_hello` the root entry `a` is a file; the path is `a/x`. -/
theorem c17_path_through_file_fails_witness :
    image_hello.find_directory [] = (.ok ⟨0, 0, [bytes_of "a"], [1]⟩, image_hello) ∧
    (image_hello.find_directory [bytes_of "a", bytes_of "x"]
        = (.error incorrect_path, image_hello) ∧
      (∀ name, image_hello.add_file [bytes_of "a", bytes_of "x"] name
        = (.error incorrect_path, image_hello)) ∧
      (∀ name, image_hello.mkdir [bytes_of "a", bytes_of "x"] name
        = (.error incorrect_path, image_hello)) ∧
      (∀ name m, image_hello.write_to_file [bytes_of "a", bytes_of "x"] name m
        = (.error incorrect_path, image_hello)) ∧
      (∀ name n, image_hello.cut [bytes_of "a", bytes_of "x"] name n
        = (.error incorrect_path, image_hello)) ∧
      (∀ name, image_hello.erase [bytes_of "a", bytes_of "x"] name
        = (.error incorrect_path, image_hello)) ∧
      (∀ name, image_hello.cat [bytes_of "a", bytes_of "x"] name
        = (.error incorrect_path, image_hello)) ∧
      (∀ name, image_hello.info [bytes_of "a", bytes_of "x"] name
        = (.error incorrect_path, image_hello)) ∧
      (∀ name, image_hello.get_file_content [bytes_of "a", bytes_of "x"] name
        = (.error incorrect_path, image_hello)) ∧
      (∀ name l_path l, image_hello.link [bytes_of "a", bytes_of "x"] name l_path l
        = (.error incorrect_path, image_hello)) ∧
      (∀ (fs0 : File_System) f_path name l d0,
        fs0.find_directory f_path = (.ok d0, image_hello) →
        fs0.link f_path name [bytes_of "a", bytes_of "x"] l
          = (.error incorrect_path, image_hello))) :=
  ⟨by decide!,
   c17_path_through_file_fails image_hello image_hello [] [bytes_of "x"] (bytes_of "a")
    ⟨0, 0, [bytes_of "a"], [1]⟩ ⟨0, 1, 1⟩ (by decide!) (by decide!) (by decide!) (by decide!)⟩

/-- C18.  Lowest free index.  In every allocator state reachable from a loaded image whose
slot 0 is not free by `get_free_index`, `mark_as_used` and `free` calls, the hint
`first_free` is at or before the lowest free slot, and `get_free_index` returns: it changes
no status entry, keeps the hint property, and its value `i` is the smallest index whose
status is free when there is a free slot, and `0` when no slot is free. -/
theorem c18_lowest_free_index (a : Allocator) (hr : a.Reachable) :
    a.hint_ok ∧
    ∃ i a', a.get_free_index = .ok (i, a') ∧ a'.status = a.status ∧ a'.size = a.size ∧
      a'.hint_ok ∧
      ((∃ j, a.is_free j) → a.is_free i ∧ ∀ j, j < i → ¬ a.is_free j) ∧
      ((∀ j, ¬ a.is_free j) → i = 0) := by
  obtain ⟨hwf, hh, h0⟩ := reachable_inv hr
  obtain ⟨i, a', hg, g1, g2, -, g4, g5, g6⟩ := get_free_index_total hwf hh h0
  refine ⟨hh, i, a', hg, g1, g2, g4, ?_, ?_⟩
  · rintro ⟨j, hj⟩
    by_cases hi : i = 0
    · exact absurd hj (g6 hi j)
    · exact g5 hi
  · intro hnone
    by_contra hi
    exact hnone i (g5 hi).1

/-- C18, witness: the inode allocator of the empty image of 16 bytes after slot 1 was handed
out and marked, slot 2 was marked, and slot 1 was freed again. -/
theorem c18_lowest_free_index_witness :
    alloc_0101.Reachable ∧
    (alloc_0101.hint_ok ∧
      ∃ i a', alloc_0101.get_free_index = .ok (i, a') ∧ a'.status = alloc_0101.status ∧
        a'.size = alloc_0101.size ∧ a'.hint_ok ∧
        ((∃ j, alloc_0101.is_free j) →
          alloc_0101.is_free i ∧ ∀ j, j < i → ¬ alloc_0101.is_free j) ∧
        ((∀ j, ¬ alloc_0101.is_free j) → i = 0)) :=
  have hreach : alloc_0101.Reachable :=
    @Allocator.Reachable.free ⟨4, 1, [48, 48, 48, 49]⟩ _ 1
      (@Allocator.Reachable.mark_as_used ⟨4, 1, [48, 48, 49, 49]⟩ _ 2
        (@Allocator.Reachable.mark_as_used ⟨4, 1, [48, 49, 49, 49]⟩ _ 1
          (@Allocator.Reachable.get_free_index ⟨4, 1, [48, 49, 49, 49]⟩ _ 1
            (@Allocator.Reachable.loaded [4, 0, 48, 49, 49, 49] [] _ (by decide!) (by decide!))
            (by decide!))
          (by decide!))
        (by decide!))
      (by decide!)
  ⟨hreach, c18_lowest_free_index _ hreach⟩

/-- C19 (evaluation at the failing input).  Slot 0 of the allocator of a fresh image is
used (`'0'`), yet `mark_as_used(0)` returns normally, and so does `mark_as_used(1)` on a
slot that was marked before: the guard compares the status byte with the number 0, so only
a NUL status byte is rejected. -/
theorem c19_mark_as_used_accepts_used_slot :
    (⟨4, 1, [USED, FREE, FREE, FREE]⟩ : Allocator).mark_as_used 0
      = .ok ⟨4, 1, [USED, FREE, FREE, FREE]⟩ ∧
    ((⟨4, 1, [USED, FREE, FREE, FREE]⟩ : Allocator).mark_as_used 1).bind
      (fun a => a.mark_as_used 1) = .ok ⟨4, 1, [USED, USED, FREE, FREE]⟩ ∧
    (⟨4, 1, [USED, 0, FREE, FREE]⟩ : Allocator).mark_as_used 1
      = .error (.runtime_error "Trying to corrupt used block") := by
  decide!

/-- C20.  The contract of `free`, for an allocator whose status vector has `size` entries
(the class invariant).  `free(i)` throws when `i = 0` or `i ≥ size` and when slot `i` is
free, and in no other case; a throwing call assigns nothing.  Otherwise it returns, slot `i`
is free afterwards, every other slot and `size` are unchanged, and `first_free` is
`min(first_free, i)`.  No returning call changes slot 0. -/
theorem c20_free_contract (a : Allocator) (i : Nat) (hlen : a.status.length = a.size) :
    ((i = 0 ∨ a.size ≤ i) →
      a.free i = .error (.runtime_error "Trying to release unavailable block")) ∧
    (i ≠ 0 → i < a.size → a.is_free i →
      a.free i = .error (.runtime_error "Trying to release free memory block")) ∧
    (i ≠ 0 → i < a.size → ¬ a.is_free i →
      a.free i = .ok ⟨a.size, min a.first_free i, a.status.set i FREE⟩ ∧
        (a.status.set i FREE)[i]? = some FREE ∧
        ∀ j, j ≠ i → (a.status.set i FREE)[j]? = a.status[j]?) ∧
    (∀ a', a.free i = .ok a' → a'.status[0]? = a.status[0]?) := by
  refine ⟨?_, ?_, ?_, ?_⟩
  · intro h
    unfold Allocator.free
    rw [if_pos (by omega)]
  · intro h0 hlt hfree
    unfold Allocator.free
    rw [if_neg (by omega)]
    unfold Allocator.is_free at hfree
    rw [hfree]
    simp
  · intro h0 hlt hfree
    have hex : ∃ c, a.status[i]? = some c := by
      rw [← hlen] at hlt
      exact ⟨_, List.getElem?_eq_getElem hlt⟩
    obtain ⟨c, hc⟩ := hex
    have hne : c ≠ FREE := by
      intro hcf
      apply hfree
      unfold Allocator.is_free
      rw [hc, hcf]
    refine ⟨?_, ?_, ?_⟩
    · unfold Allocator.free
      rw [if_neg (by omega), hc]
      simp [hne]
    · rw [List.getElem?_set_self (by omega)]
    · intro j hj
      rw [List.getElem?_set_ne (Ne.symm hj)]
  · intro a' h
    obtain ⟨e, hi0, -, -, -⟩ := free_spec h
    subst e
    simp only
    rw [List.getElem?_set_ne hi0]

/-- C20, witness: the allocator `size = 4, first_free = 3, "0001"` and index 1. -/
theorem c20_free_contract_witness :
    alloc_0001.status.length = alloc_0001.size ∧
    (((1 = 0 ∨ alloc_0001.size ≤ 1) →
      alloc_0001.free 1 = .error (.runtime_error "Trying to release unavailable block")) ∧
    (1 ≠ 0 → 1 < alloc_0001.size → alloc_0001.is_free 1 →
      alloc_0001.free 1 = .error (.runtime_error "Trying to release free memory block")) ∧
    (1 ≠ 0 → 1 < alloc_0001.size → ¬ alloc_0001.is_free 1 →
      alloc_0001.free 1
          = .ok ⟨alloc_0001.size, min alloc_0001.first_free 1, alloc_0001.status.set 1 FREE⟩ ∧
        (alloc_0001.status.set 1 FREE)[1]? = some FREE ∧
        ∀ j, j ≠ 1 → (alloc_0001.status.set 1 FREE)[j]? = alloc_0001.status[j]?) ∧
    (∀ a', alloc_0001.free 1 = .ok a' → a'.status[0]? = alloc_0001.status[0]?)) :=
  ⟨by decide, c20_free_contract alloc_0001 1 (by decide)⟩
/-! ### Claims C21 to C29 -/

/-- C21.  Allocator reuse.  In a reachable allocator state let slot `i` with `1 ≤ i < size`
be free.  Then `mark_as_used(i)` returns, `free(i)` after it returns, and the next
`get_free_index` returns an index `j` that is not 0, is at most `i` and is free. -/
theorem c21_allocator_reuse (a : Allocator) (i : Nat) (hr : a.Reachable) (h1 : 1 ≤ i)
    (hlt : i < a.size) (hfree : a.is_free i) :
    ∃ a1 a2 j a3, a.mark_as_used i = .ok a1 ∧ a1.free i = .ok a2 ∧
      a2.get_free_index = .ok (j, a3) ∧ j ≠ 0 ∧ j ≤ i ∧ a2.is_free j := by
  have hilen : i < a.status.length := (List.getElem?_eq_some.1 hfree).1
  have hm : a.mark_as_used i = .ok { a with status := a.status.set i USED } := by
    unfold Allocator.mark_as_used
    unfold Allocator.is_free at hfree
    rw [hfree]
    simp [FREE]
  have hf : ({ a with status := a.status.set i USED } : Allocator).free i
      = .ok ⟨a.size, min a.first_free i, (a.status.set i USED).set i FREE⟩ := by
    unfold Allocator.free
    simp only
    rw [if_neg (by omega), List.getElem?_set_self hilen]
    simp [USED, FREE]
  have hr2 := Allocator.Reachable.free (Allocator.Reachable.mark_as_used hr hm) hf
  obtain ⟨hwf, hh, h0⟩ := reachable_inv hr2
  obtain ⟨j, a3, hg, -, -, -, -, g5, g6⟩ := get_free_index_total hwf hh h0
  have hfi : (⟨a.size, min a.first_free i, (a.status.set i USED).set i FREE⟩ :
      Allocator).is_free i := by
    unfold Allocator.is_free
    simp only
    rw [List.getElem?_set_self (by simpa using hilen)]
  have hj0 : j ≠ 0 := fun e => g6 e i hfi
  refine ⟨_, _, j, a3, hm, hf, hg, hj0, ?_, (g5 hj0).1⟩
  by_contra hgt
  exact (g5 hj0).2 i (by omega) hfi

/-- C21, witness: slot 1 of the allocator `alloc_0101`. -/
theorem c21_allocator_reuse_witness :
    alloc_0101.Reachable ∧ alloc_0101.is_free 1 ∧
    ∃ a1 a2 j a3, alloc_0101.mark_as_used 1 = .ok a1 ∧ a1.free 1 = .ok a2 ∧
      a2.get_free_index = .ok (j, a3) ∧ j ≠ 0 ∧ j ≤ 1 ∧ a2.is_free j :=
  have hreach : alloc_0101.Reachable :=
    @Allocator.Reachable.free ⟨4, 1, [48, 48, 48, 49]⟩ _ 1
      (@Allocator.Reachable.mark_as_used ⟨4, 1, [48, 48, 49, 49]⟩ _ 2
        (@Allocator.Reachable.mark_as_used ⟨4, 1, [48, 49, 49, 49]⟩ _ 1
          (@Allocator.Reachable.get_free_index ⟨4, 1, [48, 49, 49, 49]⟩ _ 1
            (@Allocator.Reachable.loaded [4, 0, 48, 49, 49, 49] [] _ (by decide!) (by decide!))
            (by decide!))
          (by decide!))
        (by decide!))
      (by decide!)
  ⟨hreach, by decide!, c21_allocator_reuse alloc_0101 1 hreach (by decide) (by decide!) (by decide!)⟩

/-- C22.  Image round trip.  Take a byte image made of `N` as two bytes little-endian, `N`
status bytes, `4 * N` inode bytes, `M` as two bytes little-endian, `M` status bytes and
`53 * M` block bytes (`N` and `M` 16-bit numbers).  The constructor `File_System(f)` loads a
state from it, and `dump_file_system_to_file` of that state writes exactly the image. -/
theorem c22_image_round_trip (N M : Nat) (st1 ino st2 blk : vec_c)
    (hN : N < 65536) (hM : M < 65536) (h1 : st1.length = N) (h2 : ino.length = 4 * N)
    (h3 : st2.length = M) (h4 : blk.length = 53 * M)
    (hbytes : ∀ x ∈ st1 ++ ino ++ st2 ++ blk, x < 256) :
    ∃ fs, File_System.load
        (write_uint16_t N ++ st1 ++ ino ++ write_uint16_t M ++ st2 ++ blk) = .ok fs ∧
      fs.dump_file_system_to_file
        = .ok (write_uint16_t N ++ st1 ++ ino ++ write_uint16_t M ++ st2 ++ blk) := by
  obtain ⟨k1, hk1⟩ := find_first_free_from_total N st1 (le_of_eq h1.symm) N 0
  obtain ⟨k2, hk2⟩ := find_first_free_from_total M st2 (le_of_eq h3.symm) M 0
  obtain ⟨nodes, hnodes, hdn⟩ := inodes_read_image N ino (write_uint16_t M ++ st2 ++ (blk ++ []))
    h2 (fun x hx => hbytes x (by simp [hx]))
  obtain ⟨blocks, hblocks, hdb⟩ := memory_blocks_read_image M blk [] h4
    (fun x hx => hbytes x (by simp [hx]))
  have himg : write_uint16_t N ++ st1 ++ ino ++ write_uint16_t M ++ st2 ++ blk
      = write_uint16_t N ++ st1 ++ (ino ++ (write_uint16_t M ++ st2 ++ (blk ++ []))) := by
    simp only [List.append_assoc, List.append_nil]
  refine ⟨⟨⟨N, k1, st1⟩, nodes, ⟨M, k2, st2⟩, blocks⟩, ?_, ?_⟩
  · unfold File_System.load
    rw [himg, allocator_read_image _ hN h1 hk1]
    simp only
    rw [hnodes]
    simp only
    rw [allocator_read_image _ hM h3 hk2]
    simp only
    rw [hblocks]
  · unfold File_System.dump_file_system_to_file
    simp only
    rw [allocator_dump_image h1, allocator_dump_image h3, hdb, hdn]
    simp only [List.append_assoc]

/-- C22, witness: an image with two inode slots and one block, the block holding `hello`. -/
theorem c22_image_round_trip_witness :
    ∃ fs, File_System.load
        (write_uint16_t 2 ++ [48, 48] ++ [1, 0, 0, 0, 0, 1, 0, 0] ++ write_uint16_t 1 ++ [48]
          ++ ([0, 0, 5] ++ bytes_of "hello" ++ List.replicate 45 0)) = .ok fs ∧
      fs.dump_file_system_to_file
        = .ok (write_uint16_t 2 ++ [48, 48] ++ [1, 0, 0, 0, 0, 1, 0, 0] ++ write_uint16_t 1 ++ [48]
          ++ ([0, 0, 5] ++ bytes_of "hello" ++ List.replicate 45 0)) :=
  c22_image_round_trip 2 1 [48, 48] [1, 0, 0, 0, 0, 1, 0, 0] [48]
    ([0, 0, 5] ++ bytes_of "hello" ++ List.replicate 45 0)
    (by decide) (by decide) (by decide) (by decide) (by decide) (by decide!) (by decide!)

/-- C23.  Empty image layout.  For a 16-bit byte budget `B` with `N = B / 4 ≥ 1`,
`make_empty_file_system` emits, in order: `N` as two bytes little-endian and `N` status bytes
(`'0'` at index 0, `'1'` elsewhere); `N` inodes of 4 bytes (inode 0 is `1, 0, 0, 0`, the
others are zero); `N` and the same status bytes again; `N` blocks of 53 zero bytes.  The
output has `59 * N + 4` bytes. -/
theorem c23_empty_image_layout (B : Nat) (hB : B < 65536) (hN : 1 ≤ B / 4) :
    make_empty_file_system B
      = [B / 4 % 256, B / 4 / 256] ++ (USED :: List.replicate (B / 4 - 1) FREE)
        ++ ([1, 0, 0, 0] ++ List.replicate (4 * (B / 4 - 1)) 0)
        ++ [B / 4 % 256, B / 4 / 256] ++ (USED :: List.replicate (B / 4 - 1) FREE)
        ++ List.replicate (53 * (B / 4)) 0 ∧
    (make_empty_file_system B).length = 59 * (B / 4) + 4 := by
  obtain ⟨n, hn⟩ : ∃ n, B / 4 = n + 1 := ⟨B / 4 - 1, by omega⟩
  have hmod : B % 65536 = B := Nat.mod_eq_of_lt hB
  have hhi : (n + 1) / 256 % 256 = (n + 1) / 256 := Nat.mod_eq_of_lt (by omega)
  have heq : make_empty_file_system B
      = [(n + 1) % 256, (n + 1) / 256] ++ (USED :: List.replicate n FREE)
        ++ ([1, 0, 0, 0] ++ List.replicate (4 * n) 0)
        ++ [(n + 1) % 256, (n + 1) / 256] ++ (USED :: List.replicate n FREE)
        ++ List.replicate (53 * (n + 1)) 0 := by
    unfold make_empty_file_system
    rw [hmod, hn, write_manager_eq, write_inodes_eq, write_memory_blocks_eq, hhi]
    simp only [List.append_assoc]
  rw [hn, Nat.add_sub_cancel]
  refine ⟨heq, ?_⟩
  rw [heq]
  simp only [List.length_append, List.length_cons, List.length_nil, List.length_replicate]
  omega

/-- C23, witness: the budget `B = 236`, so `N = 59`. -/
theorem c23_empty_image_layout_witness :
    (236 : Nat) < 65536 ∧ 1 ≤ 236 / 4 ∧
    (make_empty_file_system 236
      = [236 / 4 % 256, 236 / 4 / 256] ++ (USED :: List.replicate (236 / 4 - 1) FREE)
        ++ ([1, 0, 0, 0] ++ List.replicate (4 * (236 / 4 - 1)) 0)
        ++ [236 / 4 % 256, 236 / 4 / 256] ++ (USED :: List.replicate (236 / 4 - 1) FREE)
        ++ List.replicate (53 * (236 / 4)) 0 ∧
    (make_empty_file_system 236).length = 59 * (236 / 4) + 4) :=
  ⟨by decide, by decide, c23_empty_image_layout 236 (by decide) (by decide)⟩

/-- C24.  Loading an empty image.  For a 16-bit byte budget `B ≥ 4` with `N = B / 4`, the
constructor `File_System(f)` loads a state from `make_empty_file_system(B)` in which inode 0
is a directory with reference count 0 and head block 0, the chain of block 0 reads as the
empty payload, the root directory has no entries, and `Allocator::info` reports `N` slots of
which `N - 1` are free for the inode allocator and for the block allocator. -/
theorem c24_load_empty_image (B : Nat) (hB4 : 4 ≤ B) (hB : B < 65536) :
    ∃ fs, File_System.load (make_empty_file_system B) = .ok fs ∧
      Inodes.is_inode_directory fs.inodes 0 = .ok true ∧
      Inodes.get_inode_pointers fs.inodes 0 = .ok 0 ∧
      Inodes.get_memory_block fs.inodes 0 = .ok 0 ∧
      Memory_Blocks.full_file_content fs.memory 0 = .ok [] ∧
      fs.find_directory [] = (.ok ⟨0, 0, [], []⟩, fs) ∧
      fs.inodes_allocator.info = .ok (B / 4, B / 4 - 1) ∧
      fs.memory_allocator.info = .ok (B / 4, B / 4 - 1) := by
  obtain ⟨n, hn⟩ : ∃ n, B / 4 = n + 1 := ⟨B / 4 - 1, by omega⟩
  have hread : Memory_Blocks.full_file_content
      (List.replicate (n + 1) (⟨0, 0, List.replicate 50 0⟩ : Memory_Block)) 0 = .ok [] := by
    simp [Memory_Blocks.full_file_content, Memory_Blocks.fill_content_with_memory_chunk,
      List.replicate_succ]
  refine ⟨_, load_make_empty B n hB hn, ?_, ?_, ?_, hread, ?_, ?_, ?_⟩
  · simp [Inodes.is_inode_directory]
  · simp [Inodes.get_inode_pointers]
  · simp [Inodes.get_memory_block]
  · unfold File_System.find_directory
    simp only [hread]
    rfl
  · rw [hn, Nat.add_sub_cancel]
    exact info_empty n (by omega)
  · rw [hn, Nat.add_sub_cancel]
    exact info_empty n (by omega)

/-- C24, witness: the budget `B = 236` gives 59 slots of which 58 are free. -/
theorem c24_load_empty_image_witness :
    (4 : Nat) ≤ 236 ∧ (236 : Nat) < 65536 ∧
    ∃ fs, File_System.load (make_empty_file_system 236) = .ok fs ∧
      Inodes.is_inode_directory fs.inodes 0 = .ok true ∧
      Inodes.get_inode_pointers fs.inodes 0 = .ok 0 ∧
      Inodes.get_memory_block fs.inodes 0 = .ok 0 ∧
      Memory_Blocks.full_file_content fs.memory 0 = .ok [] ∧
      fs.find_directory [] = (.ok ⟨0, 0, [], []⟩, fs) ∧
      fs.inodes_allocator.info = .ok (59, 58) ∧
      fs.memory_allocator.info = .ok (59, 58) :=
  ⟨by decide, by decide, c24_load_empty_image 236 (by decide) (by decide)⟩

/-- C25, counterexample.  `linked_blocks 1311` holds an acyclic chain of exactly
`1311 = max(1, ceil(65536 / 50))` blocks of 50 bytes, and `save_file` with a payload of
65536 bytes on its head has no result: the 16-bit cursor `con_idx` never reaches the
length of the payload. -/
theorem c25_long_payload_counterexample :
    Chain (linked_blocks 1311) 0 (List.range' 0 1311) ∧
    (List.range' 0 1311).length = max 1 (((List.replicate 65536 120).length + 49) / 50) ∧
    Sized (linked_blocks 1311) ∧
    Memory_Blocks.save_file (linked_blocks 1311) 0 (List.replicate 65536 120)
      = .error .undefined := by
  refine ⟨chain_linked 1311 1310 0 (by norm_num), ?_, sized_linked 1311, ?_⟩
  · rw [List.length_range', List.length_replicate]
    decide
  · unfold Memory_Blocks.save_file
    rw [if_pos (by rw [List.length_replicate])]

/-- C25 (amended).  Chain write/read round trip.  Let `c` be the acyclic chain from `h`,
every block carrying 50 payload bytes, and let `bytes` have length `L < 65536` with
`c.length = max(1, ceil(L / 50))`.  Then `save_file(h, bytes)` returns and afterwards
`full_file_content(h)` returns exactly `bytes`; the chain is still `c`; every block of `c`
before the last has `occupied = 50`, the last has `occupied = L - 50 * (K - 1)`; an empty
payload gives `occupied = 0` on the head; no block outside `c` is modified. -/
theorem c25_chain_write_read (blocks : mem_v) (h : Nat) (c : List Nat) (bytes : vec_c)
    (hc : Chain blocks h c) (hs : Sized blocks) (hL : bytes.length < 65536)
    (hK : c.length = max 1 ((bytes.length + 49) / 50)) :
    ∃ blocks', Memory_Blocks.save_file blocks h bytes = .ok blocks' ∧
      Memory_Blocks.full_file_content blocks' h = .ok bytes ∧
      Chain blocks' h c ∧
      (∀ j i, j + 1 < c.length → (c)[j]? = some i → occupied_at blocks' i = 50) ∧
      (∀ i, (c)[c.length - 1]? = some i →
        occupied_at blocks' i = bytes.length - 50 * (c.length - 1)) ∧
      (bytes = [] → occupied_at blocks' h = 0) ∧
      (∀ i, i ∉ c → blocks'[i]? = blocks[i]?) := by
  have hK' : (c.length = 1 ∧ bytes.length + 49 < 100) ∨
      (c.length = (bytes.length + 49) / 50 ∧ 1 ≤ (bytes.length + 49) / 50) := by
    rcases le_total 1 ((bytes.length + 49) / 50) with h1 | h1
    · rw [max_eq_right h1] at hK
      exact Or.inr ⟨hK, h1⟩
    · rw [max_eq_left h1] at hK
      exact Or.inl ⟨hK, by omega⟩
  have hcap : bytes.length ≤ content_size * c.length := by
    simp only [content_size]
    omega
  obtain ⟨blocks', k, mi', e1, -, e3, e4, e5, e6, e7, e8, e9, e10, e11⟩ :=
    save_file_spec hc hs hL hcap
  have hnil : bytes = [] → bytes.length = 0 := fun e => by rw [e]; rfl
  have hpos : 0 < bytes.length → 0 < mi' := fun hp =>
    e9 (fun e => by rw [hnil e] at hp; omega)
  have hk1 : k + 1 = c.length := by
    simp only [content_size] at e7 e8
    rcases Nat.eq_zero_or_pos bytes.length with h0 | hp
    · omega
    · have := hpos hp
      omega
  have htake : c.take (k + 1) = c := by
    rw [hk1, List.take_length]
  rw [htake] at e5 e10 e11
  have hc' : Chain blocks' h c := chain_of_same_next hc e4
  obtain ⟨o1, o2⟩ := save_file_occupied hc hs hL hcap e1 e7 e8 e9
  refine ⟨blocks', e1, ?_, hc', ?_, ?_, ?_, e5⟩
  · rw [full_file_content_spec hc' ?_, e11]
    intro i hi b hb
    have h1 := e10 i hi
    simp only [occupied_at, hb] at h1
    rw [e3 b (List.mem_iff_getElem?.2 ⟨i, hb⟩)]
    exact h1
  · intro j i hj hji
    refine o1 i ?_
    rw [List.mem_iff_getElem?]
    exact ⟨j, by rw [List.getElem?_take, if_pos (by omega)]; exact hji⟩
  · intro i hi
    rw [show c.length - 1 = k by omega] at hi ⊢
    rw [o2 i hi]
    simp only [content_size] at e7
    omega
  · intro hb
    have h0 := hnil hb
    obtain ⟨tl, rfl⟩ := chain_head hc
    have hk0 : k = 0 := by
      simp only [content_size] at e7
      omega
    subst hk0
    rw [o2 h (by simp)]
    omega

/-- C25 (amended), witness: 60 bytes written to the chain `0 → 1` of `linked_blocks 2`. -/
theorem c25_chain_write_read_witness :
    ∃ blocks', Memory_Blocks.save_file (linked_blocks 2) 0 (List.replicate 60 120) = .ok blocks' ∧
      Memory_Blocks.full_file_content blocks' 0 = .ok (List.replicate 60 120) ∧
      Chain blocks' 0 [0, 1] ∧
      (∀ j i, j + 1 < [0, 1].length → ([0, 1] : List Nat)[j]? = some i →
        occupied_at blocks' i = 50) ∧
      (∀ i, ([0, 1] : List Nat)[[0, 1].length - 1]? = some i →
        occupied_at blocks' i = (List.replicate 60 120).length - 50 * ([0, 1].length - 1)) ∧
      (List.replicate 60 120 = [] → occupied_at blocks' 0 = 0) ∧
      (∀ i, i ∉ [0, 1] → blocks'[i]? = (linked_blocks 2)[i]?) :=
  c25_chain_write_read (linked_blocks 2) 0 [0, 1] (List.replicate 60 120)
    (chain_linked 2 1 0 (by norm_num)) (sized_linked 2)
    (by rw [List.length_replicate]; decide) (by rw [List.length_replicate]; decide)

/-- C26.  Shrink step of reshape.  Let `c` be the acyclic chain from `g` with `K` blocks,
`50 * K < 65536`, whose blocks after the head are marked used in the block allocator (which
satisfies its class invariant), and let `L ≤ 50 * K`.  With at least `K` units of fuel `deallocate_excessive_memory(g, L, 50 * K)`
returns; it never reaches the error of `erase_from_block_list`.  Afterwards the chain from
`g` is the first `min(K, L / 50 + 1)` blocks of `c`, still contains `g` and has room for `L`
bytes; every other block of `c` is zeroed and marked free; blocks outside `c` keep their
content and status. -/
theorem c26_shrink_step (fs : File_System) (g L fuel : Nat) (c : List Nat)
    (hc : Chain fs.memory g c) (h16 : 50 * c.length < 65536)
    (hwf : fs.memory_allocator.wf)
    (hused : ∀ i ∈ c.tail, fs.memory_allocator.status[i]? = some USED)
    (hL : L ≤ 50 * c.length) (hfuel : c.length ≤ fuel) :
    ∃ fs', File_System.deallocate_excessive_memory g L fuel fs (50 * c.length) = (.ok (), fs') ∧
      Chain fs'.memory g (c.take (min c.length (L / 50 + 1))) ∧
      g ∈ c.take (min c.length (L / 50 + 1)) ∧
      L ≤ 50 * (c.take (min c.length (L / 50 + 1))).length ∧
      (∀ i ∈ c.drop (min c.length (L / 50 + 1)),
        fs'.memory[i]? = some ⟨0, 0, List.replicate 50 0⟩ ∧ fs'.memory_allocator.is_free i) ∧
      (∀ i, i ∉ c → fs'.memory[i]? = fs.memory[i]? ∧
        fs'.memory_allocator.status[i]? = fs.memory_allocator.status[i]?) := by
  obtain ⟨fs', hrun⟩ := deallocate_excessive_memory_total g L fuel fs c hc h16 hwf.2 hused hfuel
  obtain ⟨cd', rest, q1, q2, -, q4, q5, q6, -, -, q9, q10, q11⟩ :=
    deallocate_excessive_memory_spec hrun hc rfl h16
  have hpos := chain_length_pos q2
  have hlen : c.length = cd'.length + rest.length := by rw [q1, List.length_append]
  have hn : min c.length (L / 50 + 1) = cd'.length := by
    simp only [content_size] at q10 q11
    rcases Nat.eq_zero_or_pos rest.length with h0 | hp
    · rw [Nat.min_def]
      split <;> omega
    · have := q10 (fun e => by rw [e] at hp; simp at hp)
      rw [Nat.min_def]
      split <;> omega
  have htake : c.take cd'.length = cd' := by rw [q1, List.take_left]
  have hdrop : c.drop cd'.length = rest := by rw [q1, List.drop_left]
  rw [hn, htake, hdrop]
  refine ⟨fs', hrun, q2, ?_, q9 hL, q6, fun i hi => ⟨q4 i hi, q5 i hi⟩⟩
  obtain ⟨tl, htl⟩ := chain_head q2
  rw [htl]
  simp

/-- C26, witness: the chain `0 → 1 → 2` of `image_chain3` shrunk for a payload of 10 bytes;
one block is left. -/
theorem c26_shrink_step_witness :
    ∃ fs', File_System.deallocate_excessive_memory 0 10 3 image_chain3 (50 * [0, 1, 2].length)
        = (.ok (), fs') ∧
      Chain fs'.memory 0 ([0, 1, 2].take (min [0, 1, 2].length (10 / 50 + 1))) ∧
      0 ∈ [0, 1, 2].take (min [0, 1, 2].length (10 / 50 + 1)) ∧
      10 ≤ 50 * ([0, 1, 2].take (min [0, 1, 2].length (10 / 50 + 1))).length ∧
      (∀ i ∈ [0, 1, 2].drop (min [0, 1, 2].length (10 / 50 + 1)),
        fs'.memory[i]? = some ⟨0, 0, List.replicate 50 0⟩ ∧ fs'.memory_allocator.is_free i) ∧
      (∀ i, i ∉ [0, 1, 2] → fs'.memory[i]? = image_chain3.memory[i]? ∧
        fs'.memory_allocator.status[i]? = image_chain3.memory_allocator.status[i]?) :=
  c26_shrink_step image_chain3 0 10 3 [0, 1, 2] (chain_of_iff.1 (by decide!)) (by decide)
    (by decide!) (by decide!) (by decide) (by decide)

/-- C27.  Path splitting.  `path("/")` returns no segment and leaves the string `"/"`.  For
every other string `s`, `path(s)` returns: it gives segments `segs` and leaves a leaf such
that joining the segments and the leaf with `'/'` gives `s`, there are as many segments as
`'/'` characters in `s`, and neither a segment nor the leaf contains `'/'`. -/
theorem c27_path_splitting (s : List Nat) (hs : s ≠ [47]) :
    path [47] = .ok ([], [47]) ∧
    ∃ segs leaf, path s = .ok (segs, leaf) ∧
      List.intercalate [47] (segs ++ [leaf]) = s ∧ segs.length = s.count 47 ∧
      (∀ g ∈ segs, 47 ∉ g) ∧ 47 ∉ leaf := by
  refine ⟨by simp [path], ?_⟩
  unfold path
  rw [if_pos hs]
  exact path_loop_spec s.length s (le_refl _)

/-- C27, witness: the string `x/y/z`. -/
theorem c27_path_splitting_witness :
    path (bytes_of "x/y/z") = .ok ([bytes_of "x", bytes_of "y"], bytes_of "z") ∧
    (path [47] = .ok ([], [47]) ∧
      ∃ segs leaf, path (bytes_of "x/y/z") = .ok (segs, leaf) ∧
        List.intercalate [47] (segs ++ [leaf]) = bytes_of "x/y/z" ∧
        segs.length = (bytes_of "x/y/z").count 47 ∧
        (∀ g ∈ segs, 47 ∉ g) ∧ 47 ∉ leaf) :=
  ⟨by decide!, c27_path_splitting (bytes_of "x/y/z") (by decide!)⟩

/-- C28 (evaluation at the failing input).  `image_ghost_hello` is reached from the empty
image of 16 bytes by `touch name47; touch b; erase b; echo hello > b` (all four return).
`erase b` left the record of `b` in the root and freed block 2, so `b` still resolves to
inode 2, a regular file whose chain is block 2 alone, and after the write its payload is
`hello`; no block but block 2 is free.  `write_to_file([], b, m)` with 200 bytes fails with
`Out of memory`, but before it fails `allocate_needed_memory` appends block 2, the head of
the file itself, to the chain and clears it: `get_file_content([], b)` afterwards returns
the empty sequence, not `hello`. -/
theorem c28_failed_write_clears_content :
    (empty16.add_file [] name47).1 = .ok () ∧
    ((empty16.add_file [] name47).2.add_file [] (bytes_of "b")).1 = .ok () ∧
    image_dir54.erase [] (bytes_of "b") = (.ok (), image_ghost_file) ∧
    image_ghost_file.write_to_file [] (bytes_of "b") (bytes_of "hello")
      = (.ok (), image_ghost_hello) ∧
    image_ghost_hello.find_directory []
      = (.ok ⟨0, 0, [name47, bytes_of "b"], [1, 2]⟩, image_ghost_hello) ∧
    image_ghost_hello.inodes[2]? = some ⟨0, 0, 2⟩ ∧
    Memory_Blocks.chain_of image_ghost_hello.memory 2 = some [2] ∧
    image_ghost_hello.memory_allocator.status = [48, 48, 49, 48] ∧
    (image_ghost_hello.get_file_content [] (bytes_of "b")).1 = .ok (bytes_of "hello") ∧
    (image_ghost_hello.write_to_file [] (bytes_of "b") (List.replicate 200 120)).1
      = .error (.runtime_error "Unable to extend directory; Out of memory") ∧
    Memory_Blocks.chain_of
      (image_ghost_hello.write_to_file [] (bytes_of "b") (List.replicate 200 120)).2.memory 2
      = some [2] ∧
    ((image_ghost_hello.write_to_file [] (bytes_of "b") (List.replicate 200 120)).2.get_file_content
      [] (bytes_of "b")).1 = .ok [] := by
  decide!

/-- A write that runs out of blocks keeps the old content in a state whose chains are
consistent with the block allocator.  Let `path` resolve to the
directory `dir` without creating anything, let `name` be an entry of `dir` whose inode is a
regular file with head block `h`, acyclic chain `c` and payload `p`.  The state satisfies
the invariants of the data model that concern these chains: blocks carry 50 payload bytes,
the allocator hints do not pass `size`, no block of the file is marked free, and no block
of a directory chain belongs to the file or is marked free.  If `write_to_file(path, name,
m)` fails with `Unable to extend directory; Out of memory`, then in the state it leaves
`get_file_content(path, name)` returns exactly `p`; the chain from `h` is `c` followed by
blocks that were free before, which have `occupied = 0` and are marked used; and every block
that is neither in `c` nor was marked free (so every block of another chain) is unchanged. -/
theorem failed_write_keeps_content_of_used_chains (s s2 : File_System) (path : vec_s)
    (name m p : List Nat) (dir : Directory) (refcount h : Nat) (c : List Nat)
    (hia : s.inodes_allocator.wf) (hma : s.memory_allocator.wf) (hs : Sized s.memory)
    (hres : s.find_directory path = (.ok dir, s))
    (hf0 : dir.get_file_inode name ≠ 0)
    (hnode : s.inodes[dir.get_file_inode name]? = some ⟨0, refcount, h⟩)
    (hchain : Memory_Blocks.chain_of s.memory h = some c)
    (hold : Memory_Blocks.full_file_content s.memory h = .ok p)
    (hused : ∀ i ∈ c, ¬ s.memory_allocator.is_free i)
    (hdirs : ∀ g ∈ directory_heads s.inodes, ∀ b ∈ chain_blocks s.memory g,
      b ∉ c ∧ ¬ s.memory_allocator.is_free b)
    (hw : s.write_to_file path name m
      = (.error (.runtime_error "Unable to extend directory; Out of memory"), s2)) :
    s2.get_file_content path name = (.ok p, s2) ∧
    (∃ new, Memory_Blocks.chain_of s2.memory h = some (c ++ new) ∧
      ∀ i ∈ new, s.memory_allocator.is_free i ∧ occupied_at s2.memory i = 0 ∧
        s2.memory_allocator.status[i]? = some USED) ∧
    (∀ i, i ∉ c → ¬ s.memory_allocator.is_free i → s2.memory[i]? = s.memory[i]?) := by
  have hc : Chain s.memory h c := chain_of_iff.1 hchain
  obtain ⟨c', hc', hocc, hold'⟩ := full_file_content_inv hold
  have := chain_unique hc hc'
  subst this
  -- the write stops in `allocate_needed_memory`
  have hgf : s.get_file dir name = .ok ⟨h, p⟩ := by
    unfold File_System.get_file Inodes.get_memory_block Inodes.is_inode_directory
    simp [hnode, hf0, hold]
  unfold File_System.write_to_file at hw
  rw [hres] at hw
  simp only [hgf, File_System.save_file_to_memory, File.add_to_file] at hw
  have hin : s2.inodes = s.inodes := by
    have := (save_content_to_memory_inodes s h (p ++ m)).2
    rw [hw] at this
    exact this
  obtain ⟨new, q1, -, q5, q6, q7, -, q9, q12, -⟩ :=
    allocate_needed_memory_any (save_content_to_memory_out_of_memory hc hw) hc hma.1 hused
      (Nat.mod_lt _ (by norm_num))
  have hframe : ∀ i, i ∉ c → ¬ s.memory_allocator.is_free i → s2.memory[i]? = s.memory[i]? :=
    fun i h1 h2 => q7 i h1 (fun hmem => h2 (q5 i hmem).1)
  have hdisj : ∀ i ∈ c, i ∉ new := fun i hi hmem => hused i hi (q5 i hmem).1
  -- the read
  have hread : Memory_Blocks.full_file_content s2.memory h = .ok p := by
    rw [full_file_content_spec q1 ?_, chain_payload_append,
      chain_payload_nil_of_occupied (fun i hi => (q5 i hi).2), List.append_nil,
      chain_payload_of_block_payload (fun i hi => (q6 i (hdisj i hi)).1), hold']
    intro i hi b hb
    rw [q12 hs b (List.mem_iff_getElem?.2 ⟨i, hb⟩)]
    rcases List.mem_append.1 hi with hi | hi
    · have h1 := (q6 i (hdisj i hi)).2
      obtain ⟨b0, hb0⟩ : ∃ b0, s.memory[i]? = some b0 :=
        ⟨_, List.getElem?_eq_getElem (chain_mem_lt hc i hi)⟩
      have h2 := hocc i hi b0 hb0
      rw [hs b0 (List.mem_iff_getElem?.2 ⟨i, hb0⟩)] at h2
      simp only [occupied_at, hb, hb0] at h1
      omega
    · have h1 := (q5 i hi).2
      simp only [occupied_at, hb] at h1
      omega
  have hag : ∀ g ∈ directory_heads s.inodes, ∀ cg, Chain s.memory g cg →
      ∀ b ∈ cg, s2.memory[b]? = s.memory[b]? := by
    intro g hg cg hcg b hb
    have hcb : chain_blocks s.memory g = cg := by
      unfold chain_blocks
      rw [chain_of_iff.2 hcg]
      rfl
    obtain ⟨h1, h2⟩ := hdirs g hg b (by rw [hcb]; exact hb)
    exact hframe b h1 h2
  refine ⟨?_, ⟨new, chain_of_iff.2 q1, fun i hi => ⟨(q5 i hi).1, (q5 i hi).2, q9 i hi⟩⟩, hframe⟩
  unfold File_System.get_file_content
  rw [find_directory_frame hres hia.1 hin hag]
  unfold Inodes.get_memory_block Inodes.is_inode_directory
  simp [hin, hnode, hread]

/-- An instance of `failed_write_keeps_content_of_used_chains`: the file `a` of `image_hello` holds `hello` in block 1 and blocks 2 and 3
are free; writing 200 more bytes needs five blocks and fails. -/
theorem failed_write_keeps_content_of_used_chains_example :
    image_hello.write_to_file [] (bytes_of "a") (List.replicate 200 120)
      = (.error (.runtime_error "Unable to extend directory; Out of memory"),
          image_hello_full) ∧
    (image_hello_full.get_file_content [] (bytes_of "a") = (.ok (bytes_of "hello"), image_hello_full) ∧
    (∃ new, Memory_Blocks.chain_of image_hello_full.memory 1 = some ([1] ++ new) ∧
      ∀ i ∈ new, image_hello.memory_allocator.is_free i ∧
        occupied_at image_hello_full.memory i = 0 ∧
        image_hello_full.memory_allocator.status[i]? = some USED) ∧
    (∀ i, i ∉ [1] → ¬ image_hello.memory_allocator.is_free i →
      image_hello_full.memory[i]? = image_hello.memory[i]?)) :=
  ⟨by decide!,
   failed_write_keeps_content_of_used_chains image_hello image_hello_full [] (bytes_of "a")
    (List.replicate 200 120) (bytes_of "hello") ⟨0, 0, [bytes_of "a"], [1]⟩ 1 1 [1]
    (by decide!) (by decide!) (by decide!) (by decide!) (by decide!) (by decide!) (by decide!)
    (by decide!) (by decide!) (by decide!) (by decide!)⟩

/-- C29, counterexample.  Two inputs on which `save_content_to_memory(h, bytes)` does not
leave the chain of `g` alone although the chains from `h` and `g` are acyclic, share no
block and the blocks of `g` are marked used.  (1) In `image_hello` with `h = 1`, `g = 0` and
65536 bytes the call has no defined outcome: the 16-bit cursor of `save_file` never
reaches the length of the payload.  (2) In `image_free_head` with `h = 1`, `g = 0` and 60
bytes the call succeeds; block 1, the head of `h`, is marked free, so it is appended to
its own chain and cleared, and `save_file` walks on into block 0: the chain of `g` read
`hello` before and reads ten bytes `x` afterwards. -/
theorem c29_reshape_counterexample :
    (Memory_Blocks.chain_of image_hello.memory 1 = some [1] ∧
      Memory_Blocks.chain_of image_hello.memory 0 = some [0] ∧
      image_hello.memory_allocator.status[0]? = some USED ∧
      (image_hello.save_content_to_memory 1 (List.replicate 65536 120)).1
        = .error .undefined) ∧
    (Memory_Blocks.chain_of image_free_head.memory 1 = some [1] ∧
      Memory_Blocks.chain_of image_free_head.memory 0 = some [0] ∧
      image_free_head.memory_allocator.status[0]? = some USED ∧
      (image_free_head.save_content_to_memory 1 (List.replicate 60 120)).1 = .ok () ∧
      Memory_Blocks.full_file_content image_free_head.memory 0 = .ok (bytes_of "hello") ∧
      Memory_Blocks.full_file_content
        (image_free_head.save_content_to_memory 1 (List.replicate 60 120)).2.memory 0
        = .ok (List.replicate 10 120)) := by
  exact ⟨⟨by decide!, by decide!, by decide!,
    save_content_to_memory_long (List.length_replicate _ _) (by decide!)⟩, by decide!⟩

/-- C29 (amended).  Reshape does not disturb other chains.  Let the chains from `h` and `g`
be acyclic and share no block, let no block of either chain be marked free, let every block
carry 50 payload bytes, let the block allocator satisfy its class invariant and cover no
more slots than there are blocks, and let `bytes` have fewer than 65536 bytes.  Then
`save_content_to_memory(h, bytes)` returns or throws, and in both cases every block of the
chain of `g` is unchanged, the chain of `g` is the same, `full_file_content(g)` returns the
same bytes as before, and the chain from `h` still shares no block with it. -/
theorem c29_reshape_frame (fs : File_System) (h g : Nat) (c cg : List Nat) (bytes : vec_c)
    (hc : Chain fs.memory h c) (hcg : Chain fs.memory g cg) (hdisj : ∀ i ∈ c, i ∉ cg)
    (hgused : ∀ i ∈ cg, ¬ fs.memory_allocator.is_free i)
    (hhused : ∀ i ∈ c, ¬ fs.memory_allocator.is_free i)
    (hs : Sized fs.memory) (hwf : fs.memory_allocator.wf)
    (hsize : fs.memory_allocator.size ≤ fs.memory.length) (hL : bytes.length < 65536) :
    ∃ r fs', fs.save_content_to_memory h bytes = (r, fs') ∧ r ≠ .error .undefined ∧
      (∀ i ∈ cg, fs'.memory[i]? = fs.memory[i]?) ∧ Chain fs'.memory g cg ∧
      (∀ p, Memory_Blocks.full_file_content fs.memory g = .ok p →
        Memory_Blocks.full_file_content fs'.memory g = .ok p) ∧
      ∃ c', Chain fs'.memory h c' ∧ ∀ i ∈ c', i ∉ cg := by
  -- what is left to show once the blocks of `g` are known to be unchanged
  have fin : ∀ (r : Except Failure Unit) (fs' : File_System) (c' : List Nat),
      fs.save_content_to_memory h bytes = (r, fs') → r ≠ .error .undefined →
      (∀ i ∈ cg, fs'.memory[i]? = fs.memory[i]?) → Chain fs'.memory h c' →
      (∀ i ∈ c', i ∉ cg) →
      ∃ r fs', fs.save_content_to_memory h bytes = (r, fs') ∧ r ≠ .error .undefined ∧
        (∀ i ∈ cg, fs'.memory[i]? = fs.memory[i]?) ∧ Chain fs'.memory g cg ∧
        (∀ p, Memory_Blocks.full_file_content fs.memory g = .ok p →
          Memory_Blocks.full_file_content fs'.memory g = .ok p) ∧
        ∃ c', Chain fs'.memory h c' ∧ ∀ i ∈ c', i ∉ cg :=
    fun r fs' c' h1 h2 h3 h4 h5 =>
      ⟨r, fs', h1, h2, h3, chain_congr_eq hcg h3,
        fun p hp => full_file_content_congr hcg h3 hp, c', h4, h5⟩
  -- the write into a chain with enough room
  have write : ∀ (fs1 : File_System) (c1 : List Nat), Chain fs1.memory h c1 →
      Sized fs1.memory → bytes.length ≤ content_size * c1.length →
      (∀ i ∈ c1, i ∉ cg) → (∀ i ∈ cg, fs1.memory[i]? = fs.memory[i]?) →
      ∃ blocks', Memory_Blocks.save_file fs1.memory h bytes = .ok blocks' ∧
        (∀ i ∈ cg, blocks'[i]? = fs.memory[i]?) ∧ Chain blocks' h c1 := by
    intro fs1 c1 hc1 hs1 hcap hd1 hfr
    obtain ⟨blocks', k, mi', e1, -, -, e4, e5, -⟩ := save_file_spec hc1 hs1 hL hcap
    refine ⟨blocks', e1, fun i hi => ?_, chain_of_same_next hc1 e4⟩
    rw [e5 i (fun hmem => hd1 i (List.mem_of_mem_take hmem) hi), hfr i hi]
  have hmod : bytes.length % 65536 = bytes.length := Nat.mod_eq_of_lt hL
  have hstep : fs.save_content_to_memory h bytes
      = (match
          (if bytes.length % 65536 > content_size * c.length % 65536 then
            File_System.allocate_needed_memory h (bytes.length % 65536)
              (fs.memory_allocator.status.length + 1) fs (content_size * c.length % 65536)
          else
            File_System.deallocate_excessive_memory h (bytes.length % 65536)
              (fs.memory.length + 1) fs (content_size * c.length % 65536)) with
        | (.error e, fs') => (.error e, fs')
        | (.ok (), fs') =>
          match Memory_Blocks.save_file fs'.memory h bytes with
          | .error e => (.error e, fs')
          | .ok blocks => (.ok (), { fs' with memory := blocks })) := by
    unfold File_System.save_content_to_memory
    rw [get_file_size_spec hc]
  by_cases hgt : bytes.length % 65536 > content_size * c.length % 65536
  · -- the chain grows
    rw [if_pos hgt] at hstep
    have hdef := allocate_needed_memory_defined h (bytes.length % 65536)
      (fs.memory_allocator.status.length + 1) fs c (content_size * c.length % 65536) hc hwf
      hsize hhused (Nat.lt_succ_of_le (List.count_le_length _ _))
    cases hal : File_System.allocate_needed_memory h (bytes.length % 65536)
      (fs.memory_allocator.status.length + 1) fs (content_size * c.length % 65536) with
    | mk r1 fs1 =>
      rw [hal] at hstep hdef
      simp only at hdef
      obtain ⟨new, q1, -, q5, -, q7, -, -, q12, q13⟩ :=
        allocate_needed_memory_any hal hc hwf.1 hhused (Nat.mod_lt _ (by norm_num))
      have hfr : ∀ i ∈ cg, fs1.memory[i]? = fs.memory[i]? := fun i hi =>
        q7 i (fun hmem => hdisj i hmem hi) (fun hmem => hgused i hi (q5 i hmem).1)
      have hd1 : ∀ i ∈ c ++ new, i ∉ cg := by
        intro i hi hmem
        rcases List.mem_append.1 hi with hi | hi
        · exact hdisj i hi hmem
        · exact hgused i hmem (q5 i hi).1
      cases r1 with
      | error e => exact fin (.error e) fs1 (c ++ new) hstep hdef hfr q1 hd1
      | ok u =>
        have hcap : bytes.length ≤ content_size * (c ++ new).length := by
          have h1 := q13 rfl
          have h2 := Nat.mod_le (content_size * c.length % 65536 + content_size * new.length) 65536
          have h3 := Nat.mod_le (content_size * c.length) 65536
          rw [List.length_append, Nat.mul_add]
          omega
        obtain ⟨blocks', e1, e2, e3⟩ := write fs1 (c ++ new) q1 (q12 hs) hcap hd1 hfr
        simp only [e1] at hstep
        exact fin (.ok ()) _ (c ++ new) hstep (by simp) e2 e3 hd1
  · -- the chain shrinks
    rw [if_neg hgt] at hstep
    have hdef := deallocate_excessive_memory_defined h (bytes.length % 65536)
      (fs.memory.length + 1) fs c (content_size * c.length % 65536) hc hwf.2
      (Nat.le_succ_of_le (chain_length_le hc))
    cases hal : File_System.deallocate_excessive_memory h (bytes.length % 65536)
      (fs.memory.length + 1) fs (content_size * c.length % 65536) with
    | mk r1 fs1 =>
      rw [hal] at hstep hdef
      simp only at hdef
      obtain ⟨cd', rest, q1, q2, -, q4, -, q8, q9⟩ :=
        deallocate_excessive_memory_any hal hc rfl (by omega)
      have hfr : ∀ i ∈ cg, fs1.memory[i]? = fs.memory[i]? := fun i hi =>
        q4 i (fun hmem => hdisj i hmem hi)
      have hd1 : ∀ i ∈ cd', i ∉ cg := fun i hi =>
        hdisj i (by rw [q1]; exact List.mem_append_left _ hi)
      cases r1 with
      | error e => exact fin (.error e) fs1 cd' hstep hdef hfr q2 hd1
      | ok u =>
        have hcap : bytes.length ≤ content_size * cd'.length := by
          have := q9 rfl
          omega
        obtain ⟨blocks', e1, e2, e3⟩ := write fs1 cd' q2 (q8 hs) hcap hd1 hfr
        simp only [e1] at hstep
        exact fin (.ok ()) _ cd' hstep (by simp) e2 e3 hd1

/-- C29 (amended), witness: in `image_hello` the chain of the file `a` (block 1) is
rewritten with 10 bytes; the root chain (block 0) is the other chain. -/
theorem c29_reshape_frame_witness :
    ∃ r fs', image_hello.save_content_to_memory 1 (List.replicate 10 120) = (r, fs') ∧
      r ≠ .error .undefined ∧
      (∀ i ∈ [0], fs'.memory[i]? = image_hello.memory[i]?) ∧ Chain fs'.memory 0 [0] ∧
      (∀ p, Memory_Blocks.full_file_content image_hello.memory 0 = .ok p →
        Memory_Blocks.full_file_content fs'.memory 0 = .ok p) ∧
      ∃ c', Chain fs'.memory 1 c' ∧ ∀ i ∈ c', i ∉ [0] :=
  c29_reshape_frame image_hello 1 0 [1] [0] (List.replicate 10 120)
    (chain_of_iff.1 (by decide!)) (chain_of_iff.1 (by decide!)) (by decide) (by decide!)
    (by decide!) (by decide!) (by decide!) (by decide!) (by decide!)
end FS
